import Mathlib

/-!
# Watchdog scan engine: a shallow embedding of `backend/scanner/service.go`

The Go service keeps a registry `activeScans : map[string]*ScanInstance`, starts one
goroutine per scan (`executeScan`) and lets callers poll (`GetStatus`) or cancel
(`CancelScan`) while the goroutine runs.

Modelling conventions:

* Go `int` is `Int`, `float64` is `ℚ` (every float literal of the source is an exact
  rational), `time.Time` and `time.Duration` are `Int` nanoseconds.
* Arithmetic on `float64` is carried out exactly; the rounding of a float64 operation is not
  modelled. Statements about the two float64 computations of `updateProgress` are therefore
  made at the inputs of the pipeline (the percentages 10, 25, 40, 60, 80, 100 and the task
  totals 5 and 8), where every intermediate result is far inside the range in which the
  rounding cannot move an integer part, or about properties that the rounding keeps.
* The conversion of a float64 to a 64-bit integer and the product of two durations follow
  the machine: `toInt64` saturates outside the range of int64 and `wrapInt64` wraps around.
* `map[string]string` and `map[string]interface{}` are association lists read with
  `List.lookup`; the registry is a function `String → Option Nat` from identifiers to
  heap addresses, because its values are pointers.
* `*ScanInstance` pointers are addresses into a heap of cells. A cell holds the instance,
  the state of the context that `scan.Cancel` cancels, and the state of the goroutine that
  `StartScan` launched for it (program counter and result accumulator).
* Library calls whose answer the repository does not determine (`uuid.New`, `time.Now`,
  `url.Parse`, the HTTP request) are inputs: parameters of the functions or fields of `Env`.
* The storage port and the event sink are recorded as logs of the calls made to them; what
  they answer (the error of a storage call, a panic of an emission) is an input as well.
* The storage manager of `backend/storage/manager.go` is modelled on its own, over a store
  of JSON documents in key order; `Manager.replay` hands it the calls that a service has
  made on its storage port.
* Concurrency is interleaving: a schedule is a list of actions, each of which is one call of
  a public operation or one statement of `executeScan` in one goroutine, taken as atomic.
  `executeScan` below is therefore the transition function of that goroutine: it executes
  the statement the program counter points at.
-/

namespace Watchdog

/-! ## Data model (service.go, lines 17-127) -/

/-- Time stamps and durations, in nanoseconds. -/
abbrev Time := Int

/-- Values a Go `interface{}` of a configuration map can hold. -/
inductive Value where
  | str (s : String)
  | bool (b : Bool)
  | float (q : ℚ)
  | int (n : Int)
  | null
  deriving DecidableEq

/-- Go `map[string]interface{}` used for the configuration input. -/
abbrev ConfigMap := List (String × Value)

/-- Go `map[string]string`. -/
abbrev HeaderMap := List (String × String)

structure ScanConfig where
  ScanType : String
  IncludeSubdomains : Bool
  MaxDepth : Int
  Timeout : Int
  UserAgent : String
  Headers : HeaderMap
  ExcludePaths : List String
  TechnicalScan : Bool
  VulnerabilityScan : Bool
  ComplianceScan : Bool
  PerformanceScan : Bool
  deriving DecidableEq

structure ScanProgress where
  Percentage : ℚ
  CurrentStage : String
  ETA : Int
  TasksCompleted : Int
  TotalTasks : Int
  StartTime : Time
  Errors : List String
  Warnings : List String
  deriving DecidableEq

structure Technology where
  Name : String
  Version : String
  Category : String
  Confidence : ℚ
  Vulnerabilities : List String
  Deprecated : Bool
  EOLDate : Time
  deriving DecidableEq

structure Vulnerability where
  CVE : String
  Severity : String
  Score : ℚ
  Title : String
  Description : String
  Remediation : String
  RootCause : String
  AttackVectors : List String
  BusinessImpact : String
  EducationalNote : String
  References : List String
  ExploitAvailable : Bool
  PatchAvailable : Bool
  DiscoveredAt : Time
  AffectedComponents : List String
  deriving DecidableEq

structure SSLInfo where
  Valid : Bool
  Issuer : String
  Subject : String
  ExpiryDate : Time
  Protocol : String
  CipherSuite : String
  Grade : String
  Vulnerabilities : List String
  deriving DecidableEq

structure DNSInfo where
  Records : List (String × List String)
  DNSSEC : Bool
  Nameservers : List String
  deriving DecidableEq

structure ScanResult where
  ID : String
  URL : String
  Timestamp : Time
  Status : String
  TechStack : List Technology
  Vulnerabilities : List Vulnerability
  SecurityScore : Int
  ScanConfig : ScanConfig
  Duration : Int
  Progress : ScanProgress
  Headers : HeaderMap
  StatusCode : Int
  ResponseTime : Int
  SSLInfo : SSLInfo
  DNSInfo : DNSInfo
  deriving DecidableEq

/-- The instance of service.go, lines 30-39. The field `Cancel` is a closure over the
scan's context; what it does is modelled in `CancelScan`, on the cell that owns the
instance. -/
structure ScanInstance where
  ID : String
  URL : String
  Config : ScanConfig
  Status : String
  Progress : ScanProgress
  Result : Option ScanResult
  Started : Time
  deriving DecidableEq

/-! Go zero values. -/

def ScanConfig.zero : ScanConfig :=
  { ScanType := "", IncludeSubdomains := false, MaxDepth := 0, Timeout := 0, UserAgent := "",
    Headers := [], ExcludePaths := [], TechnicalScan := false, VulnerabilityScan := false,
    ComplianceScan := false, PerformanceScan := false }

def ScanProgress.zero : ScanProgress :=
  { Percentage := 0, CurrentStage := "", ETA := 0, TasksCompleted := 0, TotalTasks := 0,
    StartTime := 0, Errors := [], Warnings := [] }

def SSLInfo.zero : SSLInfo :=
  { Valid := false, Issuer := "", Subject := "", ExpiryDate := 0, Protocol := "",
    CipherSuite := "", Grade := "", Vulnerabilities := [] }

def DNSInfo.zero : DNSInfo :=
  { Records := [], DNSSEC := false, Nameservers := [] }

def ScanResult.zero : ScanResult :=
  { ID := "", URL := "", Timestamp := 0, Status := "", TechStack := [], Vulnerabilities := [],
    SecurityScore := 0, ScanConfig := ScanConfig.zero, Duration := 0,
    Progress := ScanProgress.zero, Headers := [], StatusCode := 0, ResponseTime := 0,
    SSLInfo := SSLInfo.zero, DNSInfo := DNSInfo.zero }

/-- A vulnerability that only carries a severity, for building examples. -/
def Vulnerability.ofSeverity (sev : String) : Vulnerability :=
  { CVE := "", Severity := sev, Score := 0, Title := "", Description := "", Remediation := "",
    RootCause := "", AttackVectors := [], BusinessImpact := "", EducationalNote := "",
    References := [], ExploitAvailable := false, PatchAvailable := false, DiscoveredAt := 0,
    AffectedComponents := [] }

/-! ## Security score (service.go, lines 409-439) -/

/-- The `switch vuln.Severity` of lines 414-423: the points one finding costs. -/
def severityDeduction (severity : String) : Int :=
  match severity with
  | "critical" => 30
  | "high" => 20
  | "medium" => 10
  | "low" => 5
  | _ => 0

/-- The slice `securityHeaders` of line 427. -/
def securityHeaders : List String :=
  ["Strict-Transport-Security", "X-Content-Type-Options", "X-Frame-Options"]

/-- The function `calculateSecurityScore`: start at 100, walk the findings, walk the expected
headers, clamp at 0, store the score in the result. -/
def calculateSecurityScore (result : ScanResult) : ScanResult :=
  let score : Int := 100
  let score := result.Vulnerabilities.foldl (fun sc vuln => sc - severityDeduction vuln.Severity) score
  let score := securityHeaders.foldl
    (fun sc header => if (result.Headers.lookup header).isNone then sc - 5 else sc) score
  let score := if score < 0 then 0 else score
  { result with SecurityScore := score }

/-- Number of findings whose severity is exactly `sev`. -/
def countSeverity (sev : String) (vs : List Vulnerability) : Int :=
  ((vs.filter (fun v => v.Severity = sev)).length : Int)

/-- Number of expected security headers that the captured headers lack. -/
def missingHeaders (headers : HeaderMap) : Int :=
  ((securityHeaders.filter (fun h => (headers.lookup h).isNone)).length : Int)

/-! ## Configuration (service.go, lines 479-526) -/

/-- Go conversion `int(x)` of a float64 whose integer part fits the type: the fractional
part is dropped. -/
def truncate (q : ℚ) : Int :=
  if 0 ≤ q then ⌊q⌋ else ⌈q⌉

/-- Go conversion `int(x)`, `int64(x)` or `time.Duration(x)` of a float64 that may lie
outside the range of the 64-bit integers: inside the range the fractional part is dropped;
outside it the language leaves the result to the implementation, and on amd64 the
conversion instruction answers the least int64. -/
def toInt64 (q : ℚ) : Int :=
  if -9223372036854775808 ≤ truncate q ∧ truncate q ≤ 9223372036854775807 then truncate q
  else -9223372036854775808

/-- The value an int64 holds after an arithmetic operation whose mathematical result is
`n`: Go integers wrap around in two's complement. -/
def wrapInt64 (n : Int) : Int :=
  (n + 9223372036854775808) % 18446744073709551616 - 9223372036854775808

/-- The function `parseScanConfig`: defaults, overwritten by the five keys the code reads,
each only when the value has the Go type of the type assertion. -/
def parseScanConfig (config : ConfigMap) : ScanConfig :=
  let scanConfig : ScanConfig :=
    { ScanType := "standard", IncludeSubdomains := false, MaxDepth := 3, Timeout := 30,
      UserAgent := "Watchdog/1.0", Headers := [], ExcludePaths := [], TechnicalScan := true,
      VulnerabilityScan := true, ComplianceScan := false, PerformanceScan := false }
  let scanConfig := match config.lookup "scanType" with
    | some (Value.str val) => { scanConfig with ScanType := val }
    | _ => scanConfig
  let scanConfig := match config.lookup "includeSubdomains" with
    | some (Value.bool val) => { scanConfig with IncludeSubdomains := val }
    | _ => scanConfig
  let scanConfig := match config.lookup "maxDepth" with
    | some (Value.float val) => { scanConfig with MaxDepth := toInt64 val }
    | _ => scanConfig
  let scanConfig := match config.lookup "timeout" with
    | some (Value.float val) => { scanConfig with Timeout := toInt64 val }
    | _ => scanConfig
  let scanConfig := match config.lookup "vulnerabilityScan" with
    | some (Value.bool val) => { scanConfig with VulnerabilityScan := val }
    | _ => scanConfig
  scanConfig

/-- The function `calculateTotalTasks`. -/
def calculateTotalTasks (config : ScanConfig) : Int :=
  let tasks : Int := 5
  let tasks := if config.VulnerabilityScan then tasks + 3 else tasks
  let tasks := if config.ComplianceScan then tasks + 2 else tasks
  let tasks := if config.PerformanceScan then tasks + 2 else tasks
  tasks

/-! ## Inputs from outside the repository -/

/-- What the code reads of a parsed `*url.URL`: the two fields used by `analyzeSSL` and the
text returned by its `String()` method. -/
structure URL where
  Scheme : String
  Host : String
  Rendered : String
  deriving DecidableEq

/-- The library function `url.Parse`; `none` is a parse error. -/
abbrev UrlParse := String → Option URL

/-- A successful answer to the request of `performReconnaissance`: status code, response
headers, and the time the request took. -/
structure HttpResponse where
  StatusCode : Int
  Header : List (String × List String)
  Elapsed : Time
  deriving DecidableEq

/-- What one statement of the pipeline reads from outside: the clock; for the
reconnaissance request, the answer (`none` when `client.Get` returns an error); for a call on
the storage port, the error it returns (`none` for nil); for an emission on the event sink,
what `runtime.EventsEmit` does: it returns, it panics (`sinkPanics`), or it ends the process
(`sinkExits`), as the Wails runtime does through `log.Fatalf` when the context it is given is
not the one of a Wails application. -/
structure Env where
  now : Time
  response : Option HttpResponse
  storageError : Option String := none
  sinkPanics : Bool := false
  sinkExits : Bool := false
  deriving DecidableEq

/-- A stand-in for `url.Parse`, used only to instantiate theorems at concrete inputs; every
theorem about the code takes the parser as a parameter. It answers as the library does on the
texts of the examples: an https or http URL in lower case that consists of scheme and host
(scheme, host, rendered unchanged), and a text that starts with a colon (rejected: the scheme
is missing). It is not the library on other texts: it does not fold an upper-case scheme,
split off a path or reject a host with a space. -/
def exampleParse : UrlParse := fun s =>
  match s.data with
  | ':' :: _ => none
  | cs =>
    if "https://".data.isPrefixOf cs then
      some { Scheme := "https", Host := String.mk (cs.drop 8), Rendered := s }
    else if "http://".data.isPrefixOf cs then
      some { Scheme := "http", Host := String.mk (cs.drop 7), Rendered := s }
    else some { Scheme := "", Host := "", Rendered := s }

/-! ## Service state (service.go, lines 17-23, 129-145) -/

/-- Where the goroutine running `executeScan` stands: each constructor is the statement
that it executes next.

* `start`: line 228, build the accumulator;
* `progress10`, `recon`, `check1`: lines 237, 238, 240;
* `progress25`, `tech`, `check2`: lines 246, 247, 249;
* `progress40`, `ssl`, `check3`: lines 255, 256, 258;
* `stage4`, `vuln`, `check4`: lines 264-265, 266, 269;
* `progress80`, `score`: lines 275, 276;
* `progress100`, `finalize`, `attach`, `complete`: lines 279, 280-281, 283, 284;
* `save`, `emit`: lines 287-289, 292-304;
* `retire`: the deferred function, lines 222-226;
* `done`: the goroutine has returned;
* `panicked`: the goroutine dereferenced a nil URL in `analyzeSSL`. -/
inductive PC where
  | start | progress10 | recon | check1
  | progress25 | tech | check2
  | progress40 | ssl | check3
  | stage4 | vuln | check4
  | progress80 | score
  | progress100 | finalize | attach | complete
  | save | emit | retire | done | panicked
  deriving DecidableEq

/-- One allocated `ScanInstance` together with what `StartScan` creates alongside it:
the context that `scan.Cancel` cancels (`cancelled` is `ctx.Err() != nil`) and the goroutine
`executeScan(ctx, scan)` with its local accumulator `result`. -/
structure Cell where
  scan : ScanInstance
  cancelled : Bool
  pc : PC
  result : ScanResult
  deriving DecidableEq

/-- Calls received by the storage port. -/
inductive StorageCall where
  | UpdateScanProgress (scanID : String) (percentage : ℚ) (currentStage : String)
      (eta : Int) (tasksCompleted : Int)
  | SaveScanResult (scanID : String) (result : ScanResult)
  deriving DecidableEq

/-- Notifications received by the event sink. -/
inductive Event where
  | progress (scanId : String) (progress : ScanProgress)
  | complete (scanId : String) (result : ScanResult)
  deriving DecidableEq

/-- The `Service` struct. `heap` holds every instance ever allocated (address = index);
`activeScans` is the registry of pointers; `hasStorage` is `s.storage != nil`; the two logs
record the calls made on the collaborators; `crashed` is set when the process has ended,
because a goroutine panicked or because the event sink exited. The root context `s.ctx` is never cancelled by this package and is
taken to be live. -/
structure Service where
  heap : List Cell
  activeScans : String → Option Nat
  hasStorage : Bool
  disableEvents : Bool
  storageLog : List StorageCall
  eventLog : List Event
  crashed : Bool

/-- The struct literal shared by the two constructors. -/
def Service.create (hasStorage disableEvents : Bool) : Service :=
  { heap := [], activeScans := fun _ => none, hasStorage := hasStorage,
    disableEvents := disableEvents, storageLog := [], eventLog := [], crashed := false }

/-- The constructor `NewService`; the argument tells whether `storage` is non-nil. -/
def NewService (hasStorage : Bool) : Service := Service.create hasStorage false

/-- The constructor `NewServiceWithoutEvents`. -/
def NewServiceWithoutEvents (hasStorage : Bool) : Service := Service.create hasStorage true

/-- Go `m[key] = value` on the registry. -/
def registryInsert (m : String → Option Nat) (key : String) (addr : Nat) : String → Option Nat :=
  fun k => if k = key then some addr else m k

/-- Go `delete(m, key)` on the registry. -/
def registryDelete (m : String → Option Nat) (key : String) : String → Option Nat :=
  fun k => if k = key then none else m k

/-- Write through a `*ScanInstance` pointer: replace the cell at `addr`. -/
def Service.setCell (s : Service) (addr : Nat) (c : Cell) : Service :=
  { s with heap := s.heap.set addr c }

/-! ## Public operations (service.go, lines 147-219) -/

/-- The function `StartScan`. Inputs from outside: the parser, the fresh identifier
`uuid.New().String()`, and the two clock readings of lines 167 and 171. On a parse error the
empty identifier is returned and nothing is written; otherwise a cell is allocated (the
instance, its live context, and the goroutine at its first statement) and registered. -/
def StartScan (parse : UrlParse) (s : Service) (uuid : String) (started startTime : Time)
    (targetURL : String) (config : ConfigMap) : String × Service :=
  let scanID := uuid
  let scanConfig := parseScanConfig config
  match parse targetURL with
  | none => ("", s)
  | some parsedURL =>
    let scan : ScanInstance :=
      { ID := scanID, URL := parsedURL.Rendered, Config := scanConfig, Status := "running",
        Result := none, Started := started,
        Progress :=
          { Percentage := 0, CurrentStage := "Initializing", ETA := 0, TasksCompleted := 0,
            TotalTasks := calculateTotalTasks scanConfig, StartTime := startTime,
            Errors := [], Warnings := [] } }
    let cell : Cell :=
      { scan := scan, cancelled := false, pc := PC.start, result := ScanResult.zero }
    (scanID,
      { s with
        heap := s.heap ++ [cell]
        activeScans := registryInsert s.activeScans scanID s.heap.length })

/-- Values of the map returned by `GetStatus`. -/
inductive StatusValue where
  | str (s : String)
  | progress (p : ScanProgress)
  | time (t : Time)
  deriving DecidableEq

/-- The function `GetStatus`: a read of the registry and of the instance it points to.
The service is returned as it was received. A registry pointer always points to an
allocated instance; the model answers a dangling address like an absent key. -/
def GetStatus (s : Service) (scanID : String) : List (String × StatusValue) × Service :=
  match s.activeScans scanID with
  | none => ([("error", StatusValue.str "Scan not found")], s)
  | some addr =>
    match s.heap[addr]? with
    | none => ([("error", StatusValue.str "Scan not found")], s)
    | some cell =>
      ([("id", StatusValue.str cell.scan.ID),
        ("status", StatusValue.str cell.scan.Status),
        ("progress", StatusValue.progress cell.scan.Progress),
        ("url", StatusValue.str cell.scan.URL),
        ("started", StatusValue.time cell.scan.Started)], s)

/-- The function `CancelScan`; the Go `error` is `none` for nil. On a registered
identifier it cancels the scan's context (line 215) and writes the status (line 216). -/
def CancelScan (s : Service) (scanID : String) : Option String × Service :=
  match s.activeScans scanID with
  | none => (some "scan not found", s)
  | some addr =>
    match s.heap[addr]? with
    | none => (some "scan not found", s)
    | some cell =>
      let cell := { cell with cancelled := true }
      let cell := { cell with scan := { cell.scan with Status := "cancelled" } }
      (none, s.setCell addr cell)

/-! ## Progress updates (service.go, lines 441-477) -/

/-- Go `Duration.Seconds()`, as an exact quotient. -/
def seconds (d : Time) : ℚ := (d : ℚ) / 1000000000

/-- A call on the storage port. The port answers with an error value that the caller
never looks at: both calls of the source (lines 455 and 288) are expression statements. -/
def callStorage (s : Service) (call : StorageCall) (_answer : Option String) : Service :=
  { s with storageLog := s.storageLog ++ [call] }

/-- The closure around `runtime.EventsEmit` (lines 465-475 and 293-303): an emission that
exits ends the process, past the deferred function; a panic of the emission is recovered by
the deferred function and dropped; otherwise the sink has received the notification. -/
def emitEvent (s : Service) (event : Event) (panics exits : Bool) : Service :=
  if exits then { s with crashed := true }
  else if panics then s else { s with eventLog := s.eventLog ++ [event] }

/-- The function `updateProgress`: the writes to `scan.Progress` (lines 442-451), the push to
the storage port when there is one (lines 454-461) and the notification of the event sink
unless events are disabled (lines 464-476). `env.now` is the clock read by `time.Since`.
Returns the updated instance and the service with the two logs extended. -/
def updateProgress (s : Service) (scan : ScanInstance) (percentage : ℚ) (stage : String)
    (env : Env) : ScanInstance × Service :=
  let progress := scan.Progress
  let progress := { progress with Percentage := percentage }
  let progress := { progress with CurrentStage := stage }
  let progress :=
    { progress with TasksCompleted := truncate (percentage / 100 * (progress.TotalTasks : ℚ)) }
  let elapsed : Time := env.now - progress.StartTime
  let progress :=
    if percentage > 0 then
      let totalTime : Time := wrapInt64 (elapsed * toInt64 (100 / percentage))
      { progress with ETA := truncate (seconds (wrapInt64 (totalTime - elapsed))) }
    else progress
  let scan := { scan with Progress := progress }
  let s :=
    if s.hasStorage then
      callStorage s
        (StorageCall.UpdateScanProgress scan.ID progress.Percentage progress.CurrentStage
          progress.ETA progress.TasksCompleted)
        env.storageError
    else s
  let s :=
    if s.disableEvents then s
    else emitEvent s (Event.progress scan.ID progress) env.sinkPanics env.sinkExits
  (scan, s)

/-! ## Pipeline stages (service.go, lines 307-407) -/

/-- The function `performReconnaissance`: on an error the accumulator is left alone; on an
answer the status code, the latency in milliseconds and the joined headers are stored. -/
def performReconnaissance (result : ScanResult) (response : Option HttpResponse) : ScanResult :=
  match response with
  | none => result
  | some resp =>
    { result with
      StatusCode := resp.StatusCode
      ResponseTime := resp.Elapsed.tdiv 1000000
      Headers := resp.Header.map (fun kv => (kv.1, String.intercalate ", " kv.2)) }

/-- Go `strings.Contains`. -/
def stringsContains (s substr : String) : Bool :=
  s.data.tails.any (fun t => substr.data.isPrefixOf t)

/-- The function `detectTechnologies`. `String.toLower` folds the ASCII letters, which is
what `strings.ToLower` does on an ASCII header; a header with letters outside ASCII, which
the library folds by its Unicode tables, is outside this definition. -/
def detectTechnologies (result : ScanResult) : ScanResult :=
  let technologies : List Technology :=
    [ { Name := "Nginx", Version := "1.18.0", Category := "server", Confidence := 0.95,
        Vulnerabilities := [], Deprecated := false, EOLDate := 0 },
      { Name := "React", Version := "18.0.0", Category := "framework", Confidence := 0.85,
        Vulnerabilities := [], Deprecated := false, EOLDate := 0 } ]
  let technologies :=
    match result.Headers.lookup "Server" with
    | some server =>
      if stringsContains server.toLower "nginx" then
        technologies ++
          [ { Name := "Nginx", Version := "unknown", Category := "server", Confidence := 0.9,
              Vulnerabilities := [], Deprecated := false, EOLDate := 0 } ]
      else technologies
    | none => technologies
  { result with TechStack := technologies }

/-- The function `analyzeSSL`. The parse error of line 364 is discarded by the code, so a
failed parse leaves a nil URL whose dereference on line 365 panics: that is `none`. -/
def analyzeSSL (parse : UrlParse) (result : ScanResult) (now : Time) : Option ScanResult :=
  match parse result.URL with
  | none => none
  | some parsedURL =>
    if parsedURL.Scheme ≠ "https" then some result
    else
      some { result with
        SSLInfo :=
          { Valid := true, Issuer := "Let's Encrypt Authority X3", Subject := parsedURL.Host,
            ExpiryDate := now + 90 * 24 * 3600000000000, Protocol := "TLS 1.3",
            CipherSuite := "TLS_AES_256_GCM_SHA384", Grade := "A", Vulnerabilities := [] } }

/-- The function `scanVulnerabilities`: the accumulator receives the one fixed finding. -/
def scanVulnerabilities (result : ScanResult) (now : Time) : ScanResult :=
  let vulnerabilities : List Vulnerability :=
    [ { CVE := "CVE-2021-44228", Severity := "critical", Score := 10,
        Title := "Log4j Remote Code Execution",
        Description := "Apache Log4j2 JNDI features do not protect against attacker controlled LDAP and other JNDI related endpoints.",
        Remediation := "Update Log4j to version 2.17.0 or later",
        RootCause := "Unsafe deserialization in Log4j library",
        AttackVectors := ["JNDI injection", "Remote code execution"],
        BusinessImpact := "Critical - Full system compromise possible",
        EducationalNote := "This vulnerability allows attackers to execute arbitrary code by exploiting JNDI lookup functionality.",
        References := ["https://nvd.nist.gov/vuln/detail/CVE-2021-44228",
          "https://logging.apache.org/log4j/2.x/security.html"],
        ExploitAvailable := true, PatchAvailable := true, DiscoveredAt := now,
        AffectedComponents := ["Apache Log4j"] } ]
  { result with Vulnerabilities := vulnerabilities }

/-- The function `resultToMap`: the map has one key per field of the result, so the result
itself stands for it. -/
def resultToMap (result : ScanResult) : ScanResult := result

/-! ## The pipeline (service.go, lines 221-305) -/

/-- A cancellation check `if ctx.Err() != nil { scan.Status = "cancelled"; return }`.
Returning runs the deferred function next. -/
def checkCancelled (s : Service) (addr : Nat) (cell : Cell) (next : PC) : Service :=
  if cell.cancelled then
    s.setCell addr { cell with scan := { cell.scan with Status := "cancelled" }, pc := PC.retire }
  else s.setCell addr { cell with pc := next }

/-- A checkpoint `s.updateProgress(scan, percentage, stage)` followed by a move to `next`. -/
def checkpoint (s : Service) (addr : Nat) (cell : Cell) (percentage : ℚ) (stage : String)
    (env : Env) (next : PC) : Service :=
  let r := updateProgress s cell.scan percentage stage env
  r.2.setCell addr { cell with scan := r.1, pc := next }

/-- A stage that only rewrites the accumulator. -/
def stage (s : Service) (addr : Nat) (cell : Cell) (result : ScanResult) (next : PC) : Service :=
  s.setCell addr { cell with result := result, pc := next }

/-- The deferred function of `executeScan`: the identifier leaves the registry. -/
def retire (s : Service) (addr : Nat) (cell : Cell) (final : PC) : Service :=
  { s.setCell addr { cell with pc := final } with
    activeScans := registryDelete s.activeScans cell.scan.ID }

/-- One statement of `executeScan`, run by the goroutine of the cell at `addr`. -/
def executeScan (parse : UrlParse) (s : Service) (addr : Nat) (cell : Cell) (env : Env) :
    Service :=
  match cell.pc with
  | PC.start =>
    stage s addr cell
      { ScanResult.zero with
        ID := cell.scan.ID, URL := cell.scan.URL, Timestamp := env.now, Status := "running",
        ScanConfig := cell.scan.Config }
      PC.progress10
  | PC.progress10 => checkpoint s addr cell 10 "Initial reconnaissance" env PC.recon
  | PC.recon => stage s addr cell (performReconnaissance cell.result env.response) PC.check1
  | PC.check1 => checkCancelled s addr cell PC.progress25
  | PC.progress25 => checkpoint s addr cell 25 "Detecting technologies" env PC.tech
  | PC.tech => stage s addr cell (detectTechnologies cell.result) PC.check2
  | PC.check2 => checkCancelled s addr cell PC.progress40
  | PC.progress40 => checkpoint s addr cell 40 "Analyzing SSL/TLS" env PC.ssl
  | PC.ssl =>
    match analyzeSSL parse cell.result env.now with
    | some result => stage s addr cell result PC.check3
    | none => { retire s addr cell PC.panicked with crashed := true }
  | PC.check3 => checkCancelled s addr cell PC.stage4
  | PC.stage4 =>
    if cell.scan.Config.VulnerabilityScan then
      checkpoint s addr cell 60 "Scanning for vulnerabilities" env PC.vuln
    else s.setCell addr { cell with pc := PC.check4 }
  | PC.vuln => stage s addr cell (scanVulnerabilities cell.result env.now) PC.check4
  | PC.check4 => checkCancelled s addr cell PC.progress80
  | PC.progress80 => checkpoint s addr cell 80 "Calculating security score" env PC.score
  | PC.score => stage s addr cell (calculateSecurityScore cell.result) PC.progress100
  | PC.progress100 => checkpoint s addr cell 100 "Finalizing scan" env PC.finalize
  | PC.finalize =>
    stage s addr cell
      { cell.result with
        Status := "completed"
        Duration := truncate (seconds (env.now - cell.scan.Started)) }
      PC.attach
  | PC.attach =>
    s.setCell addr { cell with scan := { cell.scan with Result := some cell.result }, pc := PC.complete }
  | PC.complete =>
    s.setCell addr { cell with scan := { cell.scan with Status := "completed" }, pc := PC.save }
  | PC.save =>
    let s :=
      if s.hasStorage then
        callStorage s (StorageCall.SaveScanResult cell.scan.ID (resultToMap cell.result))
          env.storageError
      else s
    s.setCell addr { cell with pc := PC.emit }
  | PC.emit =>
    let s :=
      if s.disableEvents then s
      else
        emitEvent s (Event.complete cell.scan.ID (resultToMap cell.result)) env.sinkPanics
          env.sinkExits
    s.setCell addr { cell with pc := PC.retire }
  | PC.retire => retire s addr cell PC.done
  | PC.done => s
  | PC.panicked => s

/-! ## Schedules -/

/-- What can happen next to a service: a caller invokes one of the three public operations,
or the goroutine of one allocated instance executes its next statement. -/
inductive Action where
  | startScan (uuid : String) (started startTime : Time) (targetURL : String)
      (config : ConfigMap)
  | getStatus (scanID : String)
  | cancelScan (scanID : String)
  | run (addr : Nat) (env : Env)

/-- One action on the service. After a panic the process is gone and nothing happens. -/
def step (parse : UrlParse) (s : Service) (a : Action) : Service :=
  if s.crashed then s
  else
    match a with
    | Action.startScan uuid started startTime targetURL config =>
      (StartScan parse s uuid started startTime targetURL config).2
    | Action.getStatus scanID => (GetStatus s scanID).2
    | Action.cancelScan scanID => (CancelScan s scanID).2
    | Action.run addr env =>
      match s.heap[addr]? with
      | none => s
      | some cell => executeScan parse s addr cell env

/-- A schedule: actions in the order in which they take effect. -/
def exec (parse : UrlParse) (s : Service) (schedule : List Action) : Service :=
  schedule.foldl (step parse) s

/-- The states a service can be in: those a schedule leads to from a constructor. -/
def Reachable (parse : UrlParse) (s : Service) : Prop :=
  ∃ (hasStorage disableEvents : Bool) (schedule : List Action),
    s = exec parse (Service.create hasStorage disableEvents) schedule

/-! ## Storage manager (storage/manager.go, lines 17-134)

The manager keeps JSON documents in a LevelDB store under byte-string keys. The store is a
list of entries in key order; a stored value is represented by the JSON document its bytes
spell (every value under a scan key is the output of `json.Marshal`). `json.Marshal` of the
caller's map, `time.Parse` and the error of `db.Put` are inputs. -/

/-- JSON documents, which are also the values `json.Unmarshal` puts into an
`interface{}`. -/
inductive Json where
  | null
  | bool (b : Bool)
  | num (q : ℚ)
  | str (s : String)
  | arr (items : List Json)
  | obj (fields : List (String × Json))

/-- A decoded `map[string]interface{}`; `none` is the nil map. -/
abbrev GoMap := Option (List (String × Json))

/-- Go `m[key]` on a decoded map; `none` is the nil interface. -/
def GoMap.get (m : GoMap) (key : String) : Option Json :=
  m.bind (fun fields => fields.lookup key)

/-- What `json.Unmarshal(data, &result)` leaves in a nil `map[string]interface{}`: the
fields of an object, the nil map for `null`, and an error (`none`) for any other document. -/
def decodeMap : Json → Option GoMap
  | Json.null => some none
  | Json.obj fields => some (some fields)
  | _ => none

/-- The struct `Manager`: the entries of the LevelDB store, in key order. -/
structure Manager where
  db : List (String × Json)

/-- The default key order of LevelDB: bytewise, which on UTF-8 text is the order of the
code points. -/
def keyLess : List Char → List Char → Bool
  | [], [] => false
  | [], _ :: _ => true
  | _ :: _, [] => false
  | a :: as, b :: bs =>
    if a.toNat < b.toNat then true
    else if b.toNat < a.toNat then false
    else keyLess as bs

/-- LevelDB `Put`: the value under the key is replaced, or the entry is inserted at its
place in key order. -/
def dbPut : List (String × Json) → String → Json → List (String × Json)
  | [], key, value => [(key, value)]
  | (k, v) :: rest, key, value =>
    if key = k then (key, value) :: rest
    else if keyLess key.data k.data then (key, value) :: (k, v) :: rest
    else (k, v) :: dbPut rest key value

/-- The method `SaveScanResult` (lines 41-51). `marshal` is `json.Marshal` on the caller's
map and `putError` the error that `db.Put` returns; the Go `error` result is `none` for
nil. -/
def Manager.SaveScanResult {Input : Type} (marshal : Input → Option Json) (m : Manager)
    (putError : Option String) (scanID : String) (result : Input) : Option String × Manager :=
  match marshal result with
  | none => (some "json: unsupported value", m)
  | some data =>
    match putError with
    | some err => (some err, m)
    | none => (none, { m with db := dbPut m.db ("scan_" ++ scanID) data })

/-- The method `GetScanResult` (lines 53-68): nil when the key is absent or the value does
not decode. -/
def Manager.GetScanResult (m : Manager) (scanID : String) : GoMap :=
  match m.db.lookup ("scan_" ++ scanID) with
  | none => none
  | some data =>
    match decodeMap data with
    | none => none
    | some result => result

/-- Whether `scan["timestamp"].(string)` succeeds: the unchecked type assertion of lines
94-95 panics otherwise. -/
def hasStringTimestamp (scan : GoMap) : Bool :=
  match scan.get "timestamp" with
  | some (Json.str _) => true
  | _ => false

/-- The time that the comparison of lines 94-95 reads off a scan; the parse error is
dropped by the source, `parseTime` answers the zero time then. -/
def timestampOf (parseTime : String → Time) (scan : GoMap) : Time :=
  match scan.get "timestamp" with
  | some (Json.str s) => parseTime s
  | _ => 0

/-- Insertion of a scan into a list that is ordered newest first. -/
def insertNewest (parseTime : String → Time) (scan : GoMap) : List GoMap → List GoMap
  | [] => [scan]
  | x :: rest =>
    if timestampOf parseTime x ≤ timestampOf parseTime scan then scan :: x :: rest
    else x :: insertNewest parseTime scan rest

/-- The order `sort.Slice` produces with the comparison `ti.After(tj)`: newest first. Go
leaves the order of scans with equal times open; this function keeps them in store order
(a scan is inserted in front of the scans that are not newer). -/
def sortNewestFirst (parseTime : String → Time) : List GoMap → List GoMap
  | [] => []
  | scan :: rest => insertNewest parseTime scan (sortNewestFirst parseTime rest)

/-- The loop of lines 77-90: the decoded values under the keys that start with "scan_";
other keys and values that do not decode are skipped. -/
def collectScans : List (String × Json) → List GoMap
  | [] => []
  | (key, value) :: rest =>
    if "scan_".data.isPrefixOf key.data then
      match decodeMap value with
      | none => collectScans rest
      | some scan => scan :: collectScans rest
    else collectScans rest

/-- The method `GetAllScans` (lines 70-100); `none` is a panic. `sort.Slice` compares every
element at least once as soon as there are two, and each comparison asserts that the
timestamp of both scans is a string: with two or more scans, one scan without a string
timestamp makes the call panic. -/
def Manager.GetAllScans (parseTime : String → Time) (m : Manager) : Option (List GoMap) :=
  let scans := collectScans m.db
  if 2 ≤ scans.length ∧ ¬ scans.all hasStringTimestamp then none
  else some (sortNewestFirst parseTime scans)

/-- Go `m[key] = value` on a decoded map that is not nil: the value under the key is
replaced, or the entry is added. -/
def mapSet : List (String × Json) → String → Json → List (String × Json)
  | [], key, value => [(key, value)]
  | (k, v) :: rest, key, value =>
    if k = key then (key, value) :: rest else (k, v) :: mapSet rest key value

/-- The method `UpdateScanProgress` (lines 109-134); the outer `none` is a panic. The record
under the key is read (an absent key is the error of `db.Get`) and decoded (a value that is
not a JSON object is the error of `json.Unmarshal`, except `null`, which decodes to the nil
map, and the assignment of line 124 to a nil map panics); the progress is stored in the
record under "progress", and the record is marshalled and put back. `progress` is the
caller's map as the JSON document it marshals to; `marshal` is `json.Marshal` on the updated
record and `putError` the error that `db.Put` returns. The three error texts stand for the
error values of the libraries, whose full messages name the offending value. -/
def Manager.UpdateScanProgress (marshal : List (String × Json) → Option Json) (m : Manager)
    (putError : Option String) (scanID : String) (progress : Json) :
    Option (Option String × Manager) :=
  match m.db.lookup ("scan_" ++ scanID) with
  | none => some (some "leveldb: not found", m)
  | some data =>
    match decodeMap data with
    | none => some (some "json: cannot unmarshal", m)
    | some none => none
    | some (some scan) =>
      let scan := mapSet scan "progress" progress
      match marshal scan with
      | none => some (some "json: unsupported value", m)
      | some updatedData =>
        match putError with
        | some err => some (some err, m)
        | none => some (none, { m with db := dbPut m.db ("scan_" ++ scanID) updatedData })

/-- The map that `updateProgress` passes to the storage port (service.go, lines 455-460), as
the JSON document it marshals to. -/
def progressMap (percentage : ℚ) (currentStage : String) (eta tasksCompleted : Int) : Json :=
  Json.obj
    [("percentage", Json.num percentage), ("currentStage", Json.str currentStage),
      ("eta", Json.num (eta : ℚ)), ("tasksCompleted", Json.num (tasksCompleted : ℚ))]

/-- The storage manager as the storage port of the service (app.go, line 33, passes it to
`scanner.NewService`): what one call of the service does to the store. The service drops the
error that a call returns; `none` is a panic of the manager. `marshalResult` is
`json.Marshal` on the map of a result, `marshal` on a decoded record; `db.Put` succeeds. -/
def Manager.receive (marshalResult : ScanResult → Option Json)
    (marshal : List (String × Json) → Option Json) (m : Manager) :
    StorageCall → Option Manager
  | StorageCall.UpdateScanProgress scanID percentage currentStage eta tasksCompleted =>
    (Manager.UpdateScanProgress marshal m none scanID
      (progressMap percentage currentStage eta tasksCompleted)).map (fun r => r.2)
  | StorageCall.SaveScanResult scanID result =>
    some (Manager.SaveScanResult marshalResult m none scanID result).2

/-- The store after the manager has received the calls of a log, in order. -/
def Manager.replay (marshalResult : ScanResult → Option Json)
    (marshal : List (String × Json) → Option Json) :
    Manager → List StorageCall → Option Manager
  | m, [] => some m
  | m, call :: rest =>
    match Manager.receive marshalResult marshal m call with
    | none => none
    | some m1 => Manager.replay marshalResult marshal m1 rest

/-- A stand-in for `json.Marshal` on maps whose values are already JSON values. -/
def exampleMarshal : List (String × Json) → Option Json :=
  fun fields => some (Json.obj fields)

/-- A stand-in for `time.Parse`: the length of the text. -/
def exampleTime : String → Time := fun s => (s.length : Int)

/-- A store that holds one scan, saved with a timestamp. -/
def oneStored : Manager :=
  (Manager.SaveScanResult exampleMarshal { db := [] } none "test-scan-123"
    [("id", Json.str "test-scan-123"), ("url", Json.str "https://example.com"),
      ("status", Json.str "completed"), ("timestamp", Json.str "2024-05-01T10:00:00Z"),
      ("securityScore", Json.num 85)]).2

/-- A result map without a timestamp. -/
def untimedResult : List (String × Json) :=
  [("id", Json.str "scan-b"), ("url", Json.str "https://example.org"),
    ("status", Json.str "completed"), ("securityScore", Json.num 70)]

/-! ## Derived notions used to state the properties -/

/-- The instance as `updateProgress` leaves it (its writes do not depend on the service). -/
def progressed (scan : ScanInstance) (percentage : ℚ) (stage : String) (now : Time) :
    ScanInstance :=
  (updateProgress (Service.create false true) scan percentage stage
    { now := now, response := none }).1

/-- The cell of a goroutine as its next statement leaves it. -/
def cellAfter (parse : UrlParse) (s : Service) (cell : Cell) (env : Env) : Cell :=
  ((executeScan parse { s with heap := [cell] } 0 cell env).heap[0]?).getD cell

/-- The percentage and status a cell can show while its goroutine stands at `cell.pc`. -/
def Cell.LevelOK (c : Cell) : Prop :=
  match c.pc with
  | PC.start | PC.progress10 => c.scan.Progress.Percentage = 0
  | PC.recon | PC.check1 | PC.progress25 => c.scan.Progress.Percentage = 10
  | PC.tech | PC.check2 | PC.progress40 => c.scan.Progress.Percentage = 25
  | PC.ssl | PC.check3 | PC.stage4 | PC.panicked => c.scan.Progress.Percentage = 40
  | PC.vuln => c.scan.Progress.Percentage = 60
  | PC.check4 | PC.progress80 =>
    c.scan.Progress.Percentage = 40 ∨ c.scan.Progress.Percentage = 60
  | PC.score | PC.progress100 => c.scan.Progress.Percentage = 80
  | PC.finalize | PC.attach | PC.complete => c.scan.Progress.Percentage = 100
  | PC.save | PC.emit => c.scan.Progress.Percentage = 100 ∧ c.scan.Status ≠ "running"
  | PC.retire | PC.done =>
    0 ≤ c.scan.Progress.Percentage ∧ c.scan.Progress.Percentage ≤ 100
      ∧ c.scan.Status ≠ "running"

/-- Well-formedness of a service: every cell shows a percentage that fits its program
counter, and every registry entry points to an allocated instance that carries the key as
its identifier. -/
def Service.Inv (s : Service) : Prop :=
  (∀ (a : Nat) (c : Cell), s.heap[a]? = some c → c.LevelOK)
    ∧ (∀ (id : String) (a : Nat), s.activeScans id = some a →
        ∃ c : Cell, s.heap[a]? = some c ∧ c.scan.ID = id)

/-- The program counters at which the last cancellation check (line 269) is still ahead. -/
def PC.beforeLastCheck : PC → Bool
  | PC.start | PC.progress10 | PC.recon | PC.check1 => true
  | PC.progress25 | PC.tech | PC.check2 => true
  | PC.progress40 | PC.ssl | PC.check3 => true
  | PC.stage4 | PC.vuln | PC.check4 => true
  | _ => false

/-- An upper bound on the number of statements a goroutine still has to execute. -/
def PC.stepsLeft : PC → Nat
  | PC.start => 22 | PC.progress10 => 21 | PC.recon => 20 | PC.check1 => 19
  | PC.progress25 => 18 | PC.tech => 17 | PC.check2 => 16
  | PC.progress40 => 15 | PC.ssl => 14 | PC.check3 => 13
  | PC.stage4 => 12 | PC.vuln => 11 | PC.check4 => 10
  | PC.progress80 => 9 | PC.score => 8
  | PC.progress100 => 7 | PC.finalize => 6 | PC.attach => 5 | PC.complete => 4
  | PC.save => 3 | PC.emit => 2 | PC.retire => 1 | PC.done => 0 | PC.panicked => 0

/-- Whether an action is a statement of the goroutine of the cell at `addr`. -/
def Action.isRun (addr : Nat) : Action → Bool
  | Action.run a _ => decide (a = addr)
  | _ => false

/-- How many statements the goroutine of the cell at `addr` gets to execute in a schedule. -/
def countRuns (addr : Nat) (schedule : List Action) : Nat :=
  (schedule.filter (Action.isRun addr)).length

/-- A cell whose cancellation arrived before the last check: the context is cancelled, the
status says so, and the goroutine is either before that check or past its early return. -/
def Cell.CancelledInTime (c : Cell) : Prop :=
  c.cancelled = true ∧ c.scan.Status = "cancelled"
    ∧ (c.pc.beforeLastCheck = true ∨ c.pc = PC.retire ∨ c.pc = PC.done ∨ c.pc = PC.panicked)

/-- The cell that `StartScan` allocates: the goroutine has not run, the context is live,
the status is "running", no result is attached, the task total is that of the
configuration, no task is counted as completed, and the accumulator does not exist yet. -/
def Cell.Fresh (c : Cell) : Prop :=
  c.pc = PC.start ∧ c.cancelled = false ∧ c.scan.Status = "running" ∧ c.scan.Result = none
    ∧ c.scan.Progress.Percentage = 0
    ∧ c.scan.Progress.TotalTasks = calculateTotalTasks c.scan.Config
    ∧ c.scan.Progress.TasksCompleted = 0
    ∧ c.result = ScanResult.zero

/-- The cell as `CancelScan` leaves it (lines 215-216). -/
def Cell.cancel (c : Cell) : Cell :=
  { c with cancelled := true, scan := { c.scan with Status := "cancelled" } }

/-- The status of an instance before line 284 has run: "running" while the context is
live, "cancelled" once `CancelScan` has been called. -/
def Cell.EarlyStatus (c : Cell) : Prop :=
  (c.cancelled = false ∧ c.scan.Status = "running")
    ∨ (c.cancelled = true ∧ c.scan.Status = "cancelled")

/-- The status of an instance after line 284 has run: "completed", unless `CancelScan` has
overwritten it since. -/
def Cell.LateStatus (c : Cell) : Prop :=
  c.scan.Status = "completed" ∨ (c.cancelled = true ∧ c.scan.Status = "cancelled")

/-- The run went through finalization (lines 279-304): the accumulator says "completed" and
is attached to the instance. -/
def Cell.CompletedPath (c : Cell) : Prop :=
  c.result.Status = "completed" ∧ c.scan.Result = some c.result ∧ c.LateStatus

/-- The run left through a cancellation check: the accumulator still says "running",
nothing is attached, and the status is "cancelled". -/
def Cell.CancelledPath (c : Cell) : Prop :=
  c.result.Status = "running" ∧ c.scan.Result = none ∧ c.cancelled = true
    ∧ c.scan.Status = "cancelled"

/-- What the accumulator, the attached result and the status look like at each program
counter. -/
def Cell.PathOK (c : Cell) : Prop :=
  match c.pc with
  | PC.start => c.scan.Result = none ∧ c.EarlyStatus
  | PC.progress10 | PC.recon | PC.check1 | PC.progress25 | PC.tech | PC.check2
  | PC.progress40 | PC.ssl | PC.check3 | PC.stage4 | PC.vuln | PC.check4
  | PC.progress80 | PC.score | PC.progress100 | PC.finalize | PC.panicked =>
    c.result.Status = "running" ∧ c.scan.Result = none ∧ c.EarlyStatus
  | PC.attach => c.result.Status = "completed" ∧ c.scan.Result = none ∧ c.EarlyStatus
  | PC.complete =>
    c.result.Status = "completed" ∧ c.scan.Result = some c.result ∧ c.EarlyStatus
  | PC.save | PC.emit => c.CompletedPath
  | PC.retire | PC.done => c.CompletedPath ∨ c.CancelledPath

/-- Whether the goroutine of a cell has executed the save statement of lines 287-289: it
stands at the emission, or it has left through the deferred function after finalization. -/
def Cell.saved (c : Cell) : Bool :=
  decide (c.pc = PC.emit)
    || ((decide (c.pc = PC.retire) || decide (c.pc = PC.done))
        && decide (c.result.Status = "completed"))

/-- Whether a call on the storage port is `SaveScanResult` for the given identifier. -/
def StorageCall.isSaveFor (scanID : String) : StorageCall → Bool
  | StorageCall.SaveScanResult id _ => decide (id = scanID)
  | _ => false

/-- How many `SaveScanResult` calls for the identifier the storage port has received. -/
def savesFor (scanID : String) (log : List StorageCall) : Nat :=
  (log.filter (StorageCall.isSaveFor scanID)).length

/-- How many runs with the identifier have executed their save statement. -/
def savedCells (scanID : String) (heap : List Cell) : Nat :=
  (heap.filter (fun c => decide (c.scan.ID = scanID) && c.saved)).length

/-- Every `SaveScanResult` call in the log was made by one run at its save statement, and
every run with a storage port makes that call there: the calls for an identifier are as many
as the runs with that identifier that have passed the statement. -/
def Service.SaveInv (s : Service) : Prop :=
  ∀ scanID : String,
    savesFor scanID s.storageLog = if s.hasStorage then savedCells scanID s.heap else 0

/-- Every registry entry points to an allocated instance that carries the key as its
identifier and whose goroutine has not returned. -/
def Service.RegOK (s : Service) : Prop :=
  ∀ (id : String) (a : Nat), s.activeScans id = some a →
    ∃ c : Cell, s.heap[a]? = some c ∧ c.scan.ID = id ∧ c.pc ≠ PC.done ∧ c.pc ≠ PC.panicked

/-- The goroutine has passed its last cancellation check without leaving: it is between
the 80% checkpoint and the emission, or it has left after finalization. -/
def Cell.Completing (c : Cell) : Prop :=
  match c.pc with
  | PC.progress80 | PC.score | PC.progress100 | PC.finalize | PC.attach | PC.complete
  | PC.save | PC.emit => True
  | PC.retire | PC.done => c.result.Status = "completed"
  | _ => False

/-- The goroutine of `c` is the one of `c0`, which stood at a cancellation check with its
context cancelled: it is still at that check or has left through it, and the accumulator,
the progress snapshot and the attached result are those of `c0`. -/
def Cell.StoppedAt (c0 c : Cell) : Prop :=
  c.cancelled = true ∧ c.scan.Status = "cancelled" ∧ c.result = c0.result
    ∧ c.scan.Progress = c0.scan.Progress ∧ c.scan.Result = none
    ∧ c.result.Status = "running" ∧ c.scan.ID = c0.scan.ID
    ∧ (c.pc = c0.pc ∨ c.pc = PC.retire ∨ c.pc = PC.done)

/-- Whether a program counter is one of the four cancellation checks. -/
def PC.isCheck : PC → Bool
  | PC.check1 | PC.check2 | PC.check3 | PC.check4 => true
  | _ => false

/-- An uncancelled run whose reconnaissance request failed, described by how far its
goroutine has come (`stepsLeft` counts down along the pipeline): once the accumulator exists
it has no status code, latency or headers; the technology stage leaves the two fixed
technologies; the vulnerability stage leaves one critical finding when it is enabled and
none otherwise; the score is 100 less 30 for that finding and 15 for the three missing
headers; the last checkpoint leaves the percentage at 100; the vulnerability stage is only
entered when it is enabled. A cancelled or panicked cell is exempt. -/
def Cell.QuietRun (c : Cell) : Prop :=
  c.cancelled = true ∨ c.pc = PC.panicked
    ∨ ((c.pc.stepsLeft ≤ 21 →
          c.result.StatusCode = 0 ∧ c.result.ResponseTime = 0 ∧ c.result.Headers = [])
        ∧ (c.pc.stepsLeft ≤ 21 → 11 ≤ c.pc.stepsLeft → c.result.Vulnerabilities = [])
        ∧ (c.pc.stepsLeft ≤ 16 → c.result.TechStack.map (fun t => t.Name) = ["Nginx", "React"])
        ∧ (c.pc.stepsLeft ≤ 10 →
            c.result.Vulnerabilities.map (fun v => v.Severity)
              = if c.scan.Config.VulnerabilityScan then ["critical"] else [])
        ∧ (c.pc.stepsLeft ≤ 7 →
            c.result.SecurityScore = if c.scan.Config.VulnerabilityScan then 55 else 85)
        ∧ (c.pc.stepsLeft ≤ 6 → c.scan.Progress.Percentage = 100)
        ∧ (c.pc = PC.vuln → c.scan.Config.VulnerabilityScan = true))

/-- The progress counters of an instance fit together: the task total is the one of the
configuration, the completed-task count is the one `updateProgress` computes from the
percentage and the total, and the percentage 100 carries the label of the last checkpoint. -/
def Cell.TasksOK (c : Cell) : Prop :=
  c.scan.Progress.TotalTasks = calculateTotalTasks c.scan.Config
    ∧ c.scan.Progress.TasksCompleted
        = truncate (c.scan.Progress.Percentage / 100 * (c.scan.Progress.TotalTasks : ℚ))
    ∧ (c.scan.Progress.Percentage = 100 → c.scan.Progress.CurrentStage = "Finalizing scan")

/-- The stage of the pipeline a statement belongs to: 1 reconnaissance (with the
construction of the accumulator), 2 technology identification, 3 SSL/TLS summarization (a
panic happens there), 4 vulnerability assessment, 5 score computation, 6 finalization; 0 for
the deferred function and for a goroutine that has returned. -/
def PC.stageOf : PC → Nat
  | PC.start | PC.progress10 | PC.recon | PC.check1 => 1
  | PC.progress25 | PC.tech | PC.check2 => 2
  | PC.progress40 | PC.ssl | PC.check3 | PC.panicked => 3
  | PC.stage4 | PC.vuln | PC.check4 => 4
  | PC.progress80 | PC.score => 5
  | PC.progress100 | PC.finalize | PC.attach | PC.complete | PC.save | PC.emit => 6
  | PC.retire | PC.done => 0

/-- The percentage of the checkpoint that opens a stage (lines 237, 246, 255, 265, 275,
279). -/
def stagePercentage : Nat → ℚ
  | 1 => 10
  | 2 => 25
  | 3 => 40
  | 4 => 60
  | 5 => 80
  | _ => 100

/-- A cancelled run that stops in stage `k`, where the accumulator was `r0` when the signal
was seen set: the status says "cancelled", nothing is attached, the accumulator is not
"completed", the goroutine is in stage `k` or has left through the deferred function, the
percentage is at most the checkpoint of stage `k`, and what the stages after `k` write to the
accumulator is as in `r0`. -/
def Cell.HaltsIn (k : Nat) (r0 : ScanResult) (c : Cell) : Prop :=
  c.cancelled = true ∧ c.scan.Status = "cancelled" ∧ c.scan.Result = none
    ∧ c.result.Status ≠ "completed"
    ∧ (c.pc.stageOf = k ∨ c.pc = PC.retire ∨ c.pc = PC.done)
    ∧ c.scan.Progress.Percentage ≤ stagePercentage k
    ∧ (c.pc = PC.start → c.result = ScanResult.zero ∧ r0 = ScanResult.zero)
    ∧ (k < 2 → c.result.TechStack = r0.TechStack)
    ∧ (k < 3 → c.result.SSLInfo = r0.SSLInfo)
    ∧ (k < 4 → c.result.Vulnerabilities = r0.Vulnerabilities)
    ∧ c.result.SecurityScore = r0.SecurityScore
    ∧ c.result.Duration = r0.Duration

/-- The percentage of a call on the storage port when it is `UpdateScanProgress` for the
given identifier. -/
def StorageCall.checkpointFor (scanID : String) : StorageCall → Option ℚ
  | StorageCall.UpdateScanProgress id percentage _ _ _ =>
    if id = scanID then some percentage else none
  | StorageCall.SaveScanResult _ _ => none

/-- The percentages of the checkpoints that the storage port has received for the
identifier, in the order of the calls. -/
def checkpointsFor (scanID : String) (log : List StorageCall) : List ℚ :=
  log.filterMap (StorageCall.checkpointFor scanID)

/-- The percentage that the next statement of a goroutine passes to `updateProgress`, if it
is one of the six calls (lines 237, 246, 255, 265, 275, 279); line 265 is guarded by the
flag of the configuration. -/
def Cell.writes (c : Cell) : List ℚ :=
  match c.pc with
  | PC.progress10 => [10]
  | PC.progress25 => [25]
  | PC.progress40 => [40]
  | PC.stage4 => if c.scan.Config.VulnerabilityScan then [60] else []
  | PC.progress80 => [80]
  | PC.progress100 => [100]
  | _ => []

/-- The checkpoints behind a goroutine that stands at a program counter and has passed every
check it met; `vuln` is the flag of its configuration. -/
def PC.written (vuln : Bool) : PC → List ℚ
  | PC.start | PC.progress10 => []
  | PC.recon | PC.check1 | PC.progress25 => [10]
  | PC.tech | PC.check2 | PC.progress40 => [10, 25]
  | PC.ssl | PC.check3 | PC.stage4 | PC.panicked => [10, 25, 40]
  | PC.vuln | PC.check4 | PC.progress80 => if vuln then [10, 25, 40, 60] else [10, 25, 40]
  | PC.score | PC.progress100 =>
    if vuln then [10, 25, 40, 60, 80] else [10, 25, 40, 80]
  | PC.finalize | PC.attach | PC.complete | PC.save | PC.emit | PC.retire | PC.done =>
    if vuln then [10, 25, 40, 60, 80, 100] else [10, 25, 40, 80, 100]

/-- The summary that `analyzeSSL` writes for an https URL (lines 367-378): fixed texts, the
host of the URL as subject, and an expiry 90 days after the clock reading of line 371. -/
def sslSummary (host : String) (now : Time) : SSLInfo :=
  { Valid := true, Issuer := "Let's Encrypt Authority X3", Subject := host,
    ExpiryDate := now + 90 * 24 * 3600000000000, Protocol := "TLS 1.3",
    CipherSuite := "TLS_AES_256_GCM_SHA384", Grade := "A", Vulnerabilities := [] }

/-- The instance carries a URL that the parser accepts, and once the accumulator exists it
carries the same URL: `analyzeSSL` parses the text that `StartScan` has stored. -/
def Cell.UrlOK (parse : UrlParse) (c : Cell) : Prop :=
  (parse c.scan.URL).isSome = true ∧ (c.pc ≠ PC.start → c.result.URL = c.scan.URL)

/-- What the SSL/TLS stage leaves in the accumulator of an uncancelled run on the URL `url`,
described by how far the goroutine has come: before the stage the summary is the zero value;
behind it the summary is still the zero value when the scheme is not https, and otherwise the
one `analyzeSSL` writes at the clock reading of one of the environments `E`. A cancelled or
panicked cell is exempt. -/
def Cell.SslRun (parse : UrlParse) (url : String) (E : Env → Prop) (c : Cell) : Prop :=
  c.scan.URL = url
    ∧ (c.cancelled = true ∨ c.pc = PC.panicked
      ∨ ((c.pc ≠ PC.start → c.result.URL = url)
        ∧ (c.pc ≠ PC.start → 14 ≤ c.pc.stepsLeft → c.result.SSLInfo = SSLInfo.zero)
        ∧ (c.pc.stepsLeft ≤ 13 →
            ∃ u : URL, parse url = some u
              ∧ (u.Scheme ≠ "https" → c.result.SSLInfo = SSLInfo.zero)
              ∧ (u.Scheme = "https" →
                  ∃ env : Env, E env ∧ c.result.SSLInfo = sslSummary u.Host env.now))))

/-! ## Example states -/

/-- The configuration keys that the specification lists as recognized. -/
def recognizedKeys : List String :=
  ["scanType", "includeSubdomains", "maxDepth", "timeout", "technicalScan",
    "vulnerabilityScan", "complianceScan", "performanceScan"]

/-- The configuration input of the integration test (cmd/test/main.go, lines 136-142);
the literal 60 is a Go `int`. -/
def testScanConfig : ConfigMap :=
  [("scanType", Value.str "quick"), ("includeSubdomains", Value.bool false),
    ("timeout", Value.int 60), ("technicalScan", Value.bool true),
    ("vulnerabilityScan", Value.bool true)]

/-- A service with one scan registered under "scan-1", whose goroutine has not run yet. -/
def oneScan : Service :=
  exec exampleParse (NewService true)
    [Action.startScan "scan-1" 1000 1001 "https://example.org" [("timeout", Value.int 60)]]

/-- A service with two scans, "scan-1" and "scan-2"; the goroutine of the first has run
three statements, that of the second two. -/
def twoScans : Service :=
  exec exampleParse (NewService true)
    [Action.startScan "scan-1" 1000 1001 "https://example.org" [],
     Action.run 0 { now := 2000, response := none },
     Action.startScan "scan-2" 3000 3001 "http://example.net"
       [("vulnerabilityScan", Value.bool false)],
     Action.run 1 { now := 4000, response := none },
     Action.run 0 { now := 5000, response := none },
     Action.run 1 { now := 6000, response := none },
     Action.run 0 { now := 7000, response := none }]

/-- The environment of the example schedules: the clock reads 5 s, the request fails. -/
def quietEnv : Env := { now := 5000000000, response := none }

/-- One scan whose goroutine has executed 16 statements: the 100% checkpoint of line 279 is
written, the status of line 284 is not. -/
def atFinalize : Service :=
  exec exampleParse (NewService true)
    (Action.startScan "scan-1" 1000 1001 "https://example.org" []
      :: List.replicate 16 (Action.run 0 quietEnv))

/-- One scan whose goroutine has executed 13 statements: it has passed the last
cancellation check of line 269 and is about to write the 80% checkpoint. -/
def pastLastCheck : Service :=
  exec exampleParse (NewService true)
    (Action.startScan "scan-1" 1000 1001 "https://example.org" []
      :: List.replicate 13 (Action.run 0 quietEnv))

/-- The service `pastLastCheck` after `CancelScan` on its scan followed by the nine
remaining statements of the goroutine. -/
def lateCancel : Service :=
  exec exampleParse (CancelScan pastLastCheck "scan-1").2
    (List.replicate 9 (Action.run 0 quietEnv))

/-- One scan cancelled while its goroutine stood at the first cancellation check, which has
not run yet. -/
def cancelledAtCheck : Service :=
  exec exampleParse (NewService true)
    [Action.startScan "scan-1" 1000 1001 "https://example.org" [],
     Action.run 0 quietEnv, Action.run 0 quietEnv, Action.run 0 quietEnv,
     Action.cancelScan "scan-1"]

/-- The environment of a statement with the answers of the collaborators erased: the
storage port returns nil and the emission does not panic. -/
def Env.core (env : Env) : Env :=
  { env with storageError := none, sinkPanics := false }

/-- The action with the answers of the collaborators erased. -/
def Action.core : Action → Action
  | Action.run addr env => Action.run addr env.core
  | Action.startScan uuid started startTime targetURL config =>
    Action.startScan uuid started startTime targetURL config
  | Action.getStatus scanID => Action.getStatus scanID
  | Action.cancelScan scanID => Action.cancelScan scanID

/-- Whether an action involves no emission that ends the process. -/
def Action.recoverable : Action → Bool
  | Action.run _ env => !env.sinkExits
  | _ => true

/-- Two services hold the same scans: the same instances with their goroutines and
accumulators, the same registry, and the same crash state. They may differ in whether they
have a storage port, whether events are disabled, and in what the collaborators received. -/
def Service.SameScans (s1 s2 : Service) : Prop :=
  s1.heap = s2.heap ∧ s1.activeScans = s2.activeScans ∧ s1.crashed = s2.crashed

/-- A run of the first three statements of one scan in which the storage port returns an
error on every call and every emission panics. -/
def failingCollaborators : List Action :=
  [Action.startScan "scan-1" 1000 1001 "https://example.org" [],
   Action.run 0 { now := 2000, response := none, storageError := some "disk full",
                  sinkPanics := true },
   Action.run 0 { now := 3000, response := none, storageError := some "disk full",
                  sinkPanics := true },
   Action.cancelScan "scan-1",
   Action.run 0 { now := 4000, response := none, storageError := some "closed",
                  sinkPanics := true }]

/-- The same run with collaborators that succeed. -/
def workingCollaborators : List Action :=
  [Action.startScan "scan-1" 1000 1001 "https://example.org" [],
   Action.run 0 { now := 2000, response := none },
   Action.run 0 { now := 3000, response := none },
   Action.cancelScan "scan-1",
   Action.run 0 { now := 4000, response := none }]

/-- An instance with the given task total whose progress clock started at time 0, for
evaluating `updateProgress` at concrete inputs. -/
def exampleScan (totalTasks : Int) : ScanInstance :=
  { ID := "scan-1", URL := "https://example.org", Config := parseScanConfig [],
    Status := "running", Result := none, Started := 0,
    Progress :=
      { Percentage := 0, CurrentStage := "Initializing", ETA := 0, TasksCompleted := 0,
        TotalTasks := totalTasks, StartTime := 0, Errors := [], Warnings := [] } }

/-- The environment of a statement executed ten seconds after time 0. -/
def tenSeconds : Env := { now := 10000000000, response := none }

/-- An answer to the reconnaissance request, five seconds after time 0. -/
def answeringEnv : Env :=
  { now := 5000000000
    response := some { StatusCode := 200, Header := [("Server", ["nginx"])], Elapsed := 120000000 } }

/-- One scan that is cancelled right after `StartScan`, before its goroutine has executed a
statement. -/
def cancelledAtStart : Service :=
  exec exampleParse (NewService true)
    [Action.startScan "scan-1" 1000 1001 "https://example.org" [],
     Action.cancelScan "scan-1"]

/-- The service `cancelledAtStart` after the first three statements of the goroutine, the
request being answered. -/
def cancelledAtStartRun : Service :=
  exec exampleParse cancelledAtStart (List.replicate 3 (Action.run 0 answeringEnv))

/-- A stand-in for `json.Marshal` on the map of a result: the fields that the storage
manager reads back, the progress of the accumulator among them. -/
def exampleResultMarshal : ScanResult → Option Json := fun result =>
  some (Json.obj
    [("id", Json.str result.ID), ("url", Json.str result.URL),
      ("status", Json.str result.Status),
      ("securityScore", Json.num (result.SecurityScore : ℚ)),
      ("progress",
        progressMap result.Progress.Percentage result.Progress.CurrentStage
          result.Progress.ETA result.Progress.TasksCompleted)])

/-- One scan run against a service with a storage port: started, taken through its first
two statements (the accumulator and the 10% checkpoint), then cancelled and given all its
remaining statements. -/
def cancelledRun : Service :=
  exec exampleParse cancelledAtCheck (List.replicate 19 (Action.run 0 quietEnv))

/-- One scan run to its end without a cancellation. -/
def completedRun : Service :=
  exec exampleParse oneScan (List.replicate 22 (Action.run 0 quietEnv))

/-- The environment of a statement whose emission ends the process: the context handed to
`NewService` is not the context of a Wails application, and `runtime.EventsEmit` logs a
fatal error and exits. The request fails and the clock reads 5 s. -/
def exitingEnv : Env := { now := 5000000000, response := none, sinkExits := true }

/-- The environment of a statement whose emission panics and is recovered. -/
def panickingEnv : Env := { now := 5000000000, response := none, sinkPanics := true }

/-- The run of `NewService(context.Background(), nil).StartScan("https://example.org", nil)`:
events enabled, no storage port, every emission ending the process. -/
def sinkExitRun : Service :=
  exec exampleParse (NewService false)
    (Action.startScan "scan-1" 1000 1001 "https://example.org" []
      :: List.replicate 22 (Action.run 0 exitingEnv))

/-- The same scan with emissions that panic. -/
def sinkPanicRun : Service :=
  exec exampleParse (NewService false)
    (Action.startScan "scan-1" 1000 1001 "https://example.org" []
      :: List.replicate 22 (Action.run 0 panickingEnv))

/-- The same scan on a service built by `NewServiceWithoutEvents`, which makes no
emission. -/
def eventsDisabledRun : Service :=
  exec exampleParse (NewServiceWithoutEvents false)
    (Action.startScan "scan-1" 1000 1001 "https://example.org" []
      :: List.replicate 22 (Action.run 0 exitingEnv))

/-! ## Theorems -/

/-! ### Bookkeeping lemmas -/

section updateProgress
variable (s : Service) (scan : ScanInstance) (p : ℚ) (st : String) (now : Time) (env : Env)

@[simp] theorem callStorage_heap (call : StorageCall) (answer : Option String) :
    (callStorage s call answer).heap = s.heap := rfl
@[simp] theorem callStorage_activeScans (call : StorageCall) (answer : Option String) :
    (callStorage s call answer).activeScans = s.activeScans := rfl
@[simp] theorem callStorage_crashed (call : StorageCall) (answer : Option String) :
    (callStorage s call answer).crashed = s.crashed := rfl
@[simp] theorem callStorage_hasStorage (call : StorageCall) (answer : Option String) :
    (callStorage s call answer).hasStorage = s.hasStorage := rfl
@[simp] theorem callStorage_disableEvents (call : StorageCall) (answer : Option String) :
    (callStorage s call answer).disableEvents = s.disableEvents := rfl
@[simp] theorem callStorage_eventLog (call : StorageCall) (answer : Option String) :
    (callStorage s call answer).eventLog = s.eventLog := rfl
@[simp] theorem callStorage_storageLog (call : StorageCall) (answer : Option String) :
    (callStorage s call answer).storageLog = s.storageLog ++ [call] := rfl

@[simp] theorem emitEvent_heap (event : Event) (panics exits : Bool) :
    (emitEvent s event panics exits).heap = s.heap := by
  cases panics <;> cases exits <;> rfl
@[simp] theorem emitEvent_activeScans (event : Event) (panics exits : Bool) :
    (emitEvent s event panics exits).activeScans = s.activeScans := by
  cases panics <;> cases exits <;> rfl
@[simp] theorem emitEvent_crashed (event : Event) (panics exits : Bool) :
    (emitEvent s event panics exits).crashed = (s.crashed || exits) := by
  cases panics <;> cases exits <;> simp [emitEvent]
@[simp] theorem emitEvent_hasStorage (event : Event) (panics exits : Bool) :
    (emitEvent s event panics exits).hasStorage = s.hasStorage := by
  cases panics <;> cases exits <;> rfl
@[simp] theorem emitEvent_disableEvents (event : Event) (panics exits : Bool) :
    (emitEvent s event panics exits).disableEvents = s.disableEvents := by
  cases panics <;> cases exits <;> rfl
@[simp] theorem emitEvent_storageLog (event : Event) (panics exits : Bool) :
    (emitEvent s event panics exits).storageLog = s.storageLog := by
  cases panics <;> cases exits <;> rfl

@[simp] theorem updateProgress_fst :
    (updateProgress s scan p st env).1 = progressed scan p st env.now := by
  simp only [updateProgress, progressed]

@[simp] theorem updateProgress_heap : (updateProgress s scan p st env).2.heap = s.heap := by
  simp only [updateProgress]; split_ifs <;> simp

@[simp] theorem updateProgress_activeScans :
    (updateProgress s scan p st env).2.activeScans = s.activeScans := by
  simp only [updateProgress]; split_ifs <;> simp

@[simp] theorem updateProgress_crashed :
    (updateProgress s scan p st env).2.crashed
      = (s.crashed || (!s.disableEvents && env.sinkExits)) := by
  simp only [updateProgress]; split_ifs <;> simp_all

@[simp] theorem updateProgress_hasStorage :
    (updateProgress s scan p st env).2.hasStorage = s.hasStorage := by
  simp only [updateProgress]; split_ifs <;> simp

@[simp] theorem updateProgress_disableEvents :
    (updateProgress s scan p st env).2.disableEvents = s.disableEvents := by
  simp only [updateProgress]; split_ifs <;> simp

@[simp] theorem progressed_ID : (progressed scan p st now).ID = scan.ID := rfl
@[simp] theorem progressed_URL : (progressed scan p st now).URL = scan.URL := rfl
@[simp] theorem progressed_Config : (progressed scan p st now).Config = scan.Config := rfl
@[simp] theorem progressed_Status : (progressed scan p st now).Status = scan.Status := rfl
@[simp] theorem progressed_Result : (progressed scan p st now).Result = scan.Result := rfl
@[simp] theorem progressed_Started : (progressed scan p st now).Started = scan.Started := rfl

@[simp] theorem progressed_Percentage :
    (progressed scan p st now).Progress.Percentage = p := by
  simp only [progressed, updateProgress]; split_ifs <;> rfl

@[simp] theorem progressed_TotalTasks :
    (progressed scan p st now).Progress.TotalTasks = scan.Progress.TotalTasks := by
  simp only [progressed, updateProgress]; split_ifs <;> rfl

end updateProgress

theorem set_self_of_getElem? {α : Type} :
    ∀ (l : List α) (i : Nat) (a : α), l[i]? = some a → l.set i a = l
  | [], _, _, h => by simp at h
  | x :: l, 0, a, h => by
    simp only [List.getElem?_cons_zero, Option.some.injEq] at h
    simp [h]
  | x :: l, i + 1, a, h => by
    simp only [List.getElem?_cons_succ] at h
    simp [set_self_of_getElem? l i a h]

/-- A statement of the pipeline writes one cell of the heap: its own. -/
theorem executeScan_heap (parse : UrlParse) (s : Service) (addr : Nat) (cell : Cell) (env : Env)
    (h : s.heap[addr]? = some cell) :
    (executeScan parse s addr cell env).heap = s.heap.set addr (cellAfter parse s cell env) := by
  cases hpc : cell.pc <;>
    simp only [cellAfter, executeScan, hpc, stage, checkpoint, checkCancelled, retire,
      Service.setCell] <;>
    (try split) <;> simp [set_self_of_getElem? _ _ _ h]

/-- A statement of the pipeline leaves the registry alone or deletes its own identifier. -/
theorem executeScan_activeScans (parse : UrlParse) (s : Service) (addr : Nat) (cell : Cell)
    (env : Env) :
    (executeScan parse s addr cell env).activeScans = s.activeScans
      ∨ (executeScan parse s addr cell env).activeScans
          = registryDelete s.activeScans cell.scan.ID := by
  cases hpc : cell.pc <;>
    simp only [executeScan, hpc, stage, checkpoint, checkCancelled, retire,
      Service.setCell] <;>
    (try split) <;> simp

/-- No statement of the pipeline rewrites the identifier of its instance. -/
theorem cellAfter_ID (parse : UrlParse) (s : Service) (cell : Cell) (env : Env) :
    (cellAfter parse s cell env).scan.ID = cell.scan.ID := by
  cases hpc : cell.pc <;>
    simp only [cellAfter, executeScan, hpc, stage, checkpoint, checkCancelled, retire,
      Service.setCell] <;>
    (try split) <;> simp

/-- No statement of the pipeline cancels or revives the context of its scan. -/
theorem cellAfter_cancelled (parse : UrlParse) (s : Service) (cell : Cell) (env : Env) :
    (cellAfter parse s cell env).cancelled = cell.cancelled := by
  cases hpc : cell.pc <;>
    simp only [cellAfter, executeScan, hpc, stage, checkpoint, checkCancelled, retire,
      Service.setCell] <;>
    (try split) <;> simp

/-- Each statement of the pipeline keeps the percentage in step with the program counter. -/
theorem cellAfter_levelOK (parse : UrlParse) (s : Service) (cell : Cell) (env : Env)
    (h : cell.LevelOK) : (cellAfter parse s cell env).LevelOK := by
  cases hpc : cell.pc <;>
    simp only [Cell.LevelOK, hpc] at h <;>
    simp only [cellAfter, executeScan, hpc, stage, checkpoint, checkCancelled, retire,
      Service.setCell] <;>
    (try split) <;> simp [Cell.LevelOK, h, hpc] <;>
    (try rcases h with h | h) <;> norm_num [h]



/-! ### Security score -/

theorem foldl_severity (vs : List Vulnerability) (init : Int) :
    vs.foldl (fun sc vuln => sc - severityDeduction vuln.Severity) init
      = init - 30 * countSeverity "critical" vs - 20 * countSeverity "high" vs
          - 10 * countSeverity "medium" vs - 5 * countSeverity "low" vs := by
  induction vs generalizing init with
  | nil => simp [countSeverity]
  | cons v vs ih =>
    rw [List.foldl_cons, ih]
    simp only [countSeverity, List.filter_cons]
    by_cases h1 : v.Severity = "critical"
    · simp [h1, severityDeduction]; ring
    · by_cases h2 : v.Severity = "high"
      · simp [h2, severityDeduction]; ring
      · by_cases h3 : v.Severity = "medium"
        · simp [h3, severityDeduction]; ring
        · by_cases h4 : v.Severity = "low"
          · simp [h4, severityDeduction]; ring
          · have h0 : severityDeduction v.Severity = 0 := by
              unfold severityDeduction
              split <;> simp_all
            simp [h1, h2, h3, h4, h0]

theorem foldl_headers (headers : HeaderMap) (init : Int) :
    securityHeaders.foldl
      (fun sc header => if (headers.lookup header).isNone then sc - 5 else sc) init
      = init - 5 * missingHeaders headers := by
  simp only [securityHeaders, missingHeaders, List.foldl_cons, List.foldl_nil, List.filter_cons,
    List.filter_nil]
  split_ifs <;> simp <;> ring

theorem missingHeaders_bounds (headers : HeaderMap) :
    0 ≤ missingHeaders headers ∧ missingHeaders headers ≤ 3 := by
  constructor
  · exact Int.ofNat_nonneg _
  · have h := List.length_filter_le (fun h => (headers.lookup h).isNone) securityHeaders
    simp only [missingHeaders]
    have h3 : securityHeaders.length = 3 := rfl
    omega

/-- C1. `calculateSecurityScore` stores `max 0 (100 - 30c - 20h - 10m - 5l - 5k)`, where
`c`, `h`, `m`, `l` count the findings of severity critical, high, medium, low and `k` counts
the expected security headers missing from the captured headers; the score lies in `0..100`;
one critical and one medium finding with two of the three headers missing give 50. -/
theorem calculateSecurityScore_formula :
    (∀ result : ScanResult,
      (calculateSecurityScore result).SecurityScore
        = max 0 (100 - 30 * countSeverity "critical" result.Vulnerabilities
                  - 20 * countSeverity "high" result.Vulnerabilities
                  - 10 * countSeverity "medium" result.Vulnerabilities
                  - 5 * countSeverity "low" result.Vulnerabilities
                  - 5 * missingHeaders result.Headers)
      ∧ 0 ≤ (calculateSecurityScore result).SecurityScore
      ∧ (calculateSecurityScore result).SecurityScore ≤ 100
      ∧ calculateSecurityScore result
          = { result with SecurityScore := (calculateSecurityScore result).SecurityScore })
    ∧ (calculateSecurityScore
        { ScanResult.zero with
          Vulnerabilities := [Vulnerability.ofSeverity "critical", Vulnerability.ofSeverity "medium"]
          Headers := [("X-Frame-Options", "DENY"), ("Server", "nginx")] }).SecurityScore = 50 := by
  have key : ∀ result : ScanResult,
      (calculateSecurityScore result).SecurityScore
        = max 0 (100 - 30 * countSeverity "critical" result.Vulnerabilities
                  - 20 * countSeverity "high" result.Vulnerabilities
                  - 10 * countSeverity "medium" result.Vulnerabilities
                  - 5 * countSeverity "low" result.Vulnerabilities
                  - 5 * missingHeaders result.Headers) := by
    intro result
    simp only [calculateSecurityScore, foldl_severity, foldl_headers]
    split_ifs with h
    · rw [max_eq_left (le_of_lt h)]
    · rw [max_eq_right (not_lt.mp h)]
  refine ⟨fun result => ⟨key result, ?_, ?_, rfl⟩, ?_⟩
  · rw [key]; exact le_max_left _ _
  · rw [key]
    have hc : 0 ≤ countSeverity "critical" result.Vulnerabilities := Int.ofNat_nonneg _
    have hh : 0 ≤ countSeverity "high" result.Vulnerabilities := Int.ofNat_nonneg _
    have hm : 0 ≤ countSeverity "medium" result.Vulnerabilities := Int.ofNat_nonneg _
    have hl : 0 ≤ countSeverity "low" result.Vulnerabilities := Int.ofNat_nonneg _
    have hk := (missingHeaders_bounds result.Headers).1
    apply max_le <;> omega
  · rw [key]
    simp [countSeverity, missingHeaders, securityHeaders, Vulnerability.ofSeverity, ScanResult.zero]

/-! ### The well-formedness invariant holds in every reachable state -/

theorem inv_of_set (s s1 : Service) (addr : Nat) (cell c1 : Cell) (hinv : s.Inv)
    (h : s.heap[addr]? = some cell) (hl : c1.LevelOK) (hid : c1.scan.ID = cell.scan.ID)
    (hheap : s1.heap = s.heap.set addr c1)
    (hreg : ∀ (id : String) (a : Nat), s1.activeScans id = some a → s.activeScans id = some a) :
    s1.Inv := by
  have hlt : addr < s.heap.length := (List.getElem?_eq_some.mp h).1
  constructor
  · intro a c hc
    rw [hheap, List.getElem?_set] at hc
    split_ifs at hc with h1
    · cases hc; exact hl
    · exact hinv.1 a c hc
  · intro id a ha
    obtain ⟨c, hc, hcid⟩ := hinv.2 id a (hreg id a ha)
    rw [hheap, List.getElem?_set]
    split_ifs with h1
    · subst h1
      rw [h] at hc
      cases hc
      exact ⟨c1, rfl, by rw [hid, hcid]⟩
    · exact ⟨c, hc, hcid⟩

theorem registryDelete_some (m : String → Option Nat) (key id : String) (a : Nat)
    (h : registryDelete m key id = some a) : m id = some a := by
  unfold registryDelete at h
  split_ifs at h
  exact h

theorem create_inv (hasStorage disableEvents : Bool) :
    (Service.create hasStorage disableEvents).Inv := by
  constructor
  · intro a c h; simp [Service.create] at h
  · intro id a h; simp [Service.create] at h

theorem StartScan_inv (parse : UrlParse) (s : Service) (uuid : String) (started startTime : Time)
    (targetURL : String) (config : ConfigMap) (hinv : s.Inv) :
    (StartScan parse s uuid started startTime targetURL config).2.Inv := by
  unfold StartScan
  cases parse targetURL with
  | none => exact hinv
  | some u =>
    constructor
    · intro a c hc
      simp only [List.getElem?_append] at hc
      split_ifs at hc with h1
      · exact hinv.1 a c hc
      · rcases Nat.eq_zero_or_pos (a - s.heap.length) with h0 | h0
        · rw [h0] at hc
          simp only [List.getElem?_cons_zero, Option.some.injEq] at hc
          subst hc
          simp [Cell.LevelOK]
        · obtain ⟨k, hk⟩ := Nat.exists_eq_succ_of_ne_zero (Nat.pos_iff_ne_zero.mp h0)
          rw [hk] at hc
          simp at hc
    · intro id a ha
      simp only [registryInsert] at ha
      split_ifs at ha with h1
      · cases ha
        subst h1
        exact ⟨_, List.getElem?_concat_length _ _, rfl⟩
      · obtain ⟨c, hc, hcid⟩ := hinv.2 id a ha
        refine ⟨c, ?_, hcid⟩
        simp only []
        rw [List.getElem?_append_left (List.getElem?_eq_some.mp hc).1]
        exact hc

theorem CancelScan_inv (s : Service) (scanID : String) (hinv : s.Inv) :
    (CancelScan s scanID).2.Inv := by
  cases hreg : s.activeScans scanID with
  | none => simp only [CancelScan, hreg]; exact hinv
  | some addr =>
    cases hcell : s.heap[addr]? with
    | none => simp only [CancelScan, hreg, hcell]; exact hinv
    | some cell =>
      simp only [CancelScan, hreg, hcell]
      have hl := hinv.1 addr cell hcell
      have hl1 : Cell.LevelOK
          { scan := { cell.scan with Status := "cancelled" }, cancelled := true, pc := cell.pc,
            result := cell.result } := by
        revert hl
        cases hpc : cell.pc <;> simp [Cell.LevelOK, hpc] <;> tauto
      exact inv_of_set s _ addr cell _ hinv hcell hl1 rfl rfl (fun _ _ h => h)

theorem GetStatus_snd (s : Service) (scanID : String) : (GetStatus s scanID).2 = s := by
  cases hreg : s.activeScans scanID with
  | none => simp only [GetStatus, hreg]
  | some addr => cases hcell : s.heap[addr]? <;> simp only [GetStatus, hreg, hcell]

theorem executeScan_inv (parse : UrlParse) (s : Service) (addr : Nat) (cell : Cell) (env : Env)
    (hinv : s.Inv) (h : s.heap[addr]? = some cell) :
    (executeScan parse s addr cell env).Inv := by
  refine inv_of_set s _ addr cell (cellAfter parse s cell env) hinv h
    (cellAfter_levelOK parse s cell env (hinv.1 addr cell h)) (cellAfter_ID parse s cell env)
    (executeScan_heap parse s addr cell env h) ?_
  intro id a ha
  rcases executeScan_activeScans parse s addr cell env with hr | hr
  · rw [hr] at ha; exact ha
  · rw [hr] at ha; exact registryDelete_some _ _ _ _ ha

theorem step_of_crashed (parse : UrlParse) (s : Service) (act : Action)
    (h : s.crashed = true) : step parse s act = s := by
  simp [step, h]

theorem step_run_none (parse : UrlParse) (s : Service) (addr : Nat) (env : Env)
    (h : s.heap[addr]? = none) : step parse s (Action.run addr env) = s := by
  simp [step, h]

theorem step_run_some (parse : UrlParse) (s : Service) (addr : Nat) (env : Env) (cell : Cell)
    (hc : s.crashed = false) (h : s.heap[addr]? = some cell) :
    step parse s (Action.run addr env) = executeScan parse s addr cell env := by
  simp [step, h, hc]

theorem step_inv (parse : UrlParse) (s : Service) (act : Action) (hinv : s.Inv) :
    (step parse s act).Inv := by
  cases hc : s.crashed with
  | true => rw [step_of_crashed parse s act hc]; exact hinv
  | false =>
    cases act with
    | startScan uuid started startTime targetURL config =>
      simp only [step, hc]
      exact StartScan_inv parse s uuid started startTime targetURL config hinv
    | getStatus scanID => simp only [step, hc, GetStatus_snd]; simpa using hinv
    | cancelScan scanID => simp only [step, hc]; exact CancelScan_inv s scanID hinv
    | run addr env =>
      cases hcell : s.heap[addr]? with
      | none => rw [step_run_none parse s addr env hcell]; exact hinv
      | some cell =>
        rw [step_run_some parse s addr env cell hc hcell]
        exact executeScan_inv parse s addr cell env hinv hcell

theorem exec_inv (parse : UrlParse) (schedule : List Action) :
    ∀ s : Service, s.Inv → (exec parse s schedule).Inv := by
  induction schedule with
  | nil => intro s h; exact h
  | cons act rest ih =>
    intro s h
    exact ih (step parse s act) (step_inv parse s act h)

theorem reachable_inv (parse : UrlParse) (s : Service) (hr : Reachable parse s) : s.Inv := by
  obtain ⟨hs, de, schedule, rfl⟩ := hr
  exact exec_inv parse schedule _ (create_inv hs de)

theorem oneScan_reachable : Reachable exampleParse oneScan :=
  ⟨true, false, _, rfl⟩

theorem twoScans_reachable : Reachable exampleParse twoScans :=
  ⟨true, false, _, rfl⟩

/-- C2. When the target URL fails to parse, `StartScan` returns the empty identifier and
the service it returns is the one it received: no instance is allocated, no goroutine is
created, and the registry is as before. -/
theorem StartScan_parse_error (parse : UrlParse) (s : Service) (uuid : String)
    (started startTime : Time) (targetURL : String) (config : ConfigMap)
    (h : parse targetURL = none) :
    (StartScan parse s uuid started startTime targetURL config).1 = ""
      ∧ (StartScan parse s uuid started startTime targetURL config).2 = s
      ∧ (StartScan parse s uuid started startTime targetURL config).2.heap.length
          = s.heap.length
      ∧ (StartScan parse s uuid started startTime targetURL config).2.activeScans
          = s.activeScans := by
  simp [StartScan, h]

theorem StartScan_parse_error_witness :
    (StartScan exampleParse oneScan "scan-2" 5 6 ":no-scheme" []).1 = ""
      ∧ (StartScan exampleParse oneScan "scan-2" 5 6 ":no-scheme" []).2 = oneScan
      ∧ (StartScan exampleParse oneScan "scan-2" 5 6 ":no-scheme" []).2.heap.length
          = oneScan.heap.length
      ∧ (StartScan exampleParse oneScan "scan-2" 5 6 ":no-scheme" []).2.activeScans
          = oneScan.activeScans :=
  StartScan_parse_error exampleParse oneScan "scan-2" 5 6 ":no-scheme" [] (by decide)

/-- C3. When the target URL parses (and the generated identifier is not the empty text),
`StartScan` returns that identifier; the registry then maps it to a newly allocated instance
with status "running", percentage 0, the rendered parsed URL and the parsed configuration;
its goroutine stands at its first statement and its context is live; `GetStatus` on the
returned identifier reports status "running" and a progress of percentage 0. -/
theorem StartScan_registers (parse : UrlParse) (s : Service) (uuid : String)
    (started startTime : Time) (targetURL : String) (config : ConfigMap) (u : URL)
    (h : parse targetURL = some u) (hid : uuid ≠ "") :
    (StartScan parse s uuid started startTime targetURL config).1 = uuid
      ∧ (StartScan parse s uuid started startTime targetURL config).1 ≠ ""
      ∧ ∃ cell : Cell,
          (StartScan parse s uuid started startTime targetURL config).2.activeScans uuid
              = some s.heap.length
          ∧ (StartScan parse s uuid started startTime targetURL config).2.heap[s.heap.length]?
              = some cell
          ∧ cell.scan.ID = uuid
          ∧ cell.scan.Status = "running"
          ∧ cell.scan.Progress.Percentage = 0
          ∧ cell.scan.URL = u.Rendered
          ∧ cell.scan.Config = parseScanConfig config
          ∧ cell.scan.Progress.TotalTasks = calculateTotalTasks (parseScanConfig config)
          ∧ cell.scan.Started = started
          ∧ cell.scan.Result = none
          ∧ cell.pc = PC.start
          ∧ cell.cancelled = false
          ∧ (GetStatus (StartScan parse s uuid started startTime targetURL config).2 uuid).1
              = [("id", StatusValue.str uuid), ("status", StatusValue.str "running"),
                  ("progress", StatusValue.progress cell.scan.Progress),
                  ("url", StatusValue.str u.Rendered), ("started", StatusValue.time started)] := by
  refine ⟨by simp [StartScan, h], by simp [StartScan, h, hid], ?_⟩
  simp [StartScan, h, GetStatus, registryInsert]

theorem StartScan_registers_witness :
    exampleParse "https://example.org"
        = some { Scheme := "https", Host := "example.org", Rendered := "https://example.org" }
      ∧ "scan-1" ≠ ""
      ∧ (StartScan exampleParse (NewService true) "scan-1" 1000 1001 "https://example.org" []).1
          = "scan-1"
      ∧ ∃ cell : Cell,
          (StartScan exampleParse (NewService true) "scan-1" 1000 1001 "https://example.org"
              []).2.heap[0]? = some cell
          ∧ cell.scan.Status = "running" ∧ cell.scan.Progress.Percentage = 0 :=
  have h := StartScan_registers exampleParse (NewService true) "scan-1" 1000 1001
    "https://example.org" []
    { Scheme := "https", Host := "example.org", Rendered := "https://example.org" }
    (by decide) (by decide)
  ⟨by decide, by decide, h.1, h.2.2.elim fun cell hc => ⟨cell, hc.2.1, hc.2.2.2.1, hc.2.2.2.2.1⟩⟩

/-- C4. For an identifier that is not a key of the registry, `GetStatus` returns the map
with the single entry error = "Scan not found": it has no id, status, progress, url or
started entry. -/
theorem GetStatus_unknown (s : Service) (scanID : String) (h : s.activeScans scanID = none) :
    (GetStatus s scanID).1 = [("error", StatusValue.str "Scan not found")]
      ∧ (GetStatus s scanID).1.lookup "id" = none
      ∧ (GetStatus s scanID).1.lookup "status" = none
      ∧ (GetStatus s scanID).1.lookup "progress" = none
      ∧ (GetStatus s scanID).1.lookup "url" = none
      ∧ (GetStatus s scanID).1.lookup "started" = none := by
  simp only [GetStatus, h]
  decide

theorem GetStatus_unknown_witness :
    (GetStatus oneScan "scan-7").1 = [("error", StatusValue.str "Scan not found")]
      ∧ (GetStatus oneScan "scan-7").1.lookup "id" = none
      ∧ (GetStatus oneScan "scan-7").1.lookup "status" = none
      ∧ (GetStatus oneScan "scan-7").1.lookup "progress" = none
      ∧ (GetStatus oneScan "scan-7").1.lookup "url" = none
      ∧ (GetStatus oneScan "scan-7").1.lookup "started" = none :=
  GetStatus_unknown oneScan "scan-7" (by decide)
/-- C5. For an identifier registered in a reachable service, `GetStatus` returns the five
entries id, status, progress, url, started (the key the code uses for the start time) with
the instance's identifier (which is the key asked for), status, progress snapshot, URL and
start timestamp, and returns the service unchanged: registry, instances and logs. -/
theorem GetStatus_registered (parse : UrlParse) (s : Service) (scanID : String) (addr : Nat)
    (hr : Reachable parse s) (h : s.activeScans scanID = some addr) :
    ∃ cell : Cell, s.heap[addr]? = some cell ∧ cell.scan.ID = scanID
      ∧ (GetStatus s scanID).1
          = [("id", StatusValue.str cell.scan.ID),
              ("status", StatusValue.str cell.scan.Status),
              ("progress", StatusValue.progress cell.scan.Progress),
              ("url", StatusValue.str cell.scan.URL),
              ("started", StatusValue.time cell.scan.Started)]
      ∧ (GetStatus s scanID).2 = s
      ∧ step parse s (Action.getStatus scanID) = s := by
  obtain ⟨cell, hcell, hid⟩ := (reachable_inv parse s hr).2 scanID addr h
  refine ⟨cell, hcell, hid, by simp only [GetStatus, h, hcell], GetStatus_snd s scanID, ?_⟩
  unfold step
  split_ifs
  · rfl
  · exact GetStatus_snd s scanID

theorem GetStatus_registered_witness :
    ∃ cell : Cell, oneScan.heap[0]? = some cell ∧ cell.scan.ID = "scan-1"
      ∧ (GetStatus oneScan "scan-1").1
          = [("id", StatusValue.str cell.scan.ID),
              ("status", StatusValue.str cell.scan.Status),
              ("progress", StatusValue.progress cell.scan.Progress),
              ("url", StatusValue.str cell.scan.URL),
              ("started", StatusValue.time cell.scan.Started)]
      ∧ (GetStatus oneScan "scan-1").2 = oneScan
      ∧ step exampleParse oneScan (Action.getStatus "scan-1") = oneScan :=
  GetStatus_registered exampleParse oneScan "scan-1" 0 oneScan_reachable (by decide)

/-- C6. For an identifier that is not a key of the registry, `CancelScan` returns the error
"scan not found" and the service it received: no context is cancelled, and the registry,
every instance and both logs are as before. -/
theorem CancelScan_unknown (s : Service) (scanID : String) (h : s.activeScans scanID = none) :
    (CancelScan s scanID).1 = some "scan not found"
      ∧ (CancelScan s scanID).2 = s
      ∧ (∀ a : Nat, ((CancelScan s scanID).2.heap[a]?).map (fun c => c.cancelled)
          = (s.heap[a]?).map (fun c => c.cancelled)) := by
  simp [CancelScan, h]

theorem CancelScan_unknown_witness :
    (CancelScan oneScan "scan-7").1 = some "scan not found"
      ∧ (CancelScan oneScan "scan-7").2 = oneScan
      ∧ (∀ a : Nat, ((CancelScan oneScan "scan-7").2.heap[a]?).map (fun c => c.cancelled)
          = (oneScan.heap[a]?).map (fun c => c.cancelled)) :=
  CancelScan_unknown oneScan "scan-7" (by decide)

/-- C7. For an identifier registered in a reachable service, `CancelScan` returns nil,
cancels the context of that instance and sets its status to "cancelled", changing nothing
else in it; every other cell of the heap (so every other registered instance: status,
progress, cancellation state, goroutine) is unchanged, the registry and both logs are
unchanged, and `GetStatus` answers as before for every other identifier. -/
theorem CancelScan_registered (parse : UrlParse) (s : Service) (scanID : String) (addr : Nat)
    (hr : Reachable parse s) (h : s.activeScans scanID = some addr) :
    ∃ cell : Cell, s.heap[addr]? = some cell
      ∧ (CancelScan s scanID).1 = none
      ∧ (CancelScan s scanID).2.heap[addr]?
          = some { cell with cancelled := true, scan := { cell.scan with Status := "cancelled" } }
      ∧ (∀ a : Nat, a ≠ addr → (CancelScan s scanID).2.heap[a]? = s.heap[a]?)
      ∧ (∀ (other : String) (a : Nat), other ≠ scanID → s.activeScans other = some a →
            (CancelScan s scanID).2.heap[a]? = s.heap[a]?)
      ∧ (CancelScan s scanID).2.activeScans = s.activeScans
      ∧ (CancelScan s scanID).2.storageLog = s.storageLog
      ∧ (CancelScan s scanID).2.eventLog = s.eventLog
      ∧ (∀ other : String, other ≠ scanID →
            (GetStatus (CancelScan s scanID).2 other).1 = (GetStatus s other).1) := by
  have hinv := reachable_inv parse s hr
  obtain ⟨cell, hcell, hid⟩ := hinv.2 scanID addr h
  have hlt : addr < s.heap.length := (List.getElem?_eq_some.mp hcell).1
  have hother : ∀ (other : String) (a : Nat), other ≠ scanID → s.activeScans other = some a →
      a ≠ addr := by
    intro other a hne ha heq
    obtain ⟨c, hc, hcid⟩ := hinv.2 other a ha
    rw [heq, hcell] at hc
    cases hc
    exact hne (hcid.symm.trans hid)
  have hheap : ∀ a : Nat, a ≠ addr → (CancelScan s scanID).2.heap[a]? = s.heap[a]? := by
    intro a ha
    simp only [CancelScan, h, hcell, Service.setCell]
    exact List.getElem?_set_ne (Ne.symm ha)
  refine ⟨cell, hcell, ?_, ?_, hheap, ?_, ?_, ?_, ?_, ?_⟩
  · simp only [CancelScan, h, hcell]
  · simp only [CancelScan, h, hcell, Service.setCell]
    exact List.getElem?_set_self hlt
  · intro other a hne ha
    exact hheap a (hother other a hne ha)
  · simp only [CancelScan, h, hcell, Service.setCell]
  · simp only [CancelScan, h, hcell, Service.setCell]
  · simp only [CancelScan, h, hcell, Service.setCell]
  · intro other hne
    have hreg : (CancelScan s scanID).2.activeScans = s.activeScans := by
      simp only [CancelScan, h, hcell, Service.setCell]
    cases ho : s.activeScans other with
    | none => simp only [GetStatus, hreg, ho]
    | some a =>
      have := hheap a (hother other a hne ho)
      simp only [GetStatus, hreg, ho, this]
      cases s.heap[a]? <;> rfl

theorem CancelScan_registered_witness :
    ∃ cell : Cell, twoScans.heap[0]? = some cell
      ∧ (CancelScan twoScans "scan-1").1 = none
      ∧ (CancelScan twoScans "scan-1").2.heap[0]?
          = some { cell with cancelled := true, scan := { cell.scan with Status := "cancelled" } }
      ∧ (∀ a : Nat, a ≠ 0 → (CancelScan twoScans "scan-1").2.heap[a]? = twoScans.heap[a]?)
      ∧ (∀ (other : String) (a : Nat), other ≠ "scan-1" → twoScans.activeScans other = some a →
            (CancelScan twoScans "scan-1").2.heap[a]? = twoScans.heap[a]?)
      ∧ (CancelScan twoScans "scan-1").2.activeScans = twoScans.activeScans
      ∧ (CancelScan twoScans "scan-1").2.storageLog = twoScans.storageLog
      ∧ (CancelScan twoScans "scan-1").2.eventLog = twoScans.eventLog
      ∧ (∀ other : String, other ≠ "scan-1" →
            (GetStatus (CancelScan twoScans "scan-1").2 other).1 = (GetStatus twoScans other).1) :=
  CancelScan_registered exampleParse twoScans "scan-1" 0 twoScans_reachable (by decide)

/-! ### What one action does to one cell -/

theorem step_startScan (parse : UrlParse) (s : Service) (uuid : String)
    (started startTime : Time) (targetURL : String) (config : ConfigMap)
    (hc : s.crashed = false) :
    step parse s (Action.startScan uuid started startTime targetURL config)
      = (StartScan parse s uuid started startTime targetURL config).2 := by
  simp [step, hc]

theorem step_getStatus (parse : UrlParse) (s : Service) (scanID : String) :
    step parse s (Action.getStatus scanID) = s := by
  simp [step, GetStatus_snd]

theorem step_cancelScan (parse : UrlParse) (s : Service) (scanID : String)
    (hc : s.crashed = false) :
    step parse s (Action.cancelScan scanID) = (CancelScan s scanID).2 := by
  simp [step, hc]

/-- After any action a cell is unchanged, or has been cancelled by `CancelScan`, or has
executed one statement of its own goroutine. -/
theorem step_cell (parse : UrlParse) (s : Service) (act : Action) (a : Nat) (c : Cell)
    (hc : s.heap[a]? = some c) :
    ∃ c1 : Cell, (step parse s act).heap[a]? = some c1
      ∧ (c1 = c
          ∨ c1 = { c with cancelled := true, scan := { c.scan with Status := "cancelled" } }
          ∨ ∃ env : Env, act = Action.run a env ∧ s.crashed = false
              ∧ c1 = cellAfter parse s c env) := by
  have hlt : a < s.heap.length := (List.getElem?_eq_some.mp hc).1
  cases hcr : s.crashed with
  | true => rw [step_of_crashed parse s act hcr]; exact ⟨c, hc, Or.inl rfl⟩
  | false =>
    cases act with
    | startScan uuid started startTime targetURL config =>
      rw [step_startScan parse s uuid started startTime targetURL config hcr]
      simp only [StartScan]
      cases parse targetURL with
      | none => exact ⟨c, hc, Or.inl rfl⟩
      | some u =>
        refine ⟨c, ?_, Or.inl rfl⟩
        simp only []
        rw [List.getElem?_append_left hlt]
        exact hc
    | getStatus scanID =>
      rw [step_getStatus]
      exact ⟨c, hc, Or.inl rfl⟩
    | cancelScan scanID =>
      rw [step_cancelScan parse s scanID hcr]
      cases hreg : s.activeScans scanID with
      | none => simp only [CancelScan, hreg]; exact ⟨c, hc, Or.inl rfl⟩
      | some addr =>
        cases hcell : s.heap[addr]? with
        | none => simp only [CancelScan, hreg, hcell]; exact ⟨c, hc, Or.inl rfl⟩
        | some cell =>
          simp only [CancelScan, hreg, hcell, Service.setCell]
          by_cases hEq : addr = a
          · subst hEq
            rw [hc] at hcell
            cases hcell
            exact ⟨_, List.getElem?_set_self hlt, Or.inr (Or.inl rfl)⟩
          · refine ⟨c, ?_, Or.inl rfl⟩
            rw [List.getElem?_set_ne hEq]
            exact hc
    | run addr env =>
      cases hcell : s.heap[addr]? with
      | none => rw [step_run_none parse s addr env hcell]; exact ⟨c, hc, Or.inl rfl⟩
      | some cell =>
        rw [step_run_some parse s addr env cell hcr hcell, executeScan_heap parse s addr cell env hcell]
        by_cases hEq : addr = a
        · subst hEq
          rw [hc] at hcell
          cases hcell
          exact ⟨_, List.getElem?_set_self hlt, Or.inr (Or.inr ⟨env, rfl, rfl, rfl⟩)⟩
        · refine ⟨c, ?_, Or.inl rfl⟩
          rw [List.getElem?_set_ne hEq]
          exact hc

/-- A statement of the goroutine at `a` turns its cell into `cellAfter`. -/
theorem step_run_cell (parse : UrlParse) (s : Service) (a : Nat) (env : Env) (c : Cell)
    (hcr : s.crashed = false) (hc : s.heap[a]? = some c) :
    (step parse s (Action.run a env)).heap[a]? = some (cellAfter parse s c env) := by
  rw [step_run_some parse s a env c hcr hc, executeScan_heap parse s a c env hc]
  exact List.getElem?_set_self (List.getElem?_eq_some.mp hc).1

/-- An action that is not a statement of the goroutine at `a` leaves its program counter. -/
theorem step_pc_of_not_run (parse : UrlParse) (s : Service) (act : Action) (a : Nat) (c : Cell)
    (hc : s.heap[a]? = some c) (hact : Action.isRun a act = false) :
    ∃ c1 : Cell, (step parse s act).heap[a]? = some c1 ∧ c1.pc = c.pc := by
  obtain ⟨c1, h1, h | h | ⟨env, he, -, -⟩⟩ := step_cell parse s act a c hc
  · exact ⟨c1, h1, by rw [h]⟩
  · exact ⟨c1, h1, by rw [h]⟩
  · rw [he] at hact
    simp [Action.isRun] at hact

theorem exec_crashed (parse : UrlParse) (schedule : List Action) :
    ∀ s : Service, s.crashed = true → (exec parse s schedule).crashed = true := by
  induction schedule with
  | nil => intro s h; exact h
  | cons act rest ih =>
    intro s h
    have : step parse s act = s := step_of_crashed parse s act h
    simp only [exec, List.foldl_cons, this]
    exact ih s h

theorem exec_cons (parse : UrlParse) (s : Service) (act : Action) (rest : List Action) :
    exec parse s (act :: rest) = exec parse (step parse s act) rest := rfl

theorem exec_append (parse : UrlParse) (s : Service) (xs ys : List Action) :
    exec parse s (xs ++ ys) = exec parse (exec parse s xs) ys := by
  simp [exec, List.foldl_append]

/-! ### Cell-level facts about one statement of the pipeline -/

/-- No statement of the pipeline lowers the percentage. -/
theorem cellAfter_mono (parse : UrlParse) (s : Service) (cell : Cell) (env : Env)
    (h : cell.LevelOK) :
    cell.scan.Progress.Percentage ≤ (cellAfter parse s cell env).scan.Progress.Percentage := by
  cases hpc : cell.pc <;>
    simp only [Cell.LevelOK, hpc] at h <;>
    simp only [cellAfter, executeScan, hpc, stage, checkpoint, checkCancelled, retire,
      Service.setCell] <;>
    (try split) <;> simp [h] <;>
    (try rcases h with h | h) <;> norm_num [h]

/-- A cancellation that arrived before the last check stays in force. -/
theorem cellAfter_cancelledInTime (parse : UrlParse) (s : Service) (cell : Cell) (env : Env)
    (h : cell.CancelledInTime) : (cellAfter parse s cell env).CancelledInTime := by
  obtain ⟨h1, h2, h3⟩ := h
  cases hpc : cell.pc <;>
    simp only [hpc, PC.beforeLastCheck] at h3 <;>
    simp only [cellAfter, executeScan, hpc, stage, checkpoint, checkCancelled, retire,
      Service.setCell] <;>
    (try split) <;> simp_all [Cell.CancelledInTime, PC.beforeLastCheck]

/-- Every statement of the pipeline brings the goroutine closer to its end. -/
theorem cellAfter_stepsLeft (parse : UrlParse) (s : Service) (cell : Cell) (env : Env) :
    (cellAfter parse s cell env).pc.stepsLeft ≤ cell.pc.stepsLeft - 1 := by
  cases hpc : cell.pc <;>
    simp only [cellAfter, executeScan, hpc, stage, checkpoint, checkCancelled, retire,
      Service.setCell] <;>
    (try split) <;> simp [PC.stepsLeft, hpc]

/-- A statement of the pipeline that does not crash the process does not panic. -/
theorem executeScan_not_panicked (parse : UrlParse) (s : Service) (addr : Nat) (cell : Cell)
    (env : Env) (hcr : s.crashed = false) (hpc : cell.pc ≠ PC.panicked)
    (h : (executeScan parse s addr cell env).crashed = false) :
    (cellAfter parse s cell env).pc ≠ PC.panicked := by
  revert h
  cases hpc1 : cell.pc <;>
    simp only [cellAfter, executeScan, hpc1, stage, checkpoint, checkCancelled, retire,
      Service.setCell] <;>
    (try split) <;> simp_all

/-! ### Facts about whole schedules -/

theorem exec_mono (parse : UrlParse) (a : Nat) (schedule : List Action) :
    ∀ (s : Service) (c : Cell), s.Inv → s.heap[a]? = some c →
      ∃ c1 : Cell, (exec parse s schedule).heap[a]? = some c1
        ∧ c.scan.Progress.Percentage ≤ c1.scan.Progress.Percentage := by
  induction schedule with
  | nil => intro s c _ hc; exact ⟨c, hc, le_refl _⟩
  | cons act rest ih =>
    intro s c hinv hc
    obtain ⟨c1, h1, hrel⟩ := step_cell parse s act a c hc
    obtain ⟨c2, h2, hle⟩ := ih (step parse s act) c1 (step_inv parse s act hinv) h1
    refine ⟨c2, h2, le_trans ?_ hle⟩
    rcases hrel with h | h | ⟨env, -, -, h⟩
    · rw [h]
    · rw [h]
    · rw [h]; exact cellAfter_mono parse s c env (hinv.1 a c hc)

theorem exec_cancelledInTime (parse : UrlParse) (a : Nat) (schedule : List Action) :
    ∀ (s : Service) (c : Cell), s.heap[a]? = some c → c.CancelledInTime →
      ∃ c1 : Cell, (exec parse s schedule).heap[a]? = some c1 ∧ c1.CancelledInTime := by
  induction schedule with
  | nil => intro s c hc h; exact ⟨c, hc, h⟩
  | cons act rest ih =>
    intro s c hc hj
    obtain ⟨c1, h1, hrel⟩ := step_cell parse s act a c hc
    refine ih (step parse s act) c1 h1 ?_
    rcases hrel with h | h | ⟨env, -, -, h⟩
    · rw [h]; exact hj
    · rw [h]; exact ⟨rfl, rfl, hj.2.2⟩
    · rw [h]; exact cellAfter_cancelledInTime parse s c env hj

theorem isRun_eq_true (a : Nat) (act : Action) (h : Action.isRun a act = true) :
    ∃ env : Env, act = Action.run a env := by
  cases act with
  | run addr env =>
    simp only [Action.isRun, decide_eq_true_eq] at h
    exact ⟨env, by rw [h]⟩
  | startScan _ _ _ _ _ => simp [Action.isRun] at h
  | getStatus _ => simp [Action.isRun] at h
  | cancelScan _ => simp [Action.isRun] at h

theorem exec_stepsLeft (parse : UrlParse) (a : Nat) (schedule : List Action) :
    ∀ (s : Service) (c : Cell), s.heap[a]? = some c → c.pc ≠ PC.panicked →
      (exec parse s schedule).crashed = false →
      ∃ c1 : Cell, (exec parse s schedule).heap[a]? = some c1 ∧ c1.pc ≠ PC.panicked
        ∧ c1.pc.stepsLeft ≤ c.pc.stepsLeft - countRuns a schedule := by
  induction schedule with
  | nil => intro s c hc hp _; exact ⟨c, hc, hp, by simp [countRuns]⟩
  | cons act rest ih =>
    intro s c hc hp hfin
    rw [exec_cons] at hfin
    have hs1 : (step parse s act).crashed = false := by
      cases h : (step parse s act).crashed with
      | false => rfl
      | true => rw [exec_crashed parse rest _ h] at hfin; exact absurd hfin (by decide)
    have hs : s.crashed = false := by
      cases h : s.crashed with
      | false => rfl
      | true => rw [step_of_crashed parse s act h, h] at hs1; exact absurd hs1 (by decide)
    cases hrun : Action.isRun a act with
    | false =>
      obtain ⟨c1, h1, hpc⟩ := step_pc_of_not_run parse s act a c hc hrun
      obtain ⟨c2, h2, hp2, hle⟩ := ih (step parse s act) c1 h1 (by rw [hpc]; exact hp) hfin
      refine ⟨c2, h2, hp2, ?_⟩
      rw [hpc] at hle
      simpa [countRuns, List.filter_cons, hrun] using hle
    | true =>
      obtain ⟨env, rfl⟩ := isRun_eq_true a act hrun
      have h1 := step_run_cell parse s a env c hs hc
      have hnp : (cellAfter parse s c env).pc ≠ PC.panicked := by
        apply executeScan_not_panicked parse s a c env hs hp
        rw [← step_run_some parse s a env c hs hc]
        exact hs1
      obtain ⟨c2, h2, hp2, hle⟩ := ih (step parse s (Action.run a env)) _ h1 hnp hfin
      refine ⟨c2, h2, hp2, ?_⟩
      have hdec := cellAfter_stepsLeft parse s c env
      have hcount : countRuns a (Action.run a env :: rest) = countRuns a rest + 1 := by
        simp [countRuns, List.filter_cons, hrun]
      rw [hcount]
      omega

theorem stepsLeft_eq_zero (pc : PC) (h : pc.stepsLeft = 0) : pc = PC.done ∨ pc = PC.panicked := by
  cases pc <;> simp [PC.stepsLeft] at h <;> simp

/-! ### Cancellation and the terminal status -/

/-- C8, at the failing input: the scan has passed its last cancellation check (line 269) and
is still registered and running; `CancelScan` succeeds and writes "cancelled" (line 216);
the goroutine then overwrites the status with "completed" (line 284), saves the result as
completed (line 288) and retires the instance. The cancellation is lost. -/
theorem cancel_after_last_check_completes :
    pastLastCheck.activeScans "scan-1" = some 0
      ∧ (pastLastCheck.heap[0]?).map (fun c => (c.scan.Status, c.pc, c.cancelled))
          = some ("running", PC.progress80, false)
      ∧ (CancelScan pastLastCheck "scan-1").1 = none
      ∧ ((CancelScan pastLastCheck "scan-1").2.heap[0]?).map (fun c => (c.scan.Status, c.cancelled))
          = some ("cancelled", true)
      ∧ (lateCancel.heap[0]?).map (fun c => (c.scan.Status, c.pc, c.cancelled))
          = some ("completed", PC.done, true)
      ∧ lateCancel.activeScans "scan-1" = none
      ∧ (lateCancel.storageLog.getLast?).map
            (fun call => match call with
              | StorageCall.SaveScanResult scanID result => (scanID, result.Status)
              | _ => ("", ""))
          = some ("scan-1", "completed") := by
  refine ⟨by decide, by rfl, by rfl, by rfl, by rfl, by rfl, by rfl⟩

/-- A cancellation that comes in time. If `CancelScan` is called on a registered scan whose
goroutine has not yet executed its last cancellation check (line 269), it succeeds, and from
then on, whatever the schedule, the status of the instance is "cancelled" and never
"completed"; once the goroutine has been given its remaining statements (and the process has
not crashed) it has returned, so "cancelled" is the terminal status. -/
theorem cancel_before_last_check (parse : UrlParse) (s : Service) (scanID : String) (a : Nat)
    (c : Cell) (schedule : List Action) (hreg : s.activeScans scanID = some a)
    (hc : s.heap[a]? = some c) (hpc : c.pc.beforeLastCheck = true) :
    (CancelScan s scanID).1 = none
      ∧ ∃ c1 : Cell, (exec parse (CancelScan s scanID).2 schedule).heap[a]? = some c1
          ∧ c1.cancelled = true
          ∧ c1.scan.Status = "cancelled"
          ∧ c1.scan.Status ≠ "completed"
          ∧ ((exec parse (CancelScan s scanID).2 schedule).crashed = false →
              c.pc.stepsLeft ≤ countRuns a schedule → c1.pc = PC.done) := by
  have hlt : a < s.heap.length := (List.getElem?_eq_some.mp hc).1
  refine ⟨by simp only [CancelScan, hreg, hc], ?_⟩
  have h2 : (CancelScan s scanID).2.heap[a]?
      = some { c with cancelled := true, scan := { c.scan with Status := "cancelled" } } := by
    simp only [CancelScan, hreg, hc, Service.setCell]
    exact List.getElem?_set_self hlt
  have hj : Cell.CancelledInTime
      { c with cancelled := true, scan := { c.scan with Status := "cancelled" } } :=
    ⟨rfl, rfl, Or.inl hpc⟩
  obtain ⟨c1, h1, hj1⟩ := exec_cancelledInTime parse a schedule _ _ h2 hj
  refine ⟨c1, h1, hj1.1, hj1.2.1, by rw [hj1.2.1]; decide, ?_⟩
  intro hcr hcount
  have hnp : c.pc ≠ PC.panicked := by
    intro h; rw [h] at hpc; simp [PC.beforeLastCheck] at hpc
  obtain ⟨c2, h2', hp2, hle⟩ := exec_stepsLeft parse a schedule _ _ h2 hnp hcr
  rw [h1] at h2'
  cases h2'
  have h0 : c1.pc.stepsLeft = 0 := by
    simp only [] at hle
    omega
  rcases stepsLeft_eq_zero _ h0 with h | h
  · exact h
  · exact absurd h hp2

theorem cancel_before_last_check_example :
    twoScans.activeScans "scan-1" = some 0
      ∧ (twoScans.heap[0]?).map (fun c => c.pc) = some PC.check1
      ∧ (CancelScan twoScans "scan-1").1 = none
      ∧ ∃ c1 : Cell,
          (exec exampleParse (CancelScan twoScans "scan-1").2
              (List.replicate 19 (Action.run 0 quietEnv))).heap[0]? = some c1
          ∧ c1.cancelled = true
          ∧ c1.scan.Status = "cancelled"
          ∧ c1.scan.Status ≠ "completed"
          ∧ c1.pc = PC.done :=
  have h := cancel_before_last_check exampleParse twoScans "scan-1" 0 _
    (List.replicate 19 (Action.run 0 quietEnv)) (by decide) rfl (by rfl)
  ⟨by decide, by rfl, h.1,
    h.2.elim fun c1 hc1 =>
      ⟨c1, hc1.1, hc1.2.1, hc1.2.2.1, hc1.2.2.2.1, hc1.2.2.2.2 (by rfl) (by decide)⟩⟩

/-! ### Progress percentage -/

/-- C9. The percentage of an instance never decreases: for every reachable service, every
allocated instance and every schedule that follows (statements of any goroutine, with or
without the vulnerability stage, calls of `StartScan`, `GetStatus` and `CancelScan`), the
instance is still allocated afterwards and its percentage is at least what it was; and the
instance that `StartScan` registers starts at percentage 0. -/
theorem progress_never_decreases (parse : UrlParse) (s : Service) (a : Nat) (c : Cell)
    (schedule : List Action) (hr : Reachable parse s) (hc : s.heap[a]? = some c) :
    (∃ c1 : Cell, (exec parse s schedule).heap[a]? = some c1
        ∧ c.scan.Progress.Percentage ≤ c1.scan.Progress.Percentage)
      ∧ (∀ (uuid : String) (started startTime : Time) (targetURL : String) (config : ConfigMap),
          (parse targetURL).isSome = true →
          ((StartScan parse s uuid started startTime targetURL config).2.heap[s.heap.length]?).map
              (fun c0 => c0.scan.Progress.Percentage) = some 0) := by
  refine ⟨exec_mono parse a schedule s c (reachable_inv parse s hr) hc, ?_⟩
  intro uuid started startTime targetURL config hp
  obtain ⟨u, hu⟩ := Option.isSome_iff_exists.mp hp
  simp [StartScan, hu]

theorem progress_never_decreases_witness :
    (∃ c1 : Cell,
        (exec exampleParse twoScans
            [Action.run 1 quietEnv, Action.cancelScan "scan-1", Action.run 0 quietEnv,
              Action.run 1 quietEnv, Action.getStatus "scan-2", Action.run 1 quietEnv]).heap[1]?
          = some c1
        ∧ (10 : ℚ) ≤ c1.scan.Progress.Percentage)
      ∧ (∀ (uuid : String) (started startTime : Time) (targetURL : String) (config : ConfigMap),
          (exampleParse targetURL).isSome = true →
          ((StartScan exampleParse twoScans uuid started startTime targetURL
              config).2.heap[twoScans.heap.length]?).map
              (fun c0 => c0.scan.Progress.Percentage) = some 0) :=
  progress_never_decreases exampleParse twoScans 1 _
    [Action.run 1 quietEnv, Action.cancelScan "scan-1", Action.run 0 quietEnv,
      Action.run 1 quietEnv, Action.getStatus "scan-2", Action.run 1 quietEnv]
    twoScans_reachable rfl

/-- C10, as the code behaves between lines 279 and 284: the goroutine has written the 100%
checkpoint and not yet the status, so the registered instance is "running" at percentage
100, and `GetStatus` reports exactly that. -/
theorem running_at_hundred :
    Reachable exampleParse atFinalize
      ∧ atFinalize.activeScans "scan-1" = some 0
      ∧ (atFinalize.heap[0]?).map (fun c => (c.scan.Status, c.scan.Progress.Percentage, c.pc))
          = some ("running", 100, PC.finalize)
      ∧ (GetStatus atFinalize "scan-1").1.lookup "status" = some (StatusValue.str "running")
      ∧ ((GetStatus atFinalize "scan-1").1.lookup "progress").map
            (fun v => match v with
              | StatusValue.progress p => p.Percentage
              | _ => 0)
          = some 100
      ∧ ¬ ((100 : ℚ) < 100) := by
  refine ⟨⟨true, false, _, rfl⟩, by decide, by rfl, by rfl, by rfl, by norm_num⟩

/-- C10, amended. In every reachable state, an instance whose status is "running" has a
percentage in [0,100], and the percentage is below 100 unless its goroutine stands between
the 100% checkpoint of line 279 and the status write of line 284; `GetStatus` reports the
percentage and status of the registered instance. -/
theorem running_percentage (parse : UrlParse) (s : Service) (a : Nat) (c : Cell)
    (hr : Reachable parse s) (hc : s.heap[a]? = some c) (hrun : c.scan.Status = "running") :
    0 ≤ c.scan.Progress.Percentage
      ∧ c.scan.Progress.Percentage ≤ 100
      ∧ (c.scan.Progress.Percentage < 100
          ∨ c.pc = PC.finalize ∨ c.pc = PC.attach ∨ c.pc = PC.complete)
      ∧ (∀ scanID : String, s.activeScans scanID = some a →
          (GetStatus s scanID).1.lookup "status" = some (StatusValue.str "running")
            ∧ (GetStatus s scanID).1.lookup "progress"
                = some (StatusValue.progress c.scan.Progress)) := by
  have hl := (reachable_inv parse s hr).1 a c hc
  have key : 0 ≤ c.scan.Progress.Percentage ∧ c.scan.Progress.Percentage ≤ 100
      ∧ (c.scan.Progress.Percentage < 100
          ∨ c.pc = PC.finalize ∨ c.pc = PC.attach ∨ c.pc = PC.complete) := by
    cases hpc : c.pc <;> simp only [Cell.LevelOK, hpc] at hl <;>
      first
        | (exact absurd hrun hl.2.2)
        | (exact absurd hrun hl.2)
        | (rcases hl with h | h <;> norm_num [h])
        | (norm_num [hl])
  refine ⟨key.1, key.2.1, key.2.2, ?_⟩
  intro scanID hreg
  simp only [GetStatus, hreg, hc]
  rw [← hrun]
  constructor <;> rfl

theorem running_percentage_witness :
    (twoScans.heap[1]?).map (fun c => c.scan.Status) = some "running"
      ∧ ∃ c : Cell, twoScans.heap[1]? = some c
          ∧ 0 ≤ c.scan.Progress.Percentage
          ∧ c.scan.Progress.Percentage ≤ 100
          ∧ (c.scan.Progress.Percentage < 100
              ∨ c.pc = PC.finalize ∨ c.pc = PC.attach ∨ c.pc = PC.complete) :=
  ⟨by rfl, _, rfl,
    (running_percentage exampleParse twoScans 1 _ twoScans_reachable rfl (by rfl)).1,
    (running_percentage exampleParse twoScans 1 _ twoScans_reachable rfl (by rfl)).2.1,
    (running_percentage exampleParse twoScans 1 _ twoScans_reachable rfl (by rfl)).2.2.1⟩

/-! ### Configuration -/

/-- The field `ScanType` is read from the key "scanType" when it holds a Go string. -/
theorem parseScanConfig_ScanType (config : ConfigMap) :
    (parseScanConfig config).ScanType
      = match config.lookup "scanType" with
        | some (Value.str val) => val
        | _ => "standard" := by
  unfold parseScanConfig
  lift_lets
  extract_lets c0 c1 c2 c3 c4 c5
  have e5 : c5.ScanType = c4.ScanType := by simp only [c5]; split <;> rfl
  have e4 : c4.ScanType = c3.ScanType := by simp only [c4]; split <;> rfl
  have e3 : c3.ScanType = c2.ScanType := by simp only [c3]; split <;> rfl
  have e2 : c2.ScanType = c1.ScanType := by simp only [c2]; split <;> rfl
  have e1 : c1.ScanType = match config.lookup "scanType" with
      | some (Value.str val) => val
      | _ => c0.ScanType := by simp only [c1]; split <;> rfl
  rw [e5, e4, e3, e2, e1]

/-- The field `IncludeSubdomains` is read from the key "includeSubdomains" when it holds a Go bool. -/
theorem parseScanConfig_IncludeSubdomains (config : ConfigMap) :
    (parseScanConfig config).IncludeSubdomains
      = match config.lookup "includeSubdomains" with
        | some (Value.bool val) => val
        | _ => false := by
  unfold parseScanConfig
  lift_lets
  extract_lets c0 c1 c2 c3 c4 c5
  have e5 : c5.IncludeSubdomains = c4.IncludeSubdomains := by simp only [c5]; split <;> rfl
  have e4 : c4.IncludeSubdomains = c3.IncludeSubdomains := by simp only [c4]; split <;> rfl
  have e3 : c3.IncludeSubdomains = c2.IncludeSubdomains := by simp only [c3]; split <;> rfl
  have e2 : c2.IncludeSubdomains = match config.lookup "includeSubdomains" with
      | some (Value.bool val) => val
      | _ => c1.IncludeSubdomains := by simp only [c2]; split <;> rfl
  have e1 : c1.IncludeSubdomains = c0.IncludeSubdomains := by simp only [c1]; split <;> rfl
  rw [e5, e4, e3, e2, e1]

/-- The field `MaxDepth` is read from the key "maxDepth" when it holds a Go float64. -/
theorem parseScanConfig_MaxDepth (config : ConfigMap) :
    (parseScanConfig config).MaxDepth
      = match config.lookup "maxDepth" with
        | some (Value.float val) => toInt64 val
        | _ => 3 := by
  unfold parseScanConfig
  lift_lets
  extract_lets c0 c1 c2 c3 c4 c5
  have e5 : c5.MaxDepth = c4.MaxDepth := by simp only [c5]; split <;> rfl
  have e4 : c4.MaxDepth = c3.MaxDepth := by simp only [c4]; split <;> rfl
  have e3 : c3.MaxDepth = match config.lookup "maxDepth" with
      | some (Value.float val) => toInt64 val
      | _ => c2.MaxDepth := by simp only [c3]; split <;> rfl
  have e2 : c2.MaxDepth = c1.MaxDepth := by simp only [c2]; split <;> rfl
  have e1 : c1.MaxDepth = c0.MaxDepth := by simp only [c1]; split <;> rfl
  rw [e5, e4, e3, e2, e1]

/-- The field `Timeout` is read from the key "timeout" when it holds a Go float64. -/
theorem parseScanConfig_Timeout (config : ConfigMap) :
    (parseScanConfig config).Timeout
      = match config.lookup "timeout" with
        | some (Value.float val) => toInt64 val
        | _ => 30 := by
  unfold parseScanConfig
  lift_lets
  extract_lets c0 c1 c2 c3 c4 c5
  have e5 : c5.Timeout = c4.Timeout := by simp only [c5]; split <;> rfl
  have e4 : c4.Timeout = match config.lookup "timeout" with
      | some (Value.float val) => toInt64 val
      | _ => c3.Timeout := by simp only [c4]; split <;> rfl
  have e3 : c3.Timeout = c2.Timeout := by simp only [c3]; split <;> rfl
  have e2 : c2.Timeout = c1.Timeout := by simp only [c2]; split <;> rfl
  have e1 : c1.Timeout = c0.Timeout := by simp only [c1]; split <;> rfl
  rw [e5, e4, e3, e2, e1]

/-- The field `VulnerabilityScan` is read from the key "vulnerabilityScan" when it holds a Go bool. -/
theorem parseScanConfig_VulnerabilityScan (config : ConfigMap) :
    (parseScanConfig config).VulnerabilityScan
      = match config.lookup "vulnerabilityScan" with
        | some (Value.bool val) => val
        | _ => true := by
  unfold parseScanConfig
  lift_lets
  extract_lets c0 c1 c2 c3 c4 c5
  have e5 : c5.VulnerabilityScan = match config.lookup "vulnerabilityScan" with
      | some (Value.bool val) => val
      | _ => c4.VulnerabilityScan := by simp only [c5]; split <;> rfl
  have e4 : c4.VulnerabilityScan = c3.VulnerabilityScan := by simp only [c4]; split <;> rfl
  have e3 : c3.VulnerabilityScan = c2.VulnerabilityScan := by simp only [c3]; split <;> rfl
  have e2 : c2.VulnerabilityScan = c1.VulnerabilityScan := by simp only [c2]; split <;> rfl
  have e1 : c1.VulnerabilityScan = c0.VulnerabilityScan := by simp only [c1]; split <;> rfl
  rw [e5, e4, e3, e2, e1]

/-- No key of the input reaches the field `TechnicalScan`. -/
theorem parseScanConfig_TechnicalScan (config : ConfigMap) :
    (parseScanConfig config).TechnicalScan
      = true := by
  unfold parseScanConfig
  lift_lets
  extract_lets c0 c1 c2 c3 c4 c5
  have e5 : c5.TechnicalScan = c4.TechnicalScan := by simp only [c5]; split <;> rfl
  have e4 : c4.TechnicalScan = c3.TechnicalScan := by simp only [c4]; split <;> rfl
  have e3 : c3.TechnicalScan = c2.TechnicalScan := by simp only [c3]; split <;> rfl
  have e2 : c2.TechnicalScan = c1.TechnicalScan := by simp only [c2]; split <;> rfl
  have e1 : c1.TechnicalScan = c0.TechnicalScan := by simp only [c1]; split <;> rfl
  rw [e5, e4, e3, e2, e1]

/-- No key of the input reaches the field `ComplianceScan`. -/
theorem parseScanConfig_ComplianceScan (config : ConfigMap) :
    (parseScanConfig config).ComplianceScan
      = false := by
  unfold parseScanConfig
  lift_lets
  extract_lets c0 c1 c2 c3 c4 c5
  have e5 : c5.ComplianceScan = c4.ComplianceScan := by simp only [c5]; split <;> rfl
  have e4 : c4.ComplianceScan = c3.ComplianceScan := by simp only [c4]; split <;> rfl
  have e3 : c3.ComplianceScan = c2.ComplianceScan := by simp only [c3]; split <;> rfl
  have e2 : c2.ComplianceScan = c1.ComplianceScan := by simp only [c2]; split <;> rfl
  have e1 : c1.ComplianceScan = c0.ComplianceScan := by simp only [c1]; split <;> rfl
  rw [e5, e4, e3, e2, e1]

/-- No key of the input reaches the field `PerformanceScan`. -/
theorem parseScanConfig_PerformanceScan (config : ConfigMap) :
    (parseScanConfig config).PerformanceScan
      = false := by
  unfold parseScanConfig
  lift_lets
  extract_lets c0 c1 c2 c3 c4 c5
  have e5 : c5.PerformanceScan = c4.PerformanceScan := by simp only [c5]; split <;> rfl
  have e4 : c4.PerformanceScan = c3.PerformanceScan := by simp only [c4]; split <;> rfl
  have e3 : c3.PerformanceScan = c2.PerformanceScan := by simp only [c3]; split <;> rfl
  have e2 : c2.PerformanceScan = c1.PerformanceScan := by simp only [c2]; split <;> rfl
  have e1 : c1.PerformanceScan = c0.PerformanceScan := by simp only [c1]; split <;> rfl
  rw [e5, e4, e3, e2, e1]

theorem truncate_intCast (n : Int) : truncate (n : ℚ) = n := by
  unfold truncate
  split_ifs <;> simp

/-- Inside the range of int64 the conversion of a whole number returns it. -/
theorem toInt64_intCast (n : Int) (h0 : -9223372036854775808 ≤ n)
    (h1 : n ≤ 9223372036854775807) : toInt64 (n : ℚ) = n := by
  unfold toInt64
  rw [truncate_intCast, if_pos ⟨h0, h1⟩]

/-- C14. `calculateTotalTasks` returns 5, plus 3 when vulnerability scanning is enabled,
plus 2 when compliance scanning is enabled, plus 2 when performance scanning is enabled;
the mandatory stages alone give 5, and with vulnerability scanning 8. -/
theorem calculateTotalTasks_formula :
    (∀ config : ScanConfig,
      calculateTotalTasks config
        = 5 + (if config.VulnerabilityScan then 3 else 0)
            + (if config.ComplianceScan then 2 else 0)
            + (if config.PerformanceScan then 2 else 0))
      ∧ calculateTotalTasks { ScanConfig.zero with TechnicalScan := true } = 5
      ∧ calculateTotalTasks
          { ScanConfig.zero with TechnicalScan := true, VulnerabilityScan := true } = 8
      ∧ calculateTotalTasks (parseScanConfig []) = 8 := by
  refine ⟨?_, by decide, by decide, by decide⟩
  intro config
  cases hv : config.VulnerabilityScan <;> cases hc : config.ComplianceScan <;>
    cases hp : config.PerformanceScan <;> simp [calculateTotalTasks, hv, hc, hp]

/-- C15. `parseScanConfig` is a total function; two inputs that agree on the recognized keys
parse to the same configuration; and a key that is absent or holds a value that is not of
the type the code asserts (string for scanType, bool for includeSubdomains and
vulnerabilityScan, float64 for maxDepth and timeout) yields the default: "standard", false,
3, 30, and true for vulnerabilityScan; technicalScan, complianceScan and performanceScan have
their defaults true, false, false. -/
theorem parseScanConfig_defaults (config1 config2 : ConfigMap)
    (hagree : ∀ k ∈ recognizedKeys, config1.lookup k = config2.lookup k) :
    parseScanConfig config1 = parseScanConfig config2
      ∧ ((∀ v : String, config1.lookup "scanType" ≠ some (Value.str v)) →
          (parseScanConfig config1).ScanType = "standard")
      ∧ ((∀ v : Bool, config1.lookup "includeSubdomains" ≠ some (Value.bool v)) →
          (parseScanConfig config1).IncludeSubdomains = false)
      ∧ ((∀ v : ℚ, config1.lookup "maxDepth" ≠ some (Value.float v)) →
          (parseScanConfig config1).MaxDepth = 3)
      ∧ ((∀ v : ℚ, config1.lookup "timeout" ≠ some (Value.float v)) →
          (parseScanConfig config1).Timeout = 30)
      ∧ ((∀ v : Bool, config1.lookup "vulnerabilityScan" ≠ some (Value.bool v)) →
          (parseScanConfig config1).VulnerabilityScan = true)
      ∧ (parseScanConfig config1).TechnicalScan = true
      ∧ (parseScanConfig config1).ComplianceScan = false
      ∧ (parseScanConfig config1).PerformanceScan = false := by
  have h1 := hagree "scanType" (by simp [recognizedKeys])
  have h2 := hagree "includeSubdomains" (by simp [recognizedKeys])
  have h3 := hagree "maxDepth" (by simp [recognizedKeys])
  have h4 := hagree "timeout" (by simp [recognizedKeys])
  have h5 := hagree "vulnerabilityScan" (by simp [recognizedKeys])
  refine ⟨by simp only [parseScanConfig, h1, h2, h3, h4, h5], ?_, ?_, ?_, ?_, ?_,
    parseScanConfig_TechnicalScan config1, parseScanConfig_ComplianceScan config1,
    parseScanConfig_PerformanceScan config1⟩
  · intro h
    rw [parseScanConfig_ScanType]
    split
    · exact absurd (by assumption) (h _)
    · rfl
  · intro h
    rw [parseScanConfig_IncludeSubdomains]
    split
    · exact absurd (by assumption) (h _)
    · rfl
  · intro h
    rw [parseScanConfig_MaxDepth]
    split
    · exact absurd (by assumption) (h _)
    · rfl
  · intro h
    rw [parseScanConfig_Timeout]
    split
    · exact absurd (by assumption) (h _)
    · rfl
  · intro h
    rw [parseScanConfig_VulnerabilityScan]
    split
    · exact absurd (by assumption) (h _)
    · rfl

theorem parseScanConfig_defaults_witness :
    (∀ k ∈ recognizedKeys,
        List.lookup k [("colour", Value.str "red"), ("timeout", Value.str "soon"),
            ("scanType", Value.str "quick")]
          = List.lookup k [("scanType", Value.str "quick"), ("timeout", Value.str "soon"),
            ("depth", Value.int 4)])
      ∧ parseScanConfig [("colour", Value.str "red"), ("timeout", Value.str "soon"),
            ("scanType", Value.str "quick")]
          = parseScanConfig [("scanType", Value.str "quick"), ("timeout", Value.str "soon"),
            ("depth", Value.int 4)]
      ∧ (parseScanConfig [("colour", Value.str "red"), ("timeout", Value.str "soon"),
            ("scanType", Value.str "quick")]).Timeout = 30 :=
  have hk : ∀ k ∈ recognizedKeys,
      List.lookup k [("colour", Value.str "red"), ("timeout", Value.str "soon"),
          ("scanType", Value.str "quick")]
        = List.lookup k [("scanType", Value.str "quick"), ("timeout", Value.str "soon"),
          ("depth", Value.int 4)] := by
    intro k hk
    simp only [recognizedKeys, List.mem_cons, List.mem_singleton, List.not_mem_nil,
      or_false] at hk
    rcases hk with h | h | h | h | h | h | h | h <;> subst h <;> rfl
  have h := parseScanConfig_defaults _ _ hk
  ⟨hk, h.1, h.2.2.2.2.1 (by intro v hv; simp [List.lookup] at hv)⟩

/-- C16, evaluated on the code: the toggles technicalScan, complianceScan and
performanceScan of the input never reach the configuration. An input that disables the
first and enables the other two parses to the defaults true, false, false, and the scan
started with it counts 8 tasks, not 12; this holds for every input. -/
theorem parseScanConfig_ignores_toggles :
    (parseScanConfig [("technicalScan", Value.bool false), ("complianceScan", Value.bool true),
        ("performanceScan", Value.bool true)]).TechnicalScan = true
      ∧ (parseScanConfig [("technicalScan", Value.bool false), ("complianceScan", Value.bool true),
        ("performanceScan", Value.bool true)]).ComplianceScan = false
      ∧ (parseScanConfig [("technicalScan", Value.bool false), ("complianceScan", Value.bool true),
        ("performanceScan", Value.bool true)]).PerformanceScan = false
      ∧ calculateTotalTasks
          (parseScanConfig [("technicalScan", Value.bool false),
            ("complianceScan", Value.bool true), ("performanceScan", Value.bool true)]) = 8
      ∧ ((StartScan exampleParse (NewService true) "scan-1" 1000 1001 "https://example.org"
            [("technicalScan", Value.bool false), ("complianceScan", Value.bool true),
              ("performanceScan", Value.bool true)]).2.heap[0]?).map
          (fun c => c.scan.Progress.TotalTasks) = some 8
      ∧ (∀ config : ConfigMap,
          (parseScanConfig config).TechnicalScan = true
            ∧ (parseScanConfig config).ComplianceScan = false
            ∧ (parseScanConfig config).PerformanceScan = false) := by
  refine ⟨by decide, by decide, by decide, by decide, by rfl, fun config =>
    ⟨parseScanConfig_TechnicalScan config, parseScanConfig_ComplianceScan config,
      parseScanConfig_PerformanceScan config⟩⟩

/-- C17, evaluated on the code: the input of the integration test holds timeout as the Go
`int` 60, which the assertion to float64 of line 502 rejects, so the timeout stays 30; the
same happens to maxDepth and to every `int`; a float64 that holds a whole number `n` between
-2^53 and 2^53 (the whole numbers that every float64 in that range holds exactly) is stored
as `n`, as is the 60 of a JSON-decoded input. -/
theorem parseScanConfig_int_ignored :
    (parseScanConfig testScanConfig).Timeout = 30
      ∧ (parseScanConfig [("timeout", Value.int 60)]).Timeout = 30
      ∧ (parseScanConfig [("maxDepth", Value.int 5)]).MaxDepth = 3
      ∧ (∀ (config : ConfigMap) (n : Int),
          config.lookup "timeout" = some (Value.int n) → (parseScanConfig config).Timeout = 30)
      ∧ (∀ (config : ConfigMap) (n : Int),
          config.lookup "maxDepth" = some (Value.int n) → (parseScanConfig config).MaxDepth = 3)
      ∧ (∀ (config : ConfigMap) (n : Int),
          -9007199254740992 ≤ n → n ≤ 9007199254740992 →
          config.lookup "timeout" = some (Value.float n) → (parseScanConfig config).Timeout = n)
      ∧ (∀ (config : ConfigMap) (n : Int),
          -9007199254740992 ≤ n → n ≤ 9007199254740992 →
          config.lookup "maxDepth" = some (Value.float n) →
            (parseScanConfig config).MaxDepth = n)
      ∧ (parseScanConfig [("timeout", Value.float 60)]).Timeout = 60 := by
  refine ⟨by decide, by decide, by decide, ?_, ?_, ?_, ?_, ?_⟩
  · intro config n h
    rw [parseScanConfig_Timeout, h]
  · intro config n h
    rw [parseScanConfig_MaxDepth, h]
  · intro config n h0 h1 h
    rw [parseScanConfig_Timeout, h]
    exact toInt64_intCast n (by omega) (by omega)
  · intro config n h0 h1 h
    rw [parseScanConfig_MaxDepth, h]
    exact toInt64_intCast n (by omega) (by omega)
  · have h : (parseScanConfig [("timeout", Value.float 60)]).Timeout = toInt64 (60 : ℚ) := by
      rw [parseScanConfig_Timeout]; rfl
    have h60 : (60 : ℚ) = ((60 : Int) : ℚ) := by norm_num
    rw [h, h60]
    exact toInt64_intCast 60 (by norm_num) (by norm_num)

/-! ### What the stages write -/

theorem performReconnaissance_frame (r : ScanResult) (response : Option HttpResponse) :
    ∃ (code time : Int) (headers : HeaderMap),
      performReconnaissance r response
        = { r with StatusCode := code, ResponseTime := time, Headers := headers } := by
  cases response with
  | none => exact ⟨r.StatusCode, r.ResponseTime, r.Headers, rfl⟩
  | some resp => exact ⟨_, _, _, rfl⟩

theorem analyzeSSL_frame (parse : UrlParse) (r r1 : ScanResult) (now : Time)
    (h : analyzeSSL parse r now = some r1) : ∃ ssl : SSLInfo, r1 = { r with SSLInfo := ssl } := by
  unfold analyzeSSL at h
  split at h
  · cases h
  · split_ifs at h
    · cases h; exact ⟨r.SSLInfo, rfl⟩
    · cases h; exact ⟨_, rfl⟩

@[simp] theorem performReconnaissance_Status (r : ScanResult) (response : Option HttpResponse) :
    (performReconnaissance r response).Status = r.Status := by
  cases response <;> rfl

@[simp] theorem detectTechnologies_Status (r : ScanResult) :
    (detectTechnologies r).Status = r.Status := rfl

@[simp] theorem scanVulnerabilities_Status (r : ScanResult) (now : Time) :
    (scanVulnerabilities r now).Status = r.Status := rfl

@[simp] theorem calculateSecurityScore_Status (r : ScanResult) :
    (calculateSecurityScore r).Status = r.Status := rfl

theorem analyzeSSL_Status (parse : UrlParse) (r r1 : ScanResult) (now : Time)
    (h : analyzeSSL parse r now = some r1) : r1.Status = r.Status := by
  obtain ⟨ssl, rfl⟩ := analyzeSSL_frame parse r r1 now h
  rfl

/-! ### Invariants of every cell of a reachable service -/

/-- An action keeps the heap's length or appends the cell of a new scan. -/
theorem step_heap_shape (parse : UrlParse) (s : Service) (act : Action) :
    (step parse s act).heap.length = s.heap.length
      ∨ ∃ c0 : Cell, c0.Fresh ∧ (step parse s act).heap = s.heap ++ [c0] := by
  cases hcr : s.crashed with
  | true => rw [step_of_crashed parse s act hcr]; exact Or.inl rfl
  | false =>
    cases act with
    | startScan uuid started startTime targetURL config =>
      rw [step_startScan parse s uuid started startTime targetURL config hcr]
      simp only [StartScan]
      cases parse targetURL with
      | none => exact Or.inl rfl
      | some u => exact Or.inr ⟨_, ⟨rfl, rfl, rfl, rfl, rfl, rfl, rfl, rfl⟩, rfl⟩
    | getStatus scanID => rw [step_getStatus]; exact Or.inl rfl
    | cancelScan scanID =>
      rw [step_cancelScan parse s scanID hcr]
      cases hreg : s.activeScans scanID with
      | none => left; simp only [CancelScan, hreg]
      | some addr =>
        cases hcell : s.heap[addr]? with
        | none => left; simp only [CancelScan, hreg, hcell]
        | some cell =>
          left
          simp only [CancelScan, hreg, hcell, Service.setCell]
          exact List.length_set _ _ _
    | run addr env =>
      cases hcell : s.heap[addr]? with
      | none => rw [step_run_none parse s addr env hcell]; exact Or.inl rfl
      | some cell =>
        rw [step_run_some parse s addr env cell hcr hcell,
          executeScan_heap parse s addr cell env hcell]
        exact Or.inl (List.length_set _ _ _)

/-- Where a cell of the heap comes from: it was there before the action (unchanged,
cancelled, or advanced by one statement of its goroutine), or it is a new scan. -/
theorem step_cell_origin (parse : UrlParse) (s : Service) (act : Action) (a : Nat) (c1 : Cell)
    (h : (step parse s act).heap[a]? = some c1) :
    (∃ c : Cell, s.heap[a]? = some c
        ∧ (c1 = c ∨ c1 = c.cancel
            ∨ ∃ env : Env, act = Action.run a env ∧ s.crashed = false
                ∧ c1 = cellAfter parse s c env))
      ∨ (s.heap[a]? = none ∧ c1.Fresh) := by
  cases hc : s.heap[a]? with
  | some c =>
    obtain ⟨c2, h2, hrel⟩ := step_cell parse s act a c hc
    rw [h] at h2
    cases h2
    exact Or.inl ⟨c, rfl, hrel⟩
  | none =>
    right
    refine ⟨rfl, ?_⟩
    have hge : s.heap.length ≤ a := List.getElem?_eq_none_iff.mp hc
    rcases step_heap_shape parse s act with hlen | ⟨c0, hfresh, happ⟩
    · have : (step parse s act).heap[a]? = none :=
        List.getElem?_eq_none_iff.mpr (by omega)
      rw [this] at h
      cases h
    · rw [happ, List.getElem?_append_right hge] at h
      rcases Nat.eq_zero_or_pos (a - s.heap.length) with h0 | h0
      · rw [h0] at h
        simp only [List.getElem?_cons_zero, Option.some.injEq] at h
        rw [← h]
        exact hfresh
      · obtain ⟨k, hk⟩ := Nat.exists_eq_succ_of_ne_zero (Nat.pos_iff_ne_zero.mp h0)
        rw [hk] at h
        simp at h

/-- A property of cells that new scans have and that `CancelScan` and every statement of the
pipeline preserve holds of every cell after an action. -/
theorem step_cells (parse : UrlParse) (P : Cell → Prop)
    (hfresh : ∀ c : Cell, c.Fresh → P c)
    (hcancel : ∀ c : Cell, P c → P c.cancel)
    (hafter : ∀ (s : Service) (c : Cell) (env : Env), P c → P (cellAfter parse s c env))
    (s : Service) (act : Action)
    (hs : ∀ (a : Nat) (c : Cell), s.heap[a]? = some c → P c) :
    ∀ (a : Nat) (c : Cell), (step parse s act).heap[a]? = some c → P c := by
  intro a c1 h
  rcases step_cell_origin parse s act a c1 h with ⟨c, hc, hrel⟩ | ⟨-, hf⟩
  · rcases hrel with h1 | h1 | ⟨env, -, -, h1⟩
    · rw [h1]; exact hs a c hc
    · rw [h1]; exact hcancel c (hs a c hc)
    · rw [h1]; exact hafter s c env (hs a c hc)
  · exact hfresh c1 hf

/-- Such a property holds of every cell of every reachable service. -/
theorem reachable_cells (parse : UrlParse) (P : Cell → Prop)
    (hfresh : ∀ c : Cell, c.Fresh → P c)
    (hcancel : ∀ c : Cell, P c → P c.cancel)
    (hafter : ∀ (s : Service) (c : Cell) (env : Env), P c → P (cellAfter parse s c env))
    (s : Service) (hr : Reachable parse s) :
    ∀ (a : Nat) (c : Cell), s.heap[a]? = some c → P c := by
  obtain ⟨hs, de, schedule, rfl⟩ := hr
  have key : ∀ (schedule : List Action) (s0 : Service),
      (∀ (a : Nat) (c : Cell), s0.heap[a]? = some c → P c) →
      ∀ (a : Nat) (c : Cell), (exec parse s0 schedule).heap[a]? = some c → P c := by
    intro schedule
    induction schedule with
    | nil => intro s0 h0; exact h0
    | cons act rest ih =>
      intro s0 h0
      exact ih (step parse s0 act) (step_cells parse P hfresh hcancel hafter s0 act h0)
  apply key
  intro a c h
  simp [Service.create] at h

theorem cellAfter_pathOK (parse : UrlParse) (s : Service) (cell : Cell) (env : Env)
    (h : cell.PathOK) : (cellAfter parse s cell env).PathOK := by
  by_cases hssl : cell.pc = PC.ssl
  · simp only [Cell.PathOK, hssl] at h
    cases hres : analyzeSSL parse cell.result env.now with
    | none =>
      simp only [cellAfter, executeScan, hssl, hres, retire, Service.setCell]
      simpa [Cell.PathOK] using h
    | some r1 =>
      have hst := analyzeSSL_Status parse _ _ _ hres
      simp only [cellAfter, executeScan, hssl, hres, stage, Service.setCell]
      simpa [Cell.PathOK, hst] using h
  · cases hpc : cell.pc <;>
      simp only [Cell.PathOK, hpc] at h <;>
      simp only [cellAfter, executeScan, hpc, stage, checkpoint, checkCancelled, retire,
        Service.setCell] <;>
      (try split) <;>
      simp_all [Cell.PathOK, Cell.EarlyStatus, Cell.LateStatus, Cell.CompletedPath,
        Cell.CancelledPath]

theorem cancel_pathOK (c : Cell) (h : c.PathOK) : c.cancel.PathOK := by
  cases hpc : c.pc <;>
    simp only [Cell.PathOK, hpc] at h <;>
    simp only [Cell.PathOK, Cell.cancel, hpc, Cell.EarlyStatus, Cell.LateStatus,
      Cell.CompletedPath, Cell.CancelledPath] at h ⊢ <;>
    first
      | (simp_all; done)
      | (rcases h with h | h <;> simp_all)

theorem fresh_pathOK (c : Cell) (h : c.Fresh) : c.PathOK := by
  obtain ⟨h1, h2, h3, h4, -, -⟩ := h
  simp [Cell.PathOK, h1, h2, h3, h4, Cell.EarlyStatus]

theorem reachable_pathOK (parse : UrlParse) (s : Service) (hr : Reachable parse s) :
    ∀ (a : Nat) (c : Cell), s.heap[a]? = some c → c.PathOK :=
  reachable_cells parse Cell.PathOK fresh_pathOK cancel_pathOK
    (fun s c env h => cellAfter_pathOK parse s c env h) s hr

/-! ### Accounting of the calls on the storage port -/

theorem filter_length_set {α : Type} (p : α → Bool) :
    ∀ (l : List α) (i : Nat) (x y : α), l[i]? = some x →
      ((l.set i y).filter p).length + (if p x then 1 else 0)
        = (l.filter p).length + (if p y then 1 else 0)
  | [], _, _, _, h => by simp at h
  | z :: l, 0, x, y, h => by
    simp only [List.getElem?_cons_zero, Option.some.injEq] at h
    subst h
    simp only [List.set_cons_zero, List.filter_cons]
    cases p z <;> cases p y <;> simp
  | z :: l, i + 1, x, y, h => by
    simp only [List.getElem?_cons_succ] at h
    have ih := filter_length_set p l i x y h
    simp only [List.set_cons_succ, List.filter_cons]
    cases p z <;> simp <;> omega

theorem filter_length_unique {α : Type} (p : α → Bool) :
    ∀ (l : List α) (i : Nat) (x : α), l[i]? = some x →
      (∀ (j : Nat) (y : α), l[j]? = some y → p y = true → j = i) →
      (l.filter p).length = if p x then 1 else 0
  | [], _, _, h, _ => by simp at h
  | z :: l, 0, x, h, hu => by
    simp only [List.getElem?_cons_zero, Option.some.injEq] at h
    subst h
    have hnone : l.filter p = [] := by
      rw [List.filter_eq_nil_iff]
      intro y hy hp
      obtain ⟨j, hj, hjy⟩ := List.getElem_of_mem hy
      have := hu (j + 1) y (by simp [List.getElem?_eq_getElem hj, hjy]) hp
      omega
    simp only [List.filter_cons, hnone]
    cases p z <;> simp
  | z :: l, i + 1, x, h, hu => by
    simp only [List.getElem?_cons_succ] at h
    have hz : p z = false := by
      cases hp : p z with
      | false => rfl
      | true =>
        have := hu 0 z (by simp) hp
        omega
    have ih := filter_length_unique p l i x h (by
      intro j y hj hp
      have := hu (j + 1) y (by simpa using hj) hp
      omega)
    simp only [List.filter_cons, hz]
    simpa using ih

theorem savedCells_set (scanID : String) (heap : List Cell) (a : Nat) (c c1 : Cell)
    (h : heap[a]? = some c) (hid : c1.scan.ID = c.scan.ID) (hs : c1.saved = c.saved) :
    savedCells scanID (heap.set a c1) = savedCells scanID heap := by
  have := filter_length_set (fun c => decide (c.scan.ID = scanID) && c.saved) heap a c c1 h
  simp only [hid, hs] at this
  unfold savedCells
  omega

theorem savedCells_set_saved (scanID : String) (heap : List Cell) (a : Nat) (c c1 : Cell)
    (h : heap[a]? = some c) (hid : c1.scan.ID = c.scan.ID) (hs : c.saved = false)
    (hs1 : c1.saved = true) :
    savedCells scanID (heap.set a c1)
      = savedCells scanID heap + (if c.scan.ID = scanID then 1 else 0) := by
  have := filter_length_set (fun c => decide (c.scan.ID = scanID) && c.saved) heap a c c1 h
  simp only [hid, hs, hs1] at this
  unfold savedCells
  by_cases hd : c.scan.ID = scanID <;> simp [hd] at this ⊢ <;> omega

theorem savedCells_append (scanID : String) (heap : List Cell) (c0 : Cell)
    (h : c0.saved = false) : savedCells scanID (heap ++ [c0]) = savedCells scanID heap := by
  simp [savedCells, List.filter_append, List.filter_cons, h]

theorem fresh_not_saved (c : Cell) (h : c.Fresh) : c.saved = false := by
  simp [Cell.saved, h.1]

theorem cancel_saved (c : Cell) : c.cancel.saved = c.saved := rfl

/-- Only the save statement changes whether a run counts as saved. -/
theorem cellAfter_saved (parse : UrlParse) (s : Service) (cell : Cell) (env : Env)
    (h : cell.PathOK) :
    (cellAfter parse s cell env).saved = (cell.saved || decide (cell.pc = PC.save)) := by
  by_cases hssl : cell.pc = PC.ssl
  · simp only [Cell.PathOK, hssl] at h
    cases hres : analyzeSSL parse cell.result env.now with
    | none =>
      simp [cellAfter, executeScan, hssl, hres, retire, Service.setCell, Cell.saved]
    | some r1 =>
      simp [cellAfter, executeScan, hssl, hres, stage, Service.setCell, Cell.saved]
  · cases hpc : cell.pc <;>
      simp only [Cell.PathOK, hpc] at h <;>
      simp only [cellAfter, executeScan, hpc, stage, checkpoint, checkCancelled, retire,
        Service.setCell] <;>
      (try split) <;>
      simp_all [Cell.saved, Cell.CompletedPath, Cell.CancelledPath]

theorem savesFor_append (scanID : String) (log : List StorageCall) (call : StorageCall) :
    savesFor scanID (log ++ [call])
      = savesFor scanID log + (if StorageCall.isSaveFor scanID call then 1 else 0) := by
  simp only [savesFor, List.filter_append, List.length_append, List.filter_cons, List.filter_nil]
  cases StorageCall.isSaveFor scanID call <;> simp

theorem updateProgress_savesFor (s : Service) (scan : ScanInstance) (p : ℚ) (st : String)
    (env : Env) (scanID : String) :
    savesFor scanID (updateProgress s scan p st env).2.storageLog
      = savesFor scanID s.storageLog := by
  simp only [updateProgress]
  split_ifs <;> simp [savesFor_append, StorageCall.isSaveFor]

theorem updateProgress_eventLog_of_disabled (s : Service) (scan : ScanInstance) (p : ℚ)
    (st : String) (env : Env) (h : s.disableEvents = true) :
    (updateProgress s scan p st env).2.eventLog = s.eventLog := by
  simp only [updateProgress]
  split_ifs <;> simp_all

/-- The save statement, and no other statement of the pipeline, adds a `SaveScanResult`
call to the log; it does so when there is a storage port. -/
theorem executeScan_savesFor (parse : UrlParse) (s : Service) (addr : Nat) (cell : Cell)
    (env : Env) (scanID : String) :
    savesFor scanID (executeScan parse s addr cell env).storageLog
      = savesFor scanID s.storageLog
          + (if s.hasStorage = true ∧ cell.pc = PC.save ∧ cell.scan.ID = scanID then 1
              else 0) := by
  cases hpc : cell.pc <;>
    simp only [executeScan, hpc, stage, checkpoint, checkCancelled, retire,
      Service.setCell] <;>
    (try split) <;>
    (try split) <;>
    simp_all [updateProgress_savesFor, savesFor_append, StorageCall.isSaveFor]

theorem executeScan_hasStorage (parse : UrlParse) (s : Service) (addr : Nat) (cell : Cell)
    (env : Env) : (executeScan parse s addr cell env).hasStorage = s.hasStorage := by
  cases hpc : cell.pc <;>
    simp only [executeScan, hpc, stage, checkpoint, checkCancelled, retire,
      Service.setCell] <;>
    (try split) <;>
    simp_all

theorem StartScan_flags (parse : UrlParse) (s : Service) (uuid : String)
    (started startTime : Time) (targetURL : String) (config : ConfigMap) :
    (StartScan parse s uuid started startTime targetURL config).2.hasStorage = s.hasStorage
      ∧ (StartScan parse s uuid started startTime targetURL config).2.disableEvents
          = s.disableEvents
      ∧ (StartScan parse s uuid started startTime targetURL config).2.storageLog = s.storageLog
      ∧ (StartScan parse s uuid started startTime targetURL config).2.eventLog = s.eventLog
      ∧ (StartScan parse s uuid started startTime targetURL config).2.crashed = s.crashed := by
  unfold StartScan
  cases parse targetURL <;> simp

theorem CancelScan_flags (s : Service) (scanID : String) :
    (CancelScan s scanID).2.hasStorage = s.hasStorage
      ∧ (CancelScan s scanID).2.disableEvents = s.disableEvents
      ∧ (CancelScan s scanID).2.storageLog = s.storageLog
      ∧ (CancelScan s scanID).2.eventLog = s.eventLog
      ∧ (CancelScan s scanID).2.crashed = s.crashed
      ∧ (CancelScan s scanID).2.activeScans = s.activeScans := by
  cases hreg : s.activeScans scanID with
  | none => simp [CancelScan, hreg]
  | some addr => cases hcell : s.heap[addr]? <;> simp [CancelScan, hreg, hcell, Service.setCell]

theorem step_hasStorage (parse : UrlParse) (s : Service) (act : Action) :
    (step parse s act).hasStorage = s.hasStorage := by
  cases hcr : s.crashed with
  | true => rw [step_of_crashed parse s act hcr]
  | false =>
    cases act with
    | startScan uuid started startTime targetURL config =>
      rw [step_startScan parse s uuid started startTime targetURL config hcr]
      exact (StartScan_flags parse s uuid started startTime targetURL config).1
    | getStatus scanID => rw [step_getStatus]
    | cancelScan scanID =>
      rw [step_cancelScan parse s scanID hcr]
      exact (CancelScan_flags s scanID).1
    | run addr env =>
      cases hcell : s.heap[addr]? with
      | none => rw [step_run_none parse s addr env hcell]
      | some cell =>
        rw [step_run_some parse s addr env cell hcr hcell]
        exact executeScan_hasStorage parse s addr cell env

theorem exec_hasStorage (parse : UrlParse) (schedule : List Action) :
    ∀ s : Service, (exec parse s schedule).hasStorage = s.hasStorage := by
  induction schedule with
  | nil => intro s; rfl
  | cons act rest ih =>
    intro s
    rw [exec_cons, ih, step_hasStorage]

theorem create_saveInv (hasStorage disableEvents : Bool) :
    (Service.create hasStorage disableEvents).SaveInv := by
  intro scanID
  simp [Service.create, savesFor, savedCells]

theorem step_saveInv (parse : UrlParse) (s : Service) (act : Action)
    (hp : ∀ (a : Nat) (c : Cell), s.heap[a]? = some c → c.PathOK) (h : s.SaveInv) :
    (step parse s act).SaveInv := by
  cases hcr : s.crashed with
  | true => rw [step_of_crashed parse s act hcr]; exact h
  | false =>
    cases act with
    | startScan uuid started startTime targetURL config =>
      rw [step_startScan parse s uuid started startTime targetURL config hcr]
      intro scanID
      have hf := StartScan_flags parse s uuid started startTime targetURL config
      rw [hf.1, hf.2.2.1, h scanID]
      rcases step_heap_shape parse s
          (Action.startScan uuid started startTime targetURL config) with hl | ⟨c0, hc0, happ⟩
      · rw [step_startScan parse s uuid started startTime targetURL config hcr] at hl
        have : (StartScan parse s uuid started startTime targetURL config).2.heap = s.heap := by
          unfold StartScan at hl ⊢
          cases hparse : parse targetURL with
          | none => rfl
          | some u => simp [hparse] at hl
        rw [this]
      · rw [step_startScan parse s uuid started startTime targetURL config hcr] at happ
        rw [happ, savedCells_append scanID s.heap c0 (fresh_not_saved c0 hc0)]
    | getStatus scanID => rw [step_getStatus]; exact h
    | cancelScan scanID =>
      rw [step_cancelScan parse s scanID hcr]
      intro id
      have hf := CancelScan_flags s scanID
      rw [hf.1, hf.2.2.1, h id]
      cases hreg : s.activeScans scanID with
      | none => simp only [CancelScan, hreg]
      | some addr =>
        cases hcell : s.heap[addr]? with
        | none => simp only [CancelScan, hreg, hcell]
        | some cell =>
          simp only [CancelScan, hreg, hcell, Service.setCell]
          have e := savedCells_set id s.heap addr cell cell.cancel hcell rfl rfl
          simp only [Cell.cancel] at e
          rw [e]
    | run addr env =>
      cases hcell : s.heap[addr]? with
      | none => rw [step_run_none parse s addr env hcell]; exact h
      | some cell =>
        rw [step_run_some parse s addr env cell hcr hcell]
        intro id
        rw [executeScan_savesFor, executeScan_hasStorage,
          executeScan_heap parse s addr cell env hcell, h id]
        have hsv := cellAfter_saved parse s cell env (hp addr cell hcell)
        have hid := cellAfter_ID parse s cell env
        by_cases hsave : cell.pc = PC.save
        · have h0 : cell.saved = false := by simp [Cell.saved, hsave]
          have h1 : (cellAfter parse s cell env).saved = true := by
            rw [hsv]; simp [hsave]
          rw [savedCells_set_saved id s.heap addr cell _ hcell hid h0 h1]
          cases s.hasStorage <;> simp [hsave]
        · have h1 : (cellAfter parse s cell env).saved = cell.saved := by
            rw [hsv]; simp [hsave]
          rw [savedCells_set id s.heap addr cell _ hcell hid h1]
          simp [hsave]

/-- The accounting holds in every reachable state. -/
theorem reachable_saveInv (parse : UrlParse) (s : Service) (hr : Reachable parse s) :
    s.SaveInv := by
  obtain ⟨hs, de, schedule, rfl⟩ := hr
  have key : ∀ (schedule : List Action) (s0 : Service), Reachable parse s0 → s0.SaveInv →
      (exec parse s0 schedule).SaveInv := by
    intro schedule
    induction schedule with
    | nil => intro s0 _ h0; exact h0
    | cons act rest ih =>
      intro s0 hr0 h0
      refine ih (step parse s0 act) ?_ (step_saveInv parse s0 act (reachable_pathOK parse s0 hr0) h0)
      obtain ⟨hs0, de0, sch0, rfl⟩ := hr0
      exact ⟨hs0, de0, sch0 ++ [act], by rw [exec_append]; rfl⟩
  exact key schedule _ ⟨hs, de, [], rfl⟩ (create_saveInv hs de)

/-! ### The registry only points to running goroutines -/

theorem executeScan_retires (parse : UrlParse) (s : Service) (addr : Nat) (cell : Cell)
    (env : Env) (h1 : cell.pc ≠ PC.done) (h2 : cell.pc ≠ PC.panicked)
    (h : (cellAfter parse s cell env).pc = PC.done
      ∨ (cellAfter parse s cell env).pc = PC.panicked) :
    (executeScan parse s addr cell env).activeScans
      = registryDelete s.activeScans cell.scan.ID := by
  revert h
  cases hpc : cell.pc <;>
    simp only [cellAfter, executeScan, hpc, stage, checkpoint, checkCancelled, retire,
      Service.setCell] <;>
    (try split) <;> simp_all

theorem create_regOK (hasStorage disableEvents : Bool) :
    (Service.create hasStorage disableEvents).RegOK := by
  intro id a h
  simp [Service.create] at h

theorem regOK_of_set (s s1 : Service) (addr : Nat) (cell c1 : Cell) (h : s.RegOK)
    (hc : s.heap[addr]? = some cell) (hid : c1.scan.ID = cell.scan.ID)
    (hheap : s1.heap = s.heap.set addr c1)
    (hreg : ∀ (id : String) (a : Nat), s1.activeScans id = some a →
      s.activeScans id = some a ∧ (a = addr → c1.pc ≠ PC.done ∧ c1.pc ≠ PC.panicked)) :
    s1.RegOK := by
  have hlt : addr < s.heap.length := (List.getElem?_eq_some.mp hc).1
  intro id a ha
  obtain ⟨hold, hpc⟩ := hreg id a ha
  obtain ⟨c, hca, hcid, hd, hp⟩ := h id a hold
  rw [hheap, List.getElem?_set]
  split_ifs with h1
  · subst h1
    rw [hc] at hca
    cases hca
    exact ⟨c1, rfl, by rw [hid, hcid], (hpc rfl).1, (hpc rfl).2⟩
  · exact ⟨c, hca, hcid, hd, hp⟩

theorem step_regOK (parse : UrlParse) (s : Service) (act : Action) (h : s.RegOK) :
    (step parse s act).RegOK := by
  cases hcr : s.crashed with
  | true => rw [step_of_crashed parse s act hcr]; exact h
  | false =>
    cases act with
    | startScan uuid started startTime targetURL config =>
      rw [step_startScan parse s uuid started startTime targetURL config hcr]
      unfold StartScan
      cases parse targetURL with
      | none => exact h
      | some u =>
        intro id a ha
        simp only [registryInsert] at ha
        split_ifs at ha with h1
        · cases ha
          subst h1
          exact ⟨_, List.getElem?_concat_length _ _, rfl, by simp, by simp⟩
        · obtain ⟨c, hc, hcid, hd, hp⟩ := h id a ha
          refine ⟨c, ?_, hcid, hd, hp⟩
          simp only []
          rw [List.getElem?_append_left (List.getElem?_eq_some.mp hc).1]
          exact hc
    | getStatus scanID => rw [step_getStatus]; exact h
    | cancelScan scanID =>
      rw [step_cancelScan parse s scanID hcr]
      cases hreg : s.activeScans scanID with
      | none => simp only [CancelScan, hreg]; exact h
      | some addr =>
        cases hcell : s.heap[addr]? with
        | none => simp only [CancelScan, hreg, hcell]; exact h
        | some cell =>
          simp only [CancelScan, hreg, hcell]
          obtain ⟨c, hc, -, hd, hp⟩ := h scanID addr hreg
          rw [hcell] at hc
          cases hc
          exact regOK_of_set s _ addr cell cell.cancel h hcell rfl rfl
            (fun id a ha => ⟨ha, fun _ => ⟨hd, hp⟩⟩)
    | run addr env =>
      cases hcell : s.heap[addr]? with
      | none => rw [step_run_none parse s addr env hcell]; exact h
      | some cell =>
        rw [step_run_some parse s addr env cell hcr hcell]
        refine regOK_of_set s _ addr cell (cellAfter parse s cell env) h hcell
          (cellAfter_ID parse s cell env) (executeScan_heap parse s addr cell env hcell) ?_
        intro id a ha
        have hold : s.activeScans id = some a := by
          rcases executeScan_activeScans parse s addr cell env with hr | hr
          · rw [hr] at ha; exact ha
          · rw [hr] at ha; exact registryDelete_some _ _ _ _ ha
        refine ⟨hold, ?_⟩
        intro hEq
        subst hEq
        obtain ⟨c, hc, hcid, hd, hp⟩ := h id a hold
        rw [hcell] at hc
        cases hc
        by_contra hcon
        have hor : (cellAfter parse s cell env).pc = PC.done
            ∨ (cellAfter parse s cell env).pc = PC.panicked := by
          by_cases hx : (cellAfter parse s cell env).pc = PC.done
          · exact Or.inl hx
          · by_cases hy : (cellAfter parse s cell env).pc = PC.panicked
            · exact Or.inr hy
            · exact absurd ⟨hx, hy⟩ hcon
        rw [executeScan_retires parse s a cell env hd hp hor, hcid] at ha
        simp [registryDelete] at ha

theorem exec_regOK (parse : UrlParse) (schedule : List Action) :
    ∀ s : Service, s.RegOK → (exec parse s schedule).RegOK := by
  induction schedule with
  | nil => intro s h; exact h
  | cons act rest ih => intro s h; exact ih _ (step_regOK parse s act h)

theorem reachable_regOK (parse : UrlParse) (s : Service) (hr : Reachable parse s) :
    s.RegOK := by
  obtain ⟨hs, de, schedule, rfl⟩ := hr
  exact exec_regOK parse schedule _ (create_regOK hs de)

theorem reachable_exec (parse : UrlParse) (s : Service) (schedule : List Action)
    (hr : Reachable parse s) : Reachable parse (exec parse s schedule) := by
  obtain ⟨hs, de, sch0, rfl⟩ := hr
  exact ⟨hs, de, sch0 ++ schedule, by rw [exec_append]⟩

/-! ### Following one cell along a schedule -/

/-- A property of the cell at `a` that `CancelScan` preserves, and that the statements of
its goroutine preserve under the environments of the schedule, holds after the schedule. -/
theorem exec_cell (parse : UrlParse) (a : Nat) (Q : Cell → Prop) (E : Env → Prop)
    (hcancel : ∀ c : Cell, Q c → Q c.cancel)
    (hafter : ∀ (s : Service) (c : Cell) (env : Env), E env → Q c →
      Q (cellAfter parse s c env))
    (schedule : List Action) :
    (∀ env : Env, Action.run a env ∈ schedule → E env) →
    ∀ (s : Service) (c : Cell), s.heap[a]? = some c → Q c →
      ∃ c1 : Cell, (exec parse s schedule).heap[a]? = some c1 ∧ Q c1 := by
  induction schedule with
  | nil => intro _ s c hc hq; exact ⟨c, hc, hq⟩
  | cons act rest ih =>
    intro hE s c hc hq
    obtain ⟨c1, h1, hrel⟩ := step_cell parse s act a c hc
    refine ih (fun env he => hE env (List.mem_cons_of_mem _ he)) (step parse s act) c1 h1 ?_
    rcases hrel with h | h | ⟨env, hact, -, h⟩
    · rw [h]; exact hq
    · rw [h]; exact hcancel c hq
    · rw [h]
      exact hafter s c env (hE env (by rw [hact]; exact List.mem_cons_self _ _)) hq

theorem savedCells_unique (scanID : String) (heap : List Cell) (a : Nat) (c : Cell)
    (hc : heap[a]? = some c)
    (hu : ∀ (b : Nat) (cb : Cell), heap[b]? = some cb → cb.scan.ID = scanID → b = a) :
    savedCells scanID heap = if (decide (c.scan.ID = scanID) && c.saved) = true then 1 else 0 := by
  unfold savedCells
  refine filter_length_unique _ heap a c hc ?_
  intro j y hj hp
  simp only [Bool.and_eq_true, decide_eq_true_eq] at hp
  exact hu j y hj hp.1

/-! ### The two ways out of the pipeline -/

theorem cellAfter_completing (parse : UrlParse) (s : Service) (cell : Cell) (env : Env)
    (h : cell.PathOK ∧ cell.Completing) :
    (cellAfter parse s cell env).PathOK ∧ (cellAfter parse s cell env).Completing := by
  refine ⟨cellAfter_pathOK parse s cell env h.1, ?_⟩
  obtain ⟨hp, hc⟩ := h
  cases hpc : cell.pc <;>
    simp only [Cell.PathOK, Cell.Completing, hpc] at hp hc <;>
    simp only [cellAfter, executeScan, hpc, stage, checkpoint, checkCancelled, retire,
      Service.setCell] <;>
    (try split) <;>
    simp_all [Cell.Completing, Cell.CompletedPath]

theorem cancel_completing (c : Cell) (h : c.PathOK ∧ c.Completing) :
    c.cancel.PathOK ∧ c.cancel.Completing :=
  ⟨cancel_pathOK c h.1, h.2⟩

theorem cellAfter_stoppedAt (parse : UrlParse) (s : Service) (c0 cell : Cell) (env : Env)
    (h0 : c0.pc.isCheck = true) (h : c0.StoppedAt cell) :
    c0.StoppedAt (cellAfter parse s cell env) := by
  obtain ⟨h1, h2, h3, h4, h5, h6, h7, h8⟩ := h
  have hcheck : cell.pc.isCheck = true ∨ cell.pc = PC.retire ∨ cell.pc = PC.done := by
    rcases h8 with h | h | h
    · left; rw [h]; exact h0
    · right; left; exact h
    · right; right; exact h
  clear h8
  cases hpc : cell.pc <;>
    simp [hpc, PC.isCheck] at hcheck <;>
    simp only [cellAfter, executeScan, hpc, stage, checkpoint, checkCancelled, retire,
      Service.setCell] <;>
    simp_all [Cell.StoppedAt]

theorem cancel_stoppedAt (c0 c : Cell) (h : c0.StoppedAt c) : c0.StoppedAt c.cancel := by
  obtain ⟨h1, h2, h3, h4, h5, h6, h7, h8⟩ := h
  exact ⟨rfl, rfl, h3, h4, h5, h6, h7, h8⟩

/-- The identifier of an instance never changes. -/
theorem exec_cell_ID (parse : UrlParse) (a : Nat) (schedule : List Action) (s : Service)
    (c c1 : Cell) (hc : s.heap[a]? = some c) (h1 : (exec parse s schedule).heap[a]? = some c1) :
    c1.scan.ID = c.scan.ID := by
  obtain ⟨c3, h3, hq3⟩ := exec_cell parse a (fun x => x.scan.ID = c.scan.ID)
    (fun _ => True) (fun _ h => h)
    (fun s x env _ h => (cellAfter_ID parse s x env).trans h) schedule (fun _ _ => trivial)
    s c hc rfl
  rw [h1] at h3
  cases h3
  exact hq3

/-- C11. A run whose last cancellation check has let it pass (its goroutine stands at the
80% checkpoint) runs to the end in every schedule that gives it its nine remaining
statements without a crash of the process: the accumulator says "completed" and is attached
to the instance, the instance's status is "completed" (or "cancelled" if `CancelScan` wrote
over it), and with a storage port and an identifier that no other instance carries the log
holds exactly one `SaveScanResult` call for the identifier. The statement of line 284 writes
the status and no call; the statement of lines 287-289 then appends the one call, keyed by
the identifier and carrying the accumulator, and leaves the registry alone; the deferred
function deletes the key afterwards. -/
theorem completed_run (parse : UrlParse) (s : Service) (a : Nat) (c : Cell)
    (schedule : List Action) (hr : Reachable parse s) (hc : s.heap[a]? = some c)
    (hpc : c.pc = PC.progress80) (hst : s.hasStorage = true)
    (hcr : (exec parse s schedule).crashed = false) (hruns : 9 ≤ countRuns a schedule)
    (huniq : ∀ (b : Nat) (cb : Cell), (exec parse s schedule).heap[b]? = some cb →
      cb.scan.ID = c.scan.ID → b = a) :
    (∃ c1 : Cell, (exec parse s schedule).heap[a]? = some c1
        ∧ c1.pc = PC.done
        ∧ c1.result.Status = "completed"
        ∧ c1.scan.Result = some c1.result
        ∧ (c1.scan.Status = "completed"
            ∨ (c1.cancelled = true ∧ c1.scan.Status = "cancelled"))
        ∧ savesFor c.scan.ID (exec parse s schedule).storageLog = 1
        ∧ ∀ key : String, (exec parse s schedule).activeScans key ≠ some a)
      ∧ (∀ (s0 : Service) (cell : Cell) (env : Env), s0.crashed = false →
          s0.heap[a]? = some cell → cell.pc = PC.complete →
          (step parse s0 (Action.run a env)).heap[a]?
              = some { cell with scan := { cell.scan with Status := "completed" }, pc := PC.save }
            ∧ (step parse s0 (Action.run a env)).storageLog = s0.storageLog)
      ∧ (∀ (s0 : Service) (cell : Cell) (env : Env), s0.crashed = false →
          s0.hasStorage = true → s0.heap[a]? = some cell → cell.pc = PC.save →
          (step parse s0 (Action.run a env)).heap[a]? = some { cell with pc := PC.emit }
            ∧ (step parse s0 (Action.run a env)).storageLog
                = s0.storageLog ++ [StorageCall.SaveScanResult cell.scan.ID cell.result]
            ∧ (step parse s0 (Action.run a env)).activeScans = s0.activeScans)
      ∧ (∀ (s0 : Service) (cell : Cell) (env : Env), s0.crashed = false →
          s0.heap[a]? = some cell → cell.pc = PC.retire →
          (step parse s0 (Action.run a env)).heap[a]? = some { cell with pc := PC.done }
            ∧ (step parse s0 (Action.run a env)).storageLog = s0.storageLog
            ∧ (step parse s0 (Action.run a env)).activeScans
                = registryDelete s0.activeScans cell.scan.ID) := by
  have hpath := reachable_pathOK parse s hr a c hc
  have hq : c.PathOK ∧ c.Completing := ⟨hpath, by simp [Cell.Completing, hpc]⟩
  obtain ⟨c1, h1, hp1, hcomp1⟩ := exec_cell parse a (fun c => c.PathOK ∧ c.Completing)
    (fun _ => True) cancel_completing
    (fun s c env _ h => cellAfter_completing parse s c env h) schedule (fun _ _ => trivial)
    s c hc hq
  obtain ⟨c2, h2, hnp, hle⟩ := exec_stepsLeft parse a schedule s c hc
    (by rw [hpc]; decide) hcr
  rw [h1] at h2
  cases h2
  have hdone : c1.pc = PC.done := by
    have h0 : c1.pc.stepsLeft = 0 := by
      have h9 : c.pc.stepsLeft = 9 := by rw [hpc]; rfl
      omega
    rcases stepsLeft_eq_zero _ h0 with h | h
    · exact h
    · exact absurd h hnp
  have hres : c1.result.Status = "completed" := by
    simpa [Cell.Completing, hdone] using hcomp1
  have hcp : c1.CompletedPath := by
    simp only [Cell.PathOK, hdone] at hp1
    rcases hp1 with h | h
    · exact h
    · rw [h.1] at hres
      exact absurd hres (by decide)
  have hid : c1.scan.ID = c.scan.ID := exec_cell_ID parse a schedule s c c1 hc h1
  have hrf := reachable_exec parse s schedule hr
  have hsaves : savesFor c.scan.ID (exec parse s schedule).storageLog = 1 := by
    rw [reachable_saveInv parse _ hrf c.scan.ID, exec_hasStorage, hst,
      savedCells_unique c.scan.ID _ a c1 h1 huniq]
    simp [Cell.saved, hdone, hres, hid]
  have hreg : ∀ key : String, (exec parse s schedule).activeScans key ≠ some a := by
    intro key hk
    obtain ⟨c3, h3, -, hd, -⟩ := reachable_regOK parse _ hrf key a hk
    rw [h1] at h3
    cases h3
    exact hd hdone
  refine ⟨⟨c1, h1, hdone, hres, hcp.2.1, hcp.2.2, hsaves, hreg⟩, ?_, ?_, ?_⟩
  · intro s0 cell env h0 hcell hpc0
    have hlt : a < s0.heap.length := (List.getElem?_eq_some.mp hcell).1
    rw [step_run_some parse s0 a env cell h0 hcell]
    simp [executeScan, hpc0, Service.setCell, List.getElem?_set_self hlt]
  · intro s0 cell env h0 hst0 hcell hpc0
    have hlt : a < s0.heap.length := (List.getElem?_eq_some.mp hcell).1
    rw [step_run_some parse s0 a env cell h0 hcell]
    simp [executeScan, hpc0, hst0, Service.setCell, List.getElem?_set_self hlt, resultToMap]
  · intro s0 cell env h0 hcell hpc0
    have hlt : a < s0.heap.length := (List.getElem?_eq_some.mp hcell).1
    rw [step_run_some parse s0 a env cell h0 hcell]
    simp [executeScan, hpc0, retire, Service.setCell, List.getElem?_set_self hlt]

theorem pastLastCheck_reachable : Reachable exampleParse pastLastCheck :=
  ⟨true, false, _, rfl⟩

theorem cancelledAtCheck_reachable : Reachable exampleParse cancelledAtCheck :=
  ⟨true, false, _, rfl⟩

theorem index_of_singleton {α : Type} (l : List α) (hl : l.length = 1) (b : Nat) (x : α)
    (h : l[b]? = some x) : b = 0 := by
  have := (List.getElem?_eq_some.mp h).1
  omega

theorem completed_run_witness :
    (pastLastCheck.heap[0]?).map (fun c => c.pc) = some PC.progress80
      ∧ ∃ c1 : Cell,
          (exec exampleParse pastLastCheck
              (List.replicate 9 (Action.run 0 quietEnv))).heap[0]? = some c1
          ∧ c1.pc = PC.done
          ∧ c1.result.Status = "completed"
          ∧ c1.scan.Result = some c1.result
          ∧ savesFor "scan-1"
              (exec exampleParse pastLastCheck
                (List.replicate 9 (Action.run 0 quietEnv))).storageLog = 1 :=
  have h := completed_run exampleParse pastLastCheck 0 _
    (List.replicate 9 (Action.run 0 quietEnv)) pastLastCheck_reachable rfl rfl rfl rfl
    (by decide)
    (fun b cb hb _ => index_of_singleton
      (exec exampleParse pastLastCheck (List.replicate 9 (Action.run 0 quietEnv))).heap
      (by rfl) b cb hb)
  ⟨by rfl, h.1.elim fun c1 hc1 =>
    ⟨c1, hc1.1, hc1.2.1, hc1.2.2.1, hc1.2.2.2.1, hc1.2.2.2.2.2.1⟩⟩

/-- C12. When a cancellation check observes the signal (the goroutine stands at one of the
four checks and the context is cancelled), then in every schedule the status of the instance
is "cancelled", no later stage runs (the accumulator and the progress snapshot stay as they
were at the check, nothing is attached to the instance, the goroutine goes from the check to
the deferred function and returns), and, for an identifier that no other instance carries,
the log of the storage port holds no `SaveScanResult` call for it. -/
theorem cancelled_run (parse : UrlParse) (s : Service) (a : Nat) (c : Cell)
    (schedule : List Action) (hr : Reachable parse s) (hc : s.heap[a]? = some c)
    (hpc : c.pc.isCheck = true) (hcan : c.cancelled = true)
    (huniq : ∀ (b : Nat) (cb : Cell), (exec parse s schedule).heap[b]? = some cb →
      cb.scan.ID = c.scan.ID → b = a) :
    ∃ c1 : Cell, (exec parse s schedule).heap[a]? = some c1
      ∧ c1.scan.Status = "cancelled"
      ∧ c1.result = c.result
      ∧ c1.result.Status = "running"
      ∧ c1.scan.Progress = c.scan.Progress
      ∧ c1.scan.Result = none
      ∧ (c1.pc = c.pc ∨ c1.pc = PC.retire ∨ c1.pc = PC.done)
      ∧ savesFor c.scan.ID (exec parse s schedule).storageLog = 0
      ∧ ((exec parse s schedule).crashed = false → c.pc.stepsLeft ≤ countRuns a schedule →
          c1.pc = PC.done) := by
  have hpath := reachable_pathOK parse s hr a c hc
  have hstart : c.StoppedAt c := by
    cases hp : c.pc <;> simp [hp, PC.isCheck] at hpc <;>
      simp only [Cell.PathOK, hp] at hpath <;>
      simp_all [Cell.EarlyStatus, Cell.StoppedAt]
  obtain ⟨c1, h1, hq1⟩ := exec_cell parse a (fun x => c.StoppedAt x) (fun _ => True)
    (cancel_stoppedAt c) (fun s x env _ h => cellAfter_stoppedAt parse s c x env hpc h)
    schedule (fun _ _ => trivial) s c hc hstart
  obtain ⟨g1, g2, g3, g4, g5, g6, g7, g8⟩ := hq1
  have hrf := reachable_exec parse s schedule hr
  have hnotsaved : c1.saved = false := by
    have hne : c.pc ≠ PC.emit := by
      intro h; rw [h] at hpc; simp [PC.isCheck] at hpc
    rcases g8 with h | h | h
    · simp [Cell.saved, h, hne, g6]
    · simp [Cell.saved, h, g6]
    · simp [Cell.saved, h, g6]
  have hsaves : savesFor c.scan.ID (exec parse s schedule).storageLog = 0 := by
    rw [reachable_saveInv parse _ hrf c.scan.ID,
      savedCells_unique c.scan.ID _ a c1 h1 huniq]
    simp [hnotsaved]
  refine ⟨c1, h1, g2, g3, g6, g4, g5, g8, hsaves, ?_⟩
  intro hcr hruns
  have hnp : c.pc ≠ PC.panicked := by
    intro h; rw [h] at hpc; simp [PC.isCheck] at hpc
  obtain ⟨c2, h2, hp2, hle⟩ := exec_stepsLeft parse a schedule s c hc hnp hcr
  rw [h1] at h2
  cases h2
  have h0 : c1.pc.stepsLeft = 0 := by omega
  rcases stepsLeft_eq_zero _ h0 with h | h
  · exact h
  · exact absurd h hp2

theorem cancelled_run_witness :
    (cancelledAtCheck.heap[0]?).map (fun c => (c.pc, c.cancelled)) = some (PC.check1, true)
      ∧ ∃ c1 : Cell,
          (exec exampleParse cancelledAtCheck
              (List.replicate 19 (Action.run 0 quietEnv))).heap[0]? = some c1
          ∧ c1.scan.Status = "cancelled"
          ∧ c1.scan.Result = none
          ∧ c1.pc = PC.done
          ∧ savesFor "scan-1"
              (exec exampleParse cancelledAtCheck
                (List.replicate 19 (Action.run 0 quietEnv))).storageLog = 0 :=
  have h := cancelled_run exampleParse cancelledAtCheck 0 _
    (List.replicate 19 (Action.run 0 quietEnv)) cancelledAtCheck_reachable rfl rfl rfl
    (fun b cb hb _ => index_of_singleton
      (exec exampleParse cancelledAtCheck (List.replicate 19 (Action.run 0 quietEnv))).heap
      (by rfl) b cb hb)
  ⟨by rfl, h.elim fun c1 hc1 =>
    ⟨c1, hc1.1, hc1.2.1, hc1.2.2.2.2.2.1, hc1.2.2.2.2.2.2.2.2 (by rfl) (by decide),
      hc1.2.2.2.2.2.2.2.1⟩⟩

/-- C13. Every run that gets its remaining statements without a crash of the process
returns, and it has then left along exactly one of the two paths: through finalization
(accumulator "completed" and attached) or through a cancellation check (accumulator still
"running", nothing attached, status "cancelled"). Its instance is then registered under no
key; when no other instance carries its identifier, the identifier is not a key of the
registry and `GetStatus` answers not found; further statements of the goroutine do nothing.
The deferred function itself deletes the key of the identifier, leaves every other key and
every other instance alone, and makes `GetStatus` on the identifier answer not found. -/
theorem run_retires_once (parse : UrlParse) (s : Service) (a : Nat) (c : Cell)
    (schedule : List Action) (hr : Reachable parse s) (hc : s.heap[a]? = some c)
    (hnp : c.pc ≠ PC.panicked) (hcr : (exec parse s schedule).crashed = false)
    (hruns : c.pc.stepsLeft ≤ countRuns a schedule) :
    (∃ c1 : Cell, (exec parse s schedule).heap[a]? = some c1
        ∧ c1.pc = PC.done
        ∧ ((c1.CompletedPath ∧ ¬ c1.CancelledPath) ∨ (c1.CancelledPath ∧ ¬ c1.CompletedPath))
        ∧ (∀ key : String, (exec parse s schedule).activeScans key ≠ some a)
        ∧ ((∀ (b : Nat) (cb : Cell), (exec parse s schedule).heap[b]? = some cb →
              cb.scan.ID = c.scan.ID → b = a) →
            (exec parse s schedule).activeScans c.scan.ID = none
              ∧ (GetStatus (exec parse s schedule) c.scan.ID).1
                  = [("error", StatusValue.str "Scan not found")])
        ∧ (∀ env : Env,
            step parse (exec parse s schedule) (Action.run a env) = exec parse s schedule))
      ∧ (∀ (s0 : Service) (cell : Cell) (env : Env), s0.crashed = false →
          s0.heap[a]? = some cell → cell.pc = PC.retire →
          (step parse s0 (Action.run a env)).activeScans cell.scan.ID = none
            ∧ (∀ other : String, other ≠ cell.scan.ID →
                (step parse s0 (Action.run a env)).activeScans other = s0.activeScans other)
            ∧ (GetStatus (step parse s0 (Action.run a env)) cell.scan.ID).1
                = [("error", StatusValue.str "Scan not found")]
            ∧ (step parse s0 (Action.run a env)).heap[a]? = some { cell with pc := PC.done }
            ∧ (∀ b : Nat, b ≠ a →
                (step parse s0 (Action.run a env)).heap[b]? = s0.heap[b]?)) := by
  have hrf := reachable_exec parse s schedule hr
  obtain ⟨c1, h1, hp1, hle⟩ := exec_stepsLeft parse a schedule s c hc hnp hcr
  have hdone : c1.pc = PC.done := by
    have h0 : c1.pc.stepsLeft = 0 := by omega
    rcases stepsLeft_eq_zero _ h0 with h | h
    · exact h
    · exact absurd h hp1
  have hpath := reachable_pathOK parse _ hrf a c1 h1
  simp only [Cell.PathOK, hdone] at hpath
  have hid : c1.scan.ID = c.scan.ID := exec_cell_ID parse a schedule s c c1 hc h1
  have hreg : ∀ key : String, (exec parse s schedule).activeScans key ≠ some a := by
    intro key hk
    obtain ⟨c3, h3, -, hd, -⟩ := reachable_regOK parse _ hrf key a hk
    rw [h1] at h3
    cases h3
    exact hd hdone
  refine ⟨⟨c1, h1, hdone, ?_, hreg, ?_, ?_⟩, ?_⟩
  · rcases hpath with h | h
    · left
      refine ⟨h, fun h' => ?_⟩
      have := h.1
      rw [h'.1] at this
      exact absurd this (by decide)
    · right
      refine ⟨h, fun h' => ?_⟩
      have := h.1
      rw [h'.1] at this
      exact absurd this (by decide)
  · intro huniq
    have hnone : (exec parse s schedule).activeScans c.scan.ID = none := by
      cases hk : (exec parse s schedule).activeScans c.scan.ID with
      | none => rfl
      | some b =>
        obtain ⟨cb, hb, hbid, -, -⟩ := reachable_regOK parse _ hrf c.scan.ID b hk
        have := huniq b cb hb hbid
        subst this
        exact absurd hk (hreg _)
    exact ⟨hnone, by simp only [GetStatus, hnone]⟩
  · intro env
    rw [step_run_some parse _ a env c1 hcr h1]
    simp only [executeScan, hdone]
  · intro s0 cell env h0 hcell hpc0
    have hlt : a < s0.heap.length := (List.getElem?_eq_some.mp hcell).1
    rw [step_run_some parse s0 a env cell h0 hcell]
    have hreg0 : (executeScan parse s0 a cell env).activeScans
        = registryDelete s0.activeScans cell.scan.ID := by
      simp [executeScan, hpc0, retire, Service.setCell]
    have hheap0 : (executeScan parse s0 a cell env).heap
        = s0.heap.set a { cell with pc := PC.done } := by
      simp [executeScan, hpc0, retire, Service.setCell]
    have hnone : (executeScan parse s0 a cell env).activeScans cell.scan.ID = none := by
      rw [hreg0]; simp [registryDelete]
    refine ⟨hnone, ?_, by simp only [GetStatus, hnone], ?_, ?_⟩
    · intro other hne
      rw [hreg0]
      simp [registryDelete, hne]
    · rw [hheap0]
      exact List.getElem?_set_self hlt
    · intro b hb
      rw [hheap0]
      exact List.getElem?_set_ne (Ne.symm hb)

theorem run_retires_once_witness :
    (oneScan.heap[0]?).map (fun c => c.pc) = some PC.start
      ∧ ∃ c1 : Cell,
          (exec exampleParse oneScan (List.replicate 22 (Action.run 0 quietEnv))).heap[0]?
            = some c1
          ∧ c1.pc = PC.done
          ∧ ((c1.CompletedPath ∧ ¬ c1.CancelledPath) ∨ (c1.CancelledPath ∧ ¬ c1.CompletedPath))
          ∧ (exec exampleParse oneScan
              (List.replicate 22 (Action.run 0 quietEnv))).activeScans "scan-1" = none :=
  have h := run_retires_once exampleParse oneScan 0 _
    (List.replicate 22 (Action.run 0 quietEnv)) oneScan_reachable rfl (by decide) (by rfl)
    (by decide)
  ⟨by rfl, h.1.elim fun c1 hc1 =>
    ⟨c1, hc1.1, hc1.2.1, hc1.2.2.1,
      (hc1.2.2.2.2.1 (fun b cb hb _ => index_of_singleton
        (exec exampleParse oneScan (List.replicate 22 (Action.run 0 quietEnv))).heap
        (by rfl) b cb hb)).1⟩⟩

/-! ### A run whose reconnaissance request fails -/

theorem score_without_headers (r : ScanResult) (flag : Bool) (hh : r.Headers = [])
    (hv : r.Vulnerabilities.map (fun v => v.Severity) = if flag then ["critical"] else []) :
    (calculateSecurityScore r).SecurityScore = if flag then 55 else 85 := by
  cases flag with
  | false =>
    have hnil : r.Vulnerabilities = [] := by simpa using hv
    simp [calculateSecurityScore, hnil, hh, securityHeaders]
  | true =>
    simp only [if_true] at hv
    cases hl : r.Vulnerabilities with
    | nil => rw [hl] at hv; simp at hv
    | cons v rest =>
      rw [hl] at hv
      simp only [List.map_cons, List.cons.injEq, List.map_eq_nil_iff] at hv
      obtain ⟨hsev, hrest⟩ := hv
      subst hrest
      simp [calculateSecurityScore, hl, hh, securityHeaders, hsev, severityDeduction]

theorem cellAfter_Config (parse : UrlParse) (s : Service) (cell : Cell) (env : Env) :
    (cellAfter parse s cell env).scan.Config = cell.scan.Config := by
  cases hpc : cell.pc <;>
    simp only [cellAfter, executeScan, hpc, stage, checkpoint, checkCancelled, retire,
      Service.setCell] <;>
    (try split) <;> simp

theorem cellAfter_quietRun (parse : UrlParse) (s : Service) (cell : Cell) (env : Env)
    (henv : env.response = none) (h : cell.QuietRun) :
    (cellAfter parse s cell env).QuietRun := by
  rcases h with h | h | h
  · left; rw [cellAfter_cancelled]; exact h
  · right; left
    simp [cellAfter, executeScan, h]
  · by_cases hcan : cell.cancelled = true
    · left; rw [cellAfter_cancelled]; exact hcan
    · have hcan' : cell.cancelled = false := by simpa using hcan
      obtain ⟨h1, h2, h3, h4, h5, h6, h7⟩ := h
      by_cases hssl : cell.pc = PC.ssl
      · cases hres : analyzeSSL parse cell.result env.now with
        | none =>
          right; left
          simp [cellAfter, executeScan, hssl, hres, retire, Service.setCell]
        | some r1 =>
          obtain ⟨ssl, rfl⟩ := analyzeSSL_frame parse _ _ _ hres
          right; right
          simp only [hssl, PC.stepsLeft] at h1 h2 h3 h4 h5 h6 h7
          simp only [cellAfter, executeScan, hssl, hres, stage, Service.setCell]
          simp_all [PC.stepsLeft]
      · by_cases hscore : cell.pc = PC.score
        · right; right
          simp only [hscore, PC.stepsLeft] at h1 h2 h3 h4 h5 h6 h7
          have hsc := score_without_headers cell.result cell.scan.Config.VulnerabilityScan
            (h1 (by decide)).2.2 (h4 (by decide))
          have hfr : calculateSecurityScore cell.result
              = { cell.result with
                  SecurityScore := (calculateSecurityScore cell.result).SecurityScore } := rfl
          simp only [cellAfter, executeScan, hscore, stage, Service.setCell]
          rw [hfr, hsc]
          clear hfr hsc
          simp_all [PC.stepsLeft]
        · right; right
          cases hpc : cell.pc <;>
            simp only [hpc, PC.stepsLeft] at h1 h2 h3 h4 h5 h6 h7 <;>
            simp only [cellAfter, executeScan, hpc, stage, checkpoint, checkCancelled, retire,
              Service.setCell] <;>
            (try split) <;>
            simp_all [PC.stepsLeft, performReconnaissance, detectTechnologies,
              scanVulnerabilities, ScanResult.zero]
theorem exec_cell_Config (parse : UrlParse) (a : Nat) (schedule : List Action) (s : Service)
    (c c1 : Cell) (hc : s.heap[a]? = some c) (h1 : (exec parse s schedule).heap[a]? = some c1) :
    c1.scan.Config = c.scan.Config := by
  obtain ⟨c3, h3, hq3⟩ := exec_cell parse a (fun x => x.scan.Config = c.scan.Config)
    (fun _ => True) (fun _ h => h)
    (fun s x env _ h => (cellAfter_Config parse s x env).trans h) schedule (fun _ _ => trivial)
    s c hc rfl
  rw [h1] at h3
  cases h3
  exact hq3

theorem cellAfter_URL (parse : UrlParse) (s : Service) (cell : Cell) (env : Env) :
    (cellAfter parse s cell env).scan.URL = cell.scan.URL := by
  cases hpc : cell.pc <;>
    simp only [cellAfter, executeScan, hpc, stage, checkpoint, checkCancelled, retire,
      Service.setCell] <;>
    (try split) <;> simp

theorem analyzeSSL_cases (parse : UrlParse) (r : ScanResult) (now : Time) (u : URL)
    (h : parse r.URL = some u) :
    analyzeSSL parse r now
      = some (if u.Scheme ≠ "https" then r else { r with SSLInfo := sslSummary u.Host now }) := by
  unfold analyzeSSL
  rw [h]
  simp only []
  split_ifs <;> rfl

theorem cellAfter_urlOK (parse : UrlParse) (s : Service) (cell : Cell) (env : Env)
    (h : cell.UrlOK parse) : (cellAfter parse s cell env).UrlOK parse := by
  obtain ⟨h1, h2⟩ := h
  refine ⟨by rw [cellAfter_URL]; exact h1, ?_⟩
  by_cases hssl : cell.pc = PC.ssl
  · have hu := h2 (by rw [hssl]; decide)
    cases hp : parse cell.result.URL with
    | none => rw [← hu, hp] at h1; simp at h1
    | some u =>
      have ha := analyzeSSL_cases parse cell.result env.now u hp
      intro _
      simp only [cellAfter, executeScan, hssl, ha, stage, Service.setCell]
      split_ifs <;> simp [hu]
  · cases hpc : cell.pc <;>
      simp only [hpc, reduceCtorEq, not_true_eq_false, not_false_eq_true, ne_eq,
        forall_true_left, IsEmpty.forall_iff] at h2 hssl <;>
      simp only [cellAfter, executeScan, hpc, stage, checkpoint, checkCancelled, retire,
        Service.setCell] <;>
      (try split) <;>
      simp_all [performReconnaissance, detectTechnologies, scanVulnerabilities,
        calculateSecurityScore]
    split <;> simp_all

theorem cancel_urlOK (parse : UrlParse) (c : Cell) (h : c.UrlOK parse) : c.cancel.UrlOK parse :=
  h

theorem executeScan_alive (parse : UrlParse) (s : Service) (addr : Nat) (cell : Cell)
    (env : Env) (hcr : s.crashed = false) (hx : env.sinkExits = false)
    (hu : cell.UrlOK parse) : (executeScan parse s addr cell env).crashed = false := by
  by_cases hssl : cell.pc = PC.ssl
  · have hurl := hu.2 (by rw [hssl]; decide)
    cases hp : parse cell.result.URL with
    | none =>
      have h1 := hu.1
      rw [← hurl, hp] at h1
      simp at h1
    | some u =>
      have ha := analyzeSSL_cases parse cell.result env.now u hp
      simp only [executeScan, hssl, ha, stage, Service.setCell]
      exact hcr
  · cases hpc : cell.pc <;>
      simp only [hpc, reduceCtorEq, not_true_eq_false, not_false_eq_true] at hssl <;>
      simp only [executeScan, hpc, stage, checkpoint, checkCancelled, retire,
        Service.setCell] <;>
      (try split) <;> simp_all

theorem step_heap_shape_url (parse : UrlParse) (s : Service) (act : Action) :
    (step parse s act).heap.length = s.heap.length
      ∨ ∃ (c0 : Cell) (t : String) (u : URL), parse t = some u ∧ c0.scan.URL = u.Rendered
          ∧ c0.pc = PC.start ∧ (step parse s act).heap = s.heap ++ [c0] := by
  rcases step_heap_shape parse s act with h | ⟨c0, hf, happ⟩
  · exact Or.inl h
  · cases hcr : s.crashed with
    | true =>
      rw [step_of_crashed parse s act hcr] at happ ⊢
      exact Or.inl rfl
    | false =>
      cases act with
      | startScan uuid started startTime targetURL config =>
        rw [step_startScan parse s uuid started startTime targetURL config hcr] at happ ⊢
        cases hp : parse targetURL with
        | none => left; simp only [StartScan, hp]
        | some u =>
          right
          have happ2 := happ
          simp only [StartScan, hp] at happ2
          have hc0 := List.append_cancel_left happ2
          simp only [List.cons.injEq, and_true] at hc0
          refine ⟨c0, targetURL, u, hp, ?_, hf.1, happ⟩
          rw [← hc0]
      | getStatus scanID => rw [step_getStatus]; exact Or.inl rfl
      | cancelScan scanID =>
        have h := congrArg List.length happ
        rw [step_cancelScan parse s scanID hcr] at h ⊢
        left
        cases hreg : s.activeScans scanID with
        | none => simp only [CancelScan, hreg]
        | some addr =>
          cases hcell : s.heap[addr]? with
          | none => simp only [CancelScan, hreg, hcell]
          | some cell =>
            simp only [CancelScan, hreg, hcell, Service.setCell]
            exact List.length_set _ _ _
      | run addr env =>
        left
        cases hcell : s.heap[addr]? with
        | none => rw [step_run_none parse s addr env hcell]
        | some cell =>
          rw [step_run_some parse s addr env cell hcr hcell,
            executeScan_heap parse s addr cell env hcell]
          exact List.length_set _ _ _

/-- Every cell of the heap keeps an accepted URL: the text that `StartScan` stores is the
rendering of a parsed URL, which the parser accepts again. -/
theorem step_urlOK (parse : UrlParse)
    (hrt : ∀ (t : String) (u : URL), parse t = some u → (parse u.Rendered).isSome = true)
    (s : Service) (act : Action)
    (hs : ∀ (a : Nat) (c : Cell), s.heap[a]? = some c → c.UrlOK parse) :
    ∀ (a : Nat) (c : Cell), (step parse s act).heap[a]? = some c → c.UrlOK parse := by
  intro a c1 h
  rcases step_cell_origin parse s act a c1 h with ⟨c, hc, hrel⟩ | ⟨hnone, -⟩
  · rcases hrel with h1 | h1 | ⟨env, -, -, h1⟩
    · rw [h1]; exact hs a c hc
    · rw [h1]; exact cancel_urlOK parse c (hs a c hc)
    · rw [h1]; exact cellAfter_urlOK parse s c env (hs a c hc)
  · have hge : s.heap.length ≤ a := List.getElem?_eq_none_iff.mp hnone
    rcases step_heap_shape_url parse s act with hlen | ⟨c0, t, u, hp, hurl, hpc0, happ⟩
    · have : (step parse s act).heap[a]? = none :=
        List.getElem?_eq_none_iff.mpr (by omega)
      rw [this] at h
      cases h
    · rw [happ, List.getElem?_append_right hge] at h
      rcases Nat.eq_zero_or_pos (a - s.heap.length) with h0 | h0
      · rw [h0] at h
        simp only [List.getElem?_cons_zero, Option.some.injEq] at h
        rw [← h]
        refine ⟨by rw [hurl]; exact hrt t u hp, fun hne => absurd hpc0 hne⟩
      · obtain ⟨k, hk⟩ := Nat.exists_eq_succ_of_ne_zero (Nat.pos_iff_ne_zero.mp h0)
        rw [hk] at h
        simp at h

theorem step_alive (parse : UrlParse) (s : Service) (act : Action)
    (hcr : s.crashed = false) (hrec : act.recoverable = true)
    (hs : ∀ (a : Nat) (c : Cell), s.heap[a]? = some c → c.UrlOK parse) :
    (step parse s act).crashed = false := by
  cases act with
  | startScan uuid started startTime targetURL config =>
    rw [step_startScan parse s uuid started startTime targetURL config hcr,
      (StartScan_flags parse s uuid started startTime targetURL config).2.2.2.2]
    exact hcr
  | getStatus scanID => rw [step_getStatus]; exact hcr
  | cancelScan scanID =>
    rw [step_cancelScan parse s scanID hcr, (CancelScan_flags s scanID).2.2.2.2.1]
    exact hcr
  | run addr env =>
    cases hcell : s.heap[addr]? with
    | none => rw [step_run_none parse s addr env hcell]; exact hcr
    | some cell =>
      rw [step_run_some parse s addr env cell hcr hcell]
      have hx : env.sinkExits = false := by simpa [Action.recoverable] using hrec
      exact executeScan_alive parse s addr cell env hcr hx (hs addr cell hcell)

/-- A process that is alive stays alive through a schedule in which no emission ends it. -/
theorem exec_alive (parse : UrlParse)
    (hrt : ∀ (t : String) (u : URL), parse t = some u → (parse u.Rendered).isSome = true)
    (schedule : List Action) :
    ∀ s : Service, s.crashed = false →
      (∀ act ∈ schedule, Action.recoverable act = true) →
      (∀ (a : Nat) (c : Cell), s.heap[a]? = some c → c.UrlOK parse) →
      (exec parse s schedule).crashed = false := by
  induction schedule with
  | nil => intro s hcr _ _; exact hcr
  | cons act rest ih =>
    intro s hcr hrec hs
    rw [exec_cons]
    exact ih (step parse s act)
      (step_alive parse s act hcr (hrec act (List.mem_cons_self _ _)) hs)
      (fun x hx => hrec x (List.mem_cons_of_mem _ hx))
      (step_urlOK parse hrt s act hs)

theorem reachable_urlOK (parse : UrlParse)
    (hrt : ∀ (t : String) (u : URL), parse t = some u → (parse u.Rendered).isSome = true)
    (s : Service) (hr : Reachable parse s) :
    ∀ (a : Nat) (c : Cell), s.heap[a]? = some c → c.UrlOK parse := by
  obtain ⟨hs, de, schedule, rfl⟩ := hr
  have key : ∀ (schedule : List Action) (s0 : Service),
      (∀ (a : Nat) (c : Cell), s0.heap[a]? = some c → c.UrlOK parse) →
      ∀ (a : Nat) (c : Cell), (exec parse s0 schedule).heap[a]? = some c → c.UrlOK parse := by
    intro schedule
    induction schedule with
    | nil => intro s0 h0; exact h0
    | cons act rest ih =>
      intro s0 h0
      exact ih (step parse s0 act) (step_urlOK parse hrt s0 act h0)
  apply key
  intro a c h
  simp [Service.create] at h

theorem cellAfter_sslRun (parse : UrlParse) (s : Service) (cell : Cell) (env : Env)
    (url : String) (E : Env → Prop) (hE : E env) (h : cell.SslRun parse url E) :
    (cellAfter parse s cell env).SslRun parse url E := by
  obtain ⟨hurl, h⟩ := h
  refine ⟨by rw [cellAfter_URL]; exact hurl, ?_⟩
  rcases h with h | h | h
  · left; rw [cellAfter_cancelled]; exact h
  · right; left
    simp [cellAfter, executeScan, h]
  · by_cases hcan : cell.cancelled = true
    · left; rw [cellAfter_cancelled]; exact hcan
    · have hcan' : cell.cancelled = false := by simpa using hcan
      obtain ⟨h1, h2, h3⟩ := h
      by_cases hssl : cell.pc = PC.ssl
      · have hru : cell.result.URL = url := h1 (by rw [hssl]; decide)
        have hz : cell.result.SSLInfo = SSLInfo.zero :=
          h2 (by rw [hssl]; decide) (by rw [hssl]; decide)
        cases hp : parse cell.result.URL with
        | none =>
          right; left
          simp [cellAfter, executeScan, hssl, analyzeSSL, hp, retire, Service.setCell]
        | some u =>
          have ha := analyzeSSL_cases parse cell.result env.now u hp
          right; right
          simp only [cellAfter, executeScan, hssl, ha, stage, Service.setCell]
          rw [hru] at hp
          by_cases hs : u.Scheme = "https"
          · simp only [hs, ne_eq, not_true_eq_false, if_false]
            refine ⟨fun _ => by simpa using hru, fun _ hle => ?_, fun _ => ?_⟩
            · simp [PC.stepsLeft] at hle
            · exact ⟨u, hp, fun hne => absurd hs hne, fun _ => ⟨env, hE, by simp⟩⟩
          · simp only [hs, ne_eq, not_false_eq_true, if_true]
            refine ⟨fun _ => by simpa using hru, fun _ hle => ?_, fun _ => ?_⟩
            · simp [PC.stepsLeft] at hle
            · exact ⟨u, hp, fun _ => by simpa using hz, fun he => absurd he hs⟩
      · right; right
        by_cases hst : cell.pc = PC.start
        · simp only [cellAfter, executeScan, hst, stage, Service.setCell]
          simp [PC.stepsLeft, hurl, ScanResult.zero]
        · have h1' := h1 hst
          have h2' := h2 hst
          clear h1 h2
          cases hpc : cell.pc <;>
            simp only [hpc, reduceCtorEq, not_true_eq_false, not_false_eq_true] at hssl hst <;>
            simp only [hpc, PC.stepsLeft] at h2' h3 <;>
            simp only [cellAfter, executeScan, hpc, stage, checkpoint, checkCancelled, retire,
              Service.setCell] <;>
            (try split) <;>
            simp_all [PC.stepsLeft, performReconnaissance, detectTechnologies,
              scanVulnerabilities, calculateSecurityScore]
          split <;> simp_all

/-- C19. A run whose reconnaissance request returns an error and that is never cancelled
goes on. Take a reachable service whose process is alive, a parser that accepts again what it
has rendered, and a schedule in which no emission ends the process and the goroutine gets its
22 statements: the process is still alive afterwards (the SSL/TLS stage parses the stored
URL and does not panic), the goroutine has returned with status "completed" and the
accumulator attached; the accumulator has status code 0, response time 0 and no headers; the
technology stage has left its two fixed technologies, the SSL/TLS stage the zero summary for
a URL that is not https and its fixed summary (subject the host, expiry 90 days after the
clock reading of one of the statements) for an https URL, the vulnerability stage, when
enabled, its one critical finding; and the score is the one for three missing headers: 55
with the finding, 85 without. -/
theorem failed_reconnaissance_completes (parse : UrlParse) (s : Service) (a : Nat) (c : Cell)
    (schedule : List Action) (hr : Reachable parse s) (hc : s.heap[a]? = some c)
    (hpc : c.pc = PC.start)
    (hfail : ∀ env : Env, Action.run a env ∈ schedule → env.response = none)
    (hs0 : s.crashed = false)
    (hrt : ∀ (t : String) (u : URL), parse t = some u → (parse u.Rendered).isSome = true)
    (hrec : ∀ act ∈ schedule, Action.recoverable act = true)
    (hruns : 22 ≤ countRuns a schedule)
    (hunc : ((exec parse s schedule).heap[a]?).map (fun x => x.cancelled) = some false) :
    (exec parse s schedule).crashed = false
      ∧ ∃ c1 : Cell, (exec parse s schedule).heap[a]? = some c1
        ∧ c1.pc = PC.done
        ∧ c1.scan.Status = "completed"
        ∧ c1.result.Status = "completed"
        ∧ c1.scan.Result = some c1.result
        ∧ c1.result.StatusCode = 0
        ∧ c1.result.ResponseTime = 0
        ∧ c1.result.Headers = []
        ∧ missingHeaders c1.result.Headers = 3
        ∧ c1.result.TechStack.map (fun t => t.Name) = ["Nginx", "React"]
        ∧ c1.result.Vulnerabilities.map (fun v => v.Severity)
            = (if c.scan.Config.VulnerabilityScan then ["critical"] else [])
        ∧ c1.result.SecurityScore = (if c.scan.Config.VulnerabilityScan then 55 else 85)
        ∧ c1.scan.Progress.Percentage = 100
        ∧ ∃ u : URL, parse c.scan.URL = some u
            ∧ (u.Scheme ≠ "https" → c1.result.SSLInfo = SSLInfo.zero)
            ∧ (u.Scheme = "https" →
                ∃ env : Env, Action.run a env ∈ schedule
                  ∧ c1.result.SSLInfo = sslSummary u.Host env.now) := by
  have hcr : (exec parse s schedule).crashed = false :=
    exec_alive parse hrt schedule s hs0 hrec (reachable_urlOK parse hrt s hr)
  refine ⟨hcr, ?_⟩
  have hq0 : c.QuietRun := by
    right; right
    simp [hpc, PC.stepsLeft]
  obtain ⟨c1, h1, hq1⟩ := exec_cell parse a Cell.QuietRun (fun env => env.response = none)
    (fun x _ => Or.inl rfl) (fun s x env he h => cellAfter_quietRun parse s x env he h)
    schedule hfail s c hc hq0
  have hs0' : c.SslRun parse c.scan.URL (fun env => Action.run a env ∈ schedule) := by
    refine ⟨rfl, Or.inr (Or.inr ⟨fun h => absurd hpc h, fun h => absurd hpc h, fun h => ?_⟩)⟩
    rw [hpc] at h
    simp [PC.stepsLeft] at h
  obtain ⟨c3, h3, hssl⟩ := exec_cell parse a
    (Cell.SslRun parse c.scan.URL (fun env => Action.run a env ∈ schedule))
    (fun env => Action.run a env ∈ schedule)
    (fun x hx => ⟨hx.1, Or.inl rfl⟩)
    (fun s x env he h => cellAfter_sslRun parse s x env _ _ he h)
    schedule (fun _ h => h) s c hc hs0'
  rw [h1] at h3
  cases h3
  obtain ⟨c2, h2, hnp, hle⟩ := exec_stepsLeft parse a schedule s c hc
    (by rw [hpc]; decide) hcr
  rw [h1] at h2
  cases h2
  have hdone : c1.pc = PC.done := by
    have h22 : c.pc.stepsLeft = 22 := by rw [hpc]; rfl
    have h0 : c1.pc.stepsLeft = 0 := by omega
    rcases stepsLeft_eq_zero _ h0 with h | h
    · exact h
    · exact absurd h hnp
  have hlive : c1.cancelled = false := by
    rw [h1] at hunc
    simpa using hunc
  have hcfg := exec_cell_Config parse a schedule s c c1 hc h1
  have hpath := reachable_pathOK parse _ (reachable_exec parse s schedule hr) a c1 h1
  simp only [Cell.PathOK, hdone] at hpath
  have hcp : c1.CompletedPath := by
    rcases hpath with h | h
    · exact h
    · rw [h.2.2.1] at hlive
      exact absurd hlive (by decide)
  have hstatus : c1.scan.Status = "completed" := by
    rcases hcp.2.2 with h | h
    · exact h
    · rw [h.1] at hlive
      exact absurd hlive (by decide)
  have hsslfin : ∃ u : URL, parse c.scan.URL = some u
      ∧ (u.Scheme ≠ "https" → c1.result.SSLInfo = SSLInfo.zero)
      ∧ (u.Scheme = "https" →
          ∃ env : Env, Action.run a env ∈ schedule
            ∧ c1.result.SSLInfo = sslSummary u.Host env.now) := by
    rcases hssl.2 with h | h | h
    · rw [h] at hlive
      exact absurd hlive (by decide)
    · exact absurd h hnp
    · exact h.2.2 (by rw [hdone]; decide)
  rcases hq1 with h | h | h
  · rw [h] at hlive
    exact absurd hlive (by decide)
  · exact absurd h hnp
  · obtain ⟨g1, -, g3, g4, g5, g6, -⟩ := h
    have z : c1.pc.stepsLeft = 0 := by rw [hdone]; rfl
    have f1 := g1 (by omega)
    refine ⟨c1, h1, hdone, hstatus, hcp.1, hcp.2.1, f1.1, f1.2.1, f1.2.2, ?_, g3 (by omega),
      ?_, ?_, g6 (by omega), hsslfin⟩
    · rw [f1.2.2]; rfl
    · rw [← hcfg]; exact g4 (by omega)
    · rw [← hcfg]; exact g5 (by omega)

theorem exampleParse_rendered (t : String) (u : URL) (h : exampleParse t = some u) :
    (exampleParse u.Rendered).isSome = true := by
  have hr : u.Rendered = t := by
    unfold exampleParse at h
    split at h
    · cases h
    · split_ifs at h <;> cases h <;> rfl
  rw [hr, h]
  rfl

theorem failed_reconnaissance_completes_witness :
    (oneScan.heap[0]?).map (fun c => c.pc) = some PC.start
      ∧ quietEnv.response = none
      ∧ (exec exampleParse oneScan (List.replicate 22 (Action.run 0 quietEnv))).crashed = false
      ∧ ∃ c1 : Cell,
          (exec exampleParse oneScan (List.replicate 22 (Action.run 0 quietEnv))).heap[0]?
            = some c1
          ∧ c1.pc = PC.done
          ∧ c1.scan.Status = "completed"
          ∧ c1.result.StatusCode = 0
          ∧ c1.result.Headers = []
          ∧ c1.result.SecurityScore = 55
          ∧ c1.result.SSLInfo = sslSummary "example.org" quietEnv.now := by
  have h := failed_reconnaissance_completes exampleParse oneScan 0 _
    (List.replicate 22 (Action.run 0 quietEnv)) oneScan_reachable rfl rfl
    (fun env he => by
      have := (List.mem_replicate.mp he).2
      cases this
      rfl)
    (by rfl) exampleParse_rendered
    (fun act hact => by
      have := (List.mem_replicate.mp hact).2
      rw [this]
      rfl)
    (by decide) (by rfl)
  obtain ⟨hcr, c1, hc1, hdone, hst, -, -, hcode, -, hhead, -, -, -, hscore, -, u, hu, -, hssl⟩ := h
  have hu1 : exampleParse "https://example.org" = some u := hu
  have hu2 : u = ⟨"https", "example.org", "https://example.org"⟩ := by
    have h1 : exampleParse "https://example.org"
        = some ⟨"https", "example.org", "https://example.org"⟩ := by rfl
    rw [h1] at hu1
    exact (Option.some.inj hu1).symm
  subst hu2
  obtain ⟨env, henv, hs⟩ := hssl rfl
  have he := (List.mem_replicate.mp henv).2
  cases he
  exact ⟨by rfl, rfl, hcr, c1, hc1, hdone, hst, hcode, hhead, hscore, hs⟩

/-! ### The collaborators do not influence a scan -/

theorem cellAfter_congr (parse : UrlParse) (s1 s2 : Service) (cell : Cell) (env1 env2 : Env)
    (hnow : env1.now = env2.now) (hresp : env1.response = env2.response) :
    cellAfter parse s1 cell env1 = cellAfter parse s2 cell env2 := by
  cases hpc : cell.pc <;>
    simp only [cellAfter, executeScan, hpc, stage, checkpoint, checkCancelled, retire,
      Service.setCell] <;>
    (try split) <;> simp [hnow, hresp] <;>
    (try split) <;> simp_all

theorem executeScan_registry_congr (parse : UrlParse) (s1 s2 : Service) (addr : Nat)
    (cell : Cell) (env1 env2 : Env) (hnow : env1.now = env2.now)
    (hreg : s1.activeScans = s2.activeScans) (hcr : s1.crashed = s2.crashed)
    (hx1 : env1.sinkExits = false) (hx2 : env2.sinkExits = false) :
    (executeScan parse s1 addr cell env1).activeScans
        = (executeScan parse s2 addr cell env2).activeScans
      ∧ (executeScan parse s1 addr cell env1).crashed
        = (executeScan parse s2 addr cell env2).crashed := by
  cases hpc : cell.pc <;>
    simp only [executeScan, hpc, stage, checkpoint, checkCancelled, retire,
      Service.setCell] <;>
    (try split) <;> simp [hnow, hreg, hcr, hx1, hx2] <;>
    (try split) <;> simp_all

theorem step_sameScans (parse : UrlParse) (s1 s2 : Service) (act1 act2 : Action)
    (hs : s1.SameScans s2) (hact : act1.core = act2.core)
    (hrec : act1.recoverable = true) :
    (step parse s1 act1).SameScans (step parse s2 act2) := by
  obtain ⟨hh, hreg, hcr⟩ := hs
  cases hc1 : s1.crashed with
  | true =>
    have hc2 : s2.crashed = true := by rw [← hcr]; exact hc1
    rw [step_of_crashed parse s1 act1 hc1, step_of_crashed parse s2 act2 hc2]
    exact ⟨hh, hreg, hcr⟩
  | false =>
    have hc2 : s2.crashed = false := by rw [← hcr]; exact hc1
    cases act1 with
    | startScan uuid started startTime targetURL config =>
      cases act2 <;> simp only [Action.core, reduceCtorEq] at hact
      obtain ⟨rfl, rfl, rfl, rfl, rfl⟩ := hact
      rw [step_startScan parse s1 _ _ _ _ _ hc1, step_startScan parse s2 _ _ _ _ _ hc2]
      unfold StartScan
      cases parse targetURL with
      | none => exact ⟨hh, hreg, hcr⟩
      | some u => exact ⟨by simp only [hh], by simp only [hh, hreg], hcr⟩
    | getStatus scanID =>
      cases act2 <;> simp only [Action.core, reduceCtorEq] at hact
      rw [step_getStatus, step_getStatus]
      exact ⟨hh, hreg, hcr⟩
    | cancelScan scanID =>
      cases act2 <;> simp only [Action.core, reduceCtorEq] at hact
      obtain rfl := Action.cancelScan.inj hact
      rw [step_cancelScan parse s1 _ hc1, step_cancelScan parse s2 _ hc2]
      cases hr : s1.activeScans scanID with
      | none =>
        have hr2 : s2.activeScans scanID = none := by rw [← hreg]; exact hr
        simp only [CancelScan, hr, hr2]
        exact ⟨hh, hreg, hcr⟩
      | some addr =>
        have hr2 : s2.activeScans scanID = some addr := by rw [← hreg]; exact hr
        cases hcell : s1.heap[addr]? with
        | none =>
          have hcell2 : s2.heap[addr]? = none := by rw [← hh]; exact hcell
          simp only [CancelScan, hr, hr2, hcell, hcell2]
          exact ⟨hh, hreg, hcr⟩
        | some cell =>
          have hcell2 : s2.heap[addr]? = some cell := by rw [← hh]; exact hcell
          simp only [CancelScan, hr, hr2, hcell, hcell2, Service.setCell]
          exact ⟨by simp only [hh], hreg, hcr⟩
    | run addr env1 =>
      cases act2 <;> simp only [Action.core, reduceCtorEq] at hact
      rename_i addr2 env2
      obtain ⟨rfl, henv⟩ := Action.run.inj hact
      have hnow : env1.now = env2.now := by
        have h := congrArg Env.now henv
        exact h
      have hresp : env1.response = env2.response := by
        have h := congrArg Env.response henv
        exact h
      have hx1 : env1.sinkExits = false := by
        simpa [Action.recoverable] using hrec
      have hx2 : env2.sinkExits = false := by
        have h := congrArg Env.sinkExits henv
        rw [← hx1]
        exact h.symm
      cases hcell : s1.heap[addr]? with
      | none =>
        have hcell2 : s2.heap[addr]? = none := by rw [← hh]; exact hcell
        rw [step_run_none parse s1 addr env1 hcell, step_run_none parse s2 addr env2 hcell2]
        exact ⟨hh, hreg, hcr⟩
      | some cell =>
        have hcell2 : s2.heap[addr]? = some cell := by rw [← hh]; exact hcell
        rw [step_run_some parse s1 addr env1 cell hc1 hcell,
          step_run_some parse s2 addr env2 cell hc2 hcell2]
        have hrc := executeScan_registry_congr parse s1 s2 addr cell env1 env2 hnow hreg hcr
          hx1 hx2
        refine ⟨?_, hrc.1, hrc.2⟩
        rw [executeScan_heap parse s1 addr cell env1 hcell,
          executeScan_heap parse s2 addr cell env2 hcell2, hh,
          cellAfter_congr parse s1 s2 cell env1 env2 hnow hresp]

theorem exec_sameScans (parse : UrlParse) (schedule1 : List Action) :
    (∀ act ∈ schedule1, Action.recoverable act = true) →
    ∀ (schedule2 : List Action) (s1 s2 : Service), s1.SameScans s2 →
      schedule1.map Action.core = schedule2.map Action.core →
      (exec parse s1 schedule1).SameScans (exec parse s2 schedule2) := by
  induction schedule1 with
  | nil =>
    intro _ schedule2 s1 s2 hs h
    cases schedule2 with
    | nil => exact hs
    | cons _ _ => simp at h
  | cons act1 rest1 ih =>
    intro hrec schedule2 s1 s2 hs h
    cases schedule2 with
    | nil => simp at h
    | cons act2 rest2 =>
      simp only [List.map_cons, List.cons.injEq] at h
      exact ih (fun act hact => hrec act (List.mem_cons_of_mem _ hact)) rest2 _ _
        (step_sameScans parse s1 s2 act1 act2 hs h.1 (hrec act1 (List.mem_cons_self _ _))) h.2

theorem GetStatus_sameScans (s1 s2 : Service) (hs : s1.SameScans s2) (scanID : String) :
    (GetStatus s1 scanID).1 = (GetStatus s2 scanID).1 := by
  obtain ⟨hh, hreg, -⟩ := hs
  cases hr : s2.activeScans scanID with
  | none =>
    have h1 : s1.activeScans scanID = none := by rw [hreg]; exact hr
    simp only [GetStatus, hr, h1]
  | some addr =>
    have h1 : s1.activeScans scanID = some addr := by rw [hreg]; exact hr
    cases hcell : s2.heap[addr]? with
    | none =>
      have h2 : s1.heap[addr]? = none := by rw [hh]; exact hcell
      simp only [GetStatus, hr, h1, hcell, h2]
    | some cell =>
      have h2 : s1.heap[addr]? = some cell := by rw [hh]; exact hcell
      simp only [GetStatus, hr, h1, hcell, h2]

/-- Errors of the storage port and recovered panics of the event sink do not reach a scan.
Take two services that hold the same scans, with or without a storage port and with events
enabled or disabled, and run on them two schedules that differ only in the errors the storage
port returns and in whether the emissions panic, no emission ending the process: afterwards
the two services still hold the same scans (every progress snapshot, accumulator, status and
program counter, the registry, and whether the process has ended), and `GetStatus` answers
alike. In particular `updateProgress` leaves the same instance whatever the two answer. -/
theorem recovered_failures_do_not_interfere (parse : UrlParse) (s1 s2 : Service)
    (schedule1 schedule2 : List Action) (hs : s1.SameScans s2)
    (hsch : schedule1.map Action.core = schedule2.map Action.core)
    (hrec : ∀ act ∈ schedule1, Action.recoverable act = true) :
    (exec parse s1 schedule1).heap = (exec parse s2 schedule2).heap
      ∧ (exec parse s1 schedule1).activeScans = (exec parse s2 schedule2).activeScans
      ∧ (exec parse s1 schedule1).crashed = (exec parse s2 schedule2).crashed
      ∧ (∀ scanID : String,
          (GetStatus (exec parse s1 schedule1) scanID).1
            = (GetStatus (exec parse s2 schedule2) scanID).1)
      ∧ (∀ (scan : ScanInstance) (p : ℚ) (stage : String) (env1 env2 : Env),
          env1.core = env2.core → env1.sinkExits = false →
          (updateProgress s1 scan p stage env1).1 = (updateProgress s2 scan p stage env2).1
            ∧ (updateProgress s1 scan p stage env1).2.SameScans s1) := by
  have h := exec_sameScans parse schedule1 hrec schedule2 s1 s2 hs hsch
  refine ⟨h.1, h.2.1, h.2.2, GetStatus_sameScans _ _ h, ?_⟩
  intro scan p stage env1 env2 henv hx
  have hnow : env1.now = env2.now := by
    have h := congrArg Env.now henv
    exact h
  refine ⟨by simp only [updateProgress_fst, hnow], ?_, ?_, ?_⟩ <;> simp [hx]

theorem recovered_failures_do_not_interfere_example :
    (NewService true).SameScans (NewServiceWithoutEvents false)
      ∧ failingCollaborators.map Action.core = workingCollaborators.map Action.core
      ∧ (exec exampleParse (NewService true) failingCollaborators).heap
          = (exec exampleParse (NewServiceWithoutEvents false) workingCollaborators).heap
      ∧ (exec exampleParse (NewService true) failingCollaborators).crashed
          = (exec exampleParse (NewServiceWithoutEvents false) workingCollaborators).crashed :=
  have h := recovered_failures_do_not_interfere exampleParse (NewService true)
    (NewServiceWithoutEvents false) failingCollaborators workingCollaborators
    ⟨rfl, rfl, rfl⟩ (by rfl) (by decide)
  ⟨⟨rfl, rfl, rfl⟩, by rfl, h.1, h.2.2.1⟩

/-- C18, at the failing input. An emission that ends the process is not swallowed:
`runtime.EventsEmit` on a context that is not the context of a Wails application logs a fatal
error and exits, which the deferred `recover()` of lines 465-469 cannot catch. For every
service with events enabled such an emission inside `updateProgress` ends the process. In
the run of `NewService(context.Background(), nil).StartScan("https://example.org", nil)` the
process ends at the first checkpoint: the instance still says "running" at the stage
"Initial reconnaissance", nothing is attached, the identifier stays registered and the sink
has received nothing, whereas the same scan completes and is retired when the emission
panics (the panic is recovered) and when the service is built without events. -/
theorem sink_exit_ends_the_process :
    (∀ (s : Service) (scan : ScanInstance) (p : ℚ) (stage : String) (env : Env),
        s.disableEvents = false → env.sinkExits = true →
        (updateProgress s scan p stage env).2.crashed = true)
      ∧ sinkExitRun.crashed = true
      ∧ (sinkExitRun.heap[0]?).map
            (fun c => (c.scan.Status, c.scan.Progress.CurrentStage, c.scan.Result.isSome,
              c.result.Status))
          = some ("running", "Initial reconnaissance", false, "running")
      ∧ sinkExitRun.activeScans "scan-1" = some 0
      ∧ sinkExitRun.eventLog = []
      ∧ sinkPanicRun.crashed = false
      ∧ (sinkPanicRun.heap[0]?).map (fun c => (c.scan.Status, c.pc, c.result.Status))
          = some ("completed", PC.done, "completed")
      ∧ sinkPanicRun.activeScans "scan-1" = none
      ∧ eventsDisabledRun.crashed = false
      ∧ (eventsDisabledRun.heap[0]?).map (fun c => (c.scan.Status, c.pc, c.result.Status))
          = some ("completed", PC.done, "completed") := by
  refine ⟨?_, by rfl, by rfl, by rfl, by rfl, by rfl, by rfl, by rfl, by rfl, by rfl⟩
  intro s scan p stage env hd hx
  simp [hd, hx]

/-! ### Storage manager -/

theorem scanKey_injective (a b : String) (h : "scan_" ++ a = "scan_" ++ b) : a = b := by
  have h1 := congrArg String.data h
  simp only [String.data_append] at h1
  exact String.ext (List.append_cancel_left h1)

theorem lookup_dbPut_self (db : List (String × Json)) (key : String) (value : Json) :
    (dbPut db key value).lookup key = some value := by
  induction db with
  | nil => simp [dbPut, List.lookup]
  | cons e rest ih =>
    obtain ⟨k, v⟩ := e
    simp only [dbPut]
    split_ifs with h1 h2
    · simp [List.lookup]
    · simp [List.lookup]
    · have hne : (key == k) = false := by simpa using h1
      simp [List.lookup, hne, ih]

theorem lookup_dbPut_ne (db : List (String × Json)) (key other : String) (value : Json)
    (h : other ≠ key) : (dbPut db key value).lookup other = db.lookup other := by
  have hne : (other == key) = false := by simpa using h
  induction db with
  | nil => simp [dbPut, List.lookup, hne]
  | cons e rest ih =>
    obtain ⟨k, v⟩ := e
    simp only [dbPut]
    split_ifs with h1 h2
    · subst h1
      simp [List.lookup, hne]
    · simp [List.lookup, hne]
    · cases hk : (other == k) <;> simp [List.lookup, hk, ih]

/-- C20, evaluated on the code. Saving a result map always round-trips through
`GetScanResult` and leaves the results under other identifiers alone. But `GetAllScans`
asserts without a check that the timestamp of every scan it compares is a string: after a
result map without a timestamp has been saved into a store that already holds a scan, the
save succeeds, `GetScanResult` returns the map, and `GetAllScans` panics instead of
returning a non-empty list; with a timestamp in the map it returns both scans. -/
theorem GetAllScans_panics_without_timestamp :
    (Manager.SaveScanResult exampleMarshal oneStored none "scan-b" untimedResult).1 = none
      ∧ (Manager.SaveScanResult exampleMarshal oneStored none "scan-b"
            untimedResult).2.GetScanResult "scan-b" = some untimedResult
      ∧ (Manager.SaveScanResult exampleMarshal oneStored none "scan-b"
            untimedResult).2.GetScanResult "test-scan-123"
          = oneStored.GetScanResult "test-scan-123"
      ∧ (Manager.GetAllScans exampleTime oneStored).map (fun scans => scans.length) = some 1
      ∧ Manager.GetAllScans exampleTime
          (Manager.SaveScanResult exampleMarshal oneStored none "scan-b" untimedResult).2
          = none
      ∧ (Manager.GetAllScans exampleTime
          (Manager.SaveScanResult exampleMarshal oneStored none "scan-b"
            (("timestamp", Json.str "2024-05-02T08:30:00Z") :: untimedResult)).2).map
          (fun scans => scans.length) = some 2
      ∧ (∀ (m : Manager) (scanID other : String) (fields : List (String × Json)),
          other ≠ scanID →
          (Manager.SaveScanResult exampleMarshal m none scanID fields).1 = none
            ∧ (Manager.SaveScanResult exampleMarshal m none scanID fields).2.GetScanResult scanID
                = some fields
            ∧ (Manager.SaveScanResult exampleMarshal m none scanID fields).2.GetScanResult other
                = m.GetScanResult other) := by
  refine ⟨by rfl, by rfl, by rfl, by rfl, by rfl, by rfl, ?_⟩
  intro m scanID other fields hne
  have hkey : "scan_" ++ other ≠ "scan_" ++ scanID := fun h => hne (scanKey_injective _ _ h)
  refine ⟨rfl, ?_, ?_⟩
  · simp [Manager.SaveScanResult, exampleMarshal, Manager.GetScanResult, lookup_dbPut_self,
      decodeMap]
  · simp [Manager.SaveScanResult, exampleMarshal, Manager.GetScanResult,
      lookup_dbPut_ne _ _ _ _ hkey]

/-! ### The arithmetic of a progress update -/

theorem truncate_of_nonneg (q : ℚ) (h : 0 ≤ q) : truncate q = ⌊q⌋ := by
  simp [truncate, h]

theorem truncate_mono {q r : ℚ} (h : q ≤ r) : truncate q ≤ truncate r := by
  unfold truncate
  split_ifs with h1 h2 h2
  · exact Int.floor_mono h
  · exact absurd (le_trans h1 h) h2
  · have h3 : ⌈q⌉ ≤ 0 := Int.ceil_le.mpr (by push_cast; exact le_of_lt (not_le.mp h1))
    have h4 : 0 ≤ ⌊r⌋ := Int.floor_nonneg.mpr h2
    omega
  · exact Int.ceil_mono h

theorem updateProgress_TasksCompleted (s : Service) (scan : ScanInstance) (p : ℚ) (st : String)
    (env : Env) :
    (updateProgress s scan p st env).1.Progress.TasksCompleted
      = truncate (p / 100 * (scan.Progress.TotalTasks : ℚ)) := by
  simp only [updateProgress]; split_ifs <;> rfl

theorem updateProgress_ETA (s : Service) (scan : ScanInstance) (p : ℚ) (st : String)
    (env : Env) (hp : 0 < p) :
    (updateProgress s scan p st env).1.Progress.ETA
      = truncate (seconds (wrapInt64
          (wrapInt64 ((env.now - scan.Progress.StartTime) * toInt64 (100 / p))
            - (env.now - scan.Progress.StartTime)))) := by
  simp only [updateProgress, gt_iff_lt, hp, if_true]

/-- A result inside the range of int64 is held as it is. -/
theorem wrapInt64_of_fits (n : Int) (h0 : -9223372036854775808 ≤ n)
    (h1 : n ≤ 9223372036854775807) : wrapInt64 n = n := by
  unfold wrapInt64
  rw [Int.emod_eq_of_lt (by omega) (by omega)]
  omega

theorem updateProgress_ETA_of_not_pos (s : Service) (scan : ScanInstance) (p : ℚ) (st : String)
    (env : Env) (hp : ¬ 0 < p) :
    (updateProgress s scan p st env).1.Progress.ETA = scan.Progress.ETA := by
  simp only [updateProgress, gt_iff_lt, hp, if_false]

/-- Whole seconds of a non-negative duration: the quotient by a second. -/
theorem truncate_seconds (d : Time) (h : 0 ≤ d) : truncate (seconds d) = d / 1000000000 := by
  have h0 : (0 : ℚ) ≤ seconds d := by
    unfold seconds
    have : (0 : ℚ) ≤ (d : ℚ) := by exact_mod_cast h
    positivity
  rw [truncate_of_nonneg _ h0]
  unfold seconds
  have := Rat.floor_intCast_div_natCast d 1000000000
  simpa using this

theorem tasks_bounds (p : ℚ) (n : Int) (hp0 : 0 ≤ p) (hp1 : p ≤ 100) (hn : 0 ≤ n) :
    0 ≤ truncate (p / 100 * (n : ℚ)) ∧ truncate (p / 100 * (n : ℚ)) ≤ n := by
  have hn' : (0 : ℚ) ≤ (n : ℚ) := by exact_mod_cast hn
  have h0 : (0 : ℚ) ≤ p / 100 * (n : ℚ) := by positivity
  have h1 : p / 100 * (n : ℚ) ≤ (n : ℚ) := by
    have : p / 100 ≤ 1 := by linarith
    calc p / 100 * (n : ℚ) ≤ 1 * (n : ℚ) := mul_le_mul_of_nonneg_right this hn'
      _ = (n : ℚ) := one_mul _
  rw [truncate_of_nonneg _ h0]
  refine ⟨Int.floor_nonneg.mpr h0, ?_⟩
  have := Int.floor_mono h1
  simpa using this

theorem tasks_eq_total_iff (p : ℚ) (n : Int) (hp1 : p ≤ 100) (hn : 0 < n) :
    truncate (p / 100 * (n : ℚ)) = n ↔ p = 100 := by
  have hn' : (0 : ℚ) < (n : ℚ) := by exact_mod_cast hn
  constructor
  · intro h
    by_contra hne
    have hlt : p < 100 := lt_of_le_of_ne hp1 hne
    have hx : p / 100 * (n : ℚ) < (n : ℚ) := by
      have : p / 100 < 1 := by linarith
      calc p / 100 * (n : ℚ) < 1 * (n : ℚ) := mul_lt_mul_of_pos_right this hn'
        _ = (n : ℚ) := one_mul _
    by_cases h0 : 0 ≤ p / 100 * (n : ℚ)
    · rw [truncate_of_nonneg _ h0] at h
      have := Int.floor_le (p / 100 * (n : ℚ))
      rw [h] at this
      exact absurd this (not_le.mpr hx)
    · have hneg : truncate (p / 100 * (n : ℚ)) ≤ truncate 0 := truncate_mono (le_of_lt (not_le.mp h0))
      rw [h] at hneg
      simp [truncate] at hneg
      omega
  · intro h
    subst h
    have : (100 : ℚ) / 100 * (n : ℚ) = ((n : Int) : ℚ) := by norm_num
    rw [this, truncate_of_nonneg _ (le_of_lt hn')]
    exact Int.floor_intCast n

/-- C24, as the code behaves: at 60% of 8 tasks the conversion `int(...)` of line 444 drops
the fraction of 4.8 and stores 4, while the nearest integer is 5. -/
theorem tasksCompleted_not_rounded :
    (updateProgress (NewService true) (exampleScan 8) 60 "Scanning for vulnerabilities"
        tenSeconds).1.Progress.TasksCompleted = 4
      ∧ round ((60 : ℚ) / 100 * ((8 : Int) : ℚ)) = 5
      ∧ (updateProgress (NewService true) (exampleScan 8) 60 "Scanning for vulnerabilities"
          tenSeconds).1.Progress.TasksCompleted
          ≠ round ((60 : ℚ) / 100 * ((8 : Int) : ℚ)) := by
  have h1 : (updateProgress (NewService true) (exampleScan 8) 60 "Scanning for vulnerabilities"
      tenSeconds).1.Progress.TasksCompleted = 4 := by
    rw [updateProgress_TasksCompleted]
    simp only [exampleScan, truncate]
    norm_num
  have h2 : round ((60 : ℚ) / 100 * ((8 : Int) : ℚ)) = 5 := by
    rw [round_eq]; norm_num
  refine ⟨h1, h2, ?_⟩
  rw [h1, h2]
  decide

/-- C24, amended. `updateProgress` sets the completed-task count to the product
percentage/100 * total with its fraction dropped, not rounded to the nearest integer. At the
six checkpoints of the pipeline (10, 25, 40, 60, 80, 100) and for the two totals a started
scan can have (5 and 8) that is the greatest integer not above p*n/100: the counts are
0, 2, 3, 4, 6, 8 for a total of 8 and 0, 1, 2, 3, 4, 5 for a total of 5; so p = 60 with
n = 8 gives 4 and p = 80 with n = 5 gives 4. -/
theorem tasksCompleted_truncates (s : Service) (scan : ScanInstance) (p : ℚ) (st : String)
    (env : Env) (hp : p = 10 ∨ p = 25 ∨ p = 40 ∨ p = 60 ∨ p = 80 ∨ p = 100)
    (hn : scan.Progress.TotalTasks = 5 ∨ scan.Progress.TotalTasks = 8) :
    (updateProgress s scan p st env).1.Progress.TasksCompleted
        = ⌊p * (scan.Progress.TotalTasks : ℚ) / 100⌋
      ∧ ((updateProgress s scan p st env).1.Progress.TasksCompleted : ℚ)
          ≤ p * (scan.Progress.TotalTasks : ℚ) / 100
      ∧ p * (scan.Progress.TotalTasks : ℚ) / 100
          < ((updateProgress s scan p st env).1.Progress.TasksCompleted : ℚ) + 1
      ∧ (scan.Progress.TotalTasks = 8 →
          (updateProgress s scan p st env).1.Progress.TasksCompleted
            = if p = 10 then 0 else if p = 25 then 2 else if p = 40 then 3
              else if p = 60 then 4 else if p = 80 then 6 else 8)
      ∧ (scan.Progress.TotalTasks = 5 →
          (updateProgress s scan p st env).1.Progress.TasksCompleted
            = if p = 10 then 0 else if p = 25 then 1 else if p = 40 then 2
              else if p = 60 then 3 else if p = 80 then 4 else 5)
      ∧ (p = 60 → scan.Progress.TotalTasks = 8 →
          (updateProgress s scan p st env).1.Progress.TasksCompleted = 4)
      ∧ (p = 80 → scan.Progress.TotalTasks = 5 →
          (updateProgress s scan p st env).1.Progress.TasksCompleted = 4) := by
  rw [updateProgress_TasksCompleted]
  have hx : p / 100 * (scan.Progress.TotalTasks : ℚ) = p * (scan.Progress.TotalTasks : ℚ) / 100 := by
    ring
  rw [hx]
  have hp0 : 0 ≤ p := by
    rcases hp with h | h | h | h | h | h <;> rw [h] <;> norm_num
  have hn' : (0 : ℚ) ≤ (scan.Progress.TotalTasks : ℚ) := by
    rcases hn with h | h <;> rw [h] <;> norm_num
  have h0 : (0 : ℚ) ≤ p * (scan.Progress.TotalTasks : ℚ) / 100 := by positivity
  rw [truncate_of_nonneg _ h0]
  refine ⟨rfl, Int.floor_le _, Int.lt_floor_add_one _, ?_, ?_, ?_, ?_⟩
  · intro h8
    rw [h8]
    rcases hp with h | h | h | h | h | h <;> subst h <;> norm_num
  · intro h5
    rw [h5]
    rcases hp with h | h | h | h | h | h <;> subst h <;> norm_num
  · intro h60 h8
    rw [h60, h8]
    norm_num
  · intro h80 h5
    rw [h80, h5]
    norm_num

theorem tasksCompleted_truncates_witness :
    ((60 : ℚ) = 10 ∨ (60 : ℚ) = 25 ∨ (60 : ℚ) = 40 ∨ (60 : ℚ) = 60 ∨ (60 : ℚ) = 80
        ∨ (60 : ℚ) = 100)
      ∧ ((exampleScan 8).Progress.TotalTasks = 5 ∨ (exampleScan 8).Progress.TotalTasks = 8)
      ∧ (updateProgress (NewService true) (exampleScan 8) 60 "Scanning for vulnerabilities"
          tenSeconds).1.Progress.TasksCompleted = 4 :=
  ⟨by norm_num, Or.inr rfl,
    (tasksCompleted_truncates (NewService true) (exampleScan 8) 60
      "Scanning for vulnerabilities" tenSeconds (by norm_num) (Or.inr rfl)).2.2.2.2.2.1
        rfl rfl⟩

/-- C25, at the failing input: ten seconds after the start of the progress clock, the update
to 40% stores an ETA of 10 s where elapsed * (100/40 - 1) is 15 s, and the update to 80%
stores 0 s where elapsed * (100/80 - 1) is 2.5 s: line 449 converts the ratio 100/percentage
to an integer `time.Duration` (2 and 1) before it multiplies. At percentage 0 the ETA is left
as it was. -/
theorem eta_ratio_truncated :
    (updateProgress (NewService true) (exampleScan 8) 40 "Analyzing SSL/TLS"
        tenSeconds).1.Progress.ETA = 10
      ∧ truncate (seconds (tenSeconds.now - (exampleScan 8).Progress.StartTime)
          * (100 / 40 - 1)) = 15
      ∧ (updateProgress (NewService true) (exampleScan 8) 80 "Calculating security score"
          tenSeconds).1.Progress.ETA = 0
      ∧ truncate (seconds (tenSeconds.now - (exampleScan 8).Progress.StartTime)
          * (100 / 80 - 1)) = 2
      ∧ (updateProgress (NewService true) (exampleScan 8) 0 "Initializing"
          tenSeconds).1.Progress.ETA = 0 := by
  have h40 : toInt64 ((100 : ℚ) / 40) = 2 := by
    simp only [toInt64, truncate]; norm_num
  have h80 : toInt64 ((100 : ℚ) / 80) = 1 := by
    simp only [toInt64, truncate]; norm_num
  refine ⟨?_, ?_, ?_, ?_, ?_⟩
  · rw [updateProgress_ETA _ _ _ _ _ (by norm_num), h40]
    simp only [exampleScan, tenSeconds, wrapInt64, truncate, seconds]
    norm_num
  · simp only [exampleScan, tenSeconds, truncate, seconds]
    norm_num
  · rw [updateProgress_ETA _ _ _ _ _ (by norm_num), h80]
    simp only [exampleScan, tenSeconds, wrapInt64, truncate, seconds]
    norm_num
  · simp only [exampleScan, tenSeconds, truncate, seconds]
    norm_num
  · rw [updateProgress_ETA_of_not_pos _ _ _ _ _ (by norm_num)]
    rfl

theorem truncate_ratio_pos (p : ℚ) (hp0 : 0 < p) (hp1 : p ≤ 100) :
    truncate (100 / p) = ⌊100 / p⌋ ∧ 1 ≤ ⌊100 / p⌋ := by
  have h1 : (1 : ℚ) ≤ 100 / p := by
    rw [le_div_iff₀ hp0]; linarith
  refine ⟨truncate_of_nonneg _ (by linarith), ?_⟩
  exact Int.le_floor.mpr (by exact_mod_cast h1)

/-- Lines 449-450 on an elapsed time e whose product with the ratio 100/percentage is far
inside the range of int64: no conversion saturates and no product wraps. -/
theorem eta_core (e : Int) (p : ℚ) (hp0 : 0 < p) (hp1 : p ≤ 100) (he : 0 ≤ e)
    (hfit : (e : ℚ) * (100 / p) < 9007199254740992) :
    truncate (seconds (wrapInt64 (wrapInt64 (e * toInt64 (100 / p)) - e)))
        = (e * (⌊100 / p⌋ - 1)) / 1000000000
      ∧ 0 ≤ e * (⌊100 / p⌋ - 1) := by
  obtain ⟨hk, hk1⟩ := truncate_ratio_pos p hp0 hp1
  have hd : 0 ≤ e * (⌊100 / p⌋ - 1) := mul_nonneg he (sub_nonneg.mpr hk1)
  refine ⟨?_, hd⟩
  rcases he.eq_or_lt with h0 | hpos
  · subst h0
    simp [wrapInt64, truncate, seconds]
  · have he1 : (1 : ℚ) ≤ (e : ℚ) := by exact_mod_cast hpos
    have hr0 : (0 : ℚ) < 100 / p := by positivity
    have hfloor : ((⌊100 / p⌋ : Int) : ℚ) ≤ 100 / p := Int.floor_le _
    have hprod : ((e * ⌊100 / p⌋ : Int) : ℚ) < 9007199254740992 := by
      push_cast
      calc (e : ℚ) * (⌊100 / p⌋ : ℚ) ≤ (e : ℚ) * (100 / p) :=
            mul_le_mul_of_nonneg_left hfloor (by linarith)
        _ < 9007199254740992 := hfit
    have hprod' : e * ⌊100 / p⌋ < 9007199254740992 := by exact_mod_cast hprod
    have hkq : ((⌊100 / p⌋ : Int) : ℚ) < 9007199254740992 := by
      calc ((⌊100 / p⌋ : Int) : ℚ) ≤ 100 / p := hfloor
        _ = 1 * (100 / p) := (one_mul _).symm
        _ ≤ (e : ℚ) * (100 / p) := mul_le_mul_of_nonneg_right he1 (le_of_lt hr0)
        _ < 9007199254740992 := hfit
    have hk2 : ⌊100 / p⌋ < 9007199254740992 := by exact_mod_cast hkq
    have hto : toInt64 (100 / p) = ⌊100 / p⌋ := by
      unfold toInt64
      rw [hk]
      exact if_pos ⟨by omega, by omega⟩
    have hk0 : (0 : Int) ≤ ⌊100 / p⌋ := by omega
    have hmul0 : 0 ≤ e * ⌊100 / p⌋ := mul_nonneg he hk0
    have hle : e ≤ e * ⌊100 / p⌋ := by nlinarith
    have hw1 : wrapInt64 (e * ⌊100 / p⌋) = e * ⌊100 / p⌋ :=
      wrapInt64_of_fits (e * ⌊100 / p⌋) (by omega) (by omega)
    have hw2 : wrapInt64 (e * ⌊100 / p⌋ - e) = e * ⌊100 / p⌋ - e :=
      wrapInt64_of_fits (e * ⌊100 / p⌋ - e) (by omega) (by omega)
    rw [hto, hw1, hw2]
    have : e * ⌊100 / p⌋ - e = e * (⌊100 / p⌋ - 1) := by ring
    rw [this, truncate_seconds _ hd]

/-- The ETA of an update whose product elapsed * (100/percentage) is far inside the range of
int64: the whole seconds of elapsed times the integer part of the ratio less one. -/
theorem eta_of_fits (s : Service) (scan : ScanInstance) (p : ℚ) (st : String) (env : Env)
    (hp0 : 0 < p) (hp1 : p ≤ 100) (hnow : scan.Progress.StartTime ≤ env.now)
    (hfit : ((env.now - scan.Progress.StartTime : Int) : ℚ) * (100 / p)
      < 9007199254740992) :
    (updateProgress s scan p st env).1.Progress.ETA
        = ((env.now - scan.Progress.StartTime) * (⌊100 / p⌋ - 1)) / 1000000000
      ∧ 0 ≤ (env.now - scan.Progress.StartTime) * (⌊100 / p⌋ - 1) := by
  rw [updateProgress_ETA s scan p st env hp0]
  exact eta_core (env.now - scan.Progress.StartTime) p hp0 hp1 (sub_nonneg.mpr hnow) hfit

/-- C29, as the code behaves: at the percentage 2^-24, ten seconds after the start of the
progress clock, the ratio 100/percentage is 1677721600, the product of line 449 leaves the
range of int64 and wraps around, and the ETA that is stored is negative. -/
theorem eta_wraps_negative :
    (0 : ℚ) < 1 / 16777216
      ∧ (1 / 16777216 : ℚ) ≤ 100
      ∧ (exampleScan 8).Progress.StartTime ≤ tenSeconds.now
      ∧ (updateProgress (NewService true) (exampleScan 8) (1 / 16777216) "Initializing"
          tenSeconds).1.Progress.ETA = -1669528083
      ∧ ¬ (0 ≤ (updateProgress (NewService true) (exampleScan 8) (1 / 16777216) "Initializing"
          tenSeconds).1.Progress.ETA) := by
  have hk : toInt64 ((100 : ℚ) / (1 / 16777216)) = 1677721600 := by
    simp only [toInt64, truncate]; norm_num
  have h : (updateProgress (NewService true) (exampleScan 8) (1 / 16777216) "Initializing"
      tenSeconds).1.Progress.ETA = -1669528083 := by
    rw [updateProgress_ETA _ _ _ _ _ (by norm_num), hk]
    simp only [exampleScan, tenSeconds, wrapInt64, truncate, seconds]
    norm_num
    rw [Int.ceil_eq_iff]
    norm_num
  refine ⟨by norm_num, by norm_num, by decide, h, ?_⟩
  rw [h]
  decide

/-- C29, amended. For every percentage p with 0 < p ≤ 100 and every clock reading not before
the start of the progress clock for which the product elapsed * (100/p) stays below 2^53
nanoseconds (about 104 days: line 449 then stays inside the range of int64 and the seconds
of line 450 are exact), the ETA that `updateProgress` stores is non-negative, and 0 at
p = 100. At the checkpoints of the pipeline it is the whole seconds of
elapsed * (⌊100/p⌋ - 1), the factor being 9, 3, 1, 0, 0, 0 at 10, 25, 40, 60, 80, 100. -/
theorem eta_nonneg (s : Service) (scan : ScanInstance) (p : ℚ) (st : String) (env : Env)
    (hp0 : 0 < p) (hp1 : p ≤ 100) (hnow : scan.Progress.StartTime ≤ env.now)
    (hfit : ((env.now - scan.Progress.StartTime : Int) : ℚ) * (100 / p)
      < 9007199254740992) :
    0 ≤ (updateProgress s scan p st env).1.Progress.ETA
      ∧ (p = 100 → (updateProgress s scan p st env).1.Progress.ETA = 0)
      ∧ (p = 10 → (updateProgress s scan p st env).1.Progress.ETA
          = ((env.now - scan.Progress.StartTime) * 9) / 1000000000)
      ∧ (p = 25 → (updateProgress s scan p st env).1.Progress.ETA
          = ((env.now - scan.Progress.StartTime) * 3) / 1000000000)
      ∧ (p = 40 → (updateProgress s scan p st env).1.Progress.ETA
          = (env.now - scan.Progress.StartTime) / 1000000000)
      ∧ (p = 60 → (updateProgress s scan p st env).1.Progress.ETA = 0)
      ∧ (p = 80 → (updateProgress s scan p st env).1.Progress.ETA = 0) := by
  obtain ⟨key, hd⟩ := eta_of_fits s scan p st env hp0 hp1 hnow hfit
  rw [key]
  refine ⟨Int.ediv_nonneg hd (by norm_num), ?_, ?_, ?_, ?_, ?_, ?_⟩
  · intro h; subst h; norm_num
  · intro h; subst h; norm_num
  · intro h; subst h; norm_num
  · intro h; subst h; norm_num
  · intro h; subst h; norm_num
  · intro h; subst h; norm_num

theorem eta_nonneg_witness :
    (0 : ℚ) < 40 ∧ (40 : ℚ) ≤ 100 ∧ (exampleScan 8).Progress.StartTime ≤ tenSeconds.now
      ∧ ((tenSeconds.now - (exampleScan 8).Progress.StartTime : Int) : ℚ) * (100 / 40)
          < 9007199254740992
      ∧ (updateProgress (NewService true) (exampleScan 8) 40 "Analyzing SSL/TLS"
          tenSeconds).1.Progress.ETA
          = (tenSeconds.now - (exampleScan 8).Progress.StartTime) / 1000000000
      ∧ 0 ≤ (updateProgress (NewService true) (exampleScan 8) 40 "Analyzing SSL/TLS"
          tenSeconds).1.Progress.ETA :=
  have hfit : ((tenSeconds.now - (exampleScan 8).Progress.StartTime : Int) : ℚ) * (100 / 40)
      < 9007199254740992 := by
    simp only [exampleScan, tenSeconds]; norm_num
  have h := eta_nonneg (NewService true) (exampleScan 8) 40 "Analyzing SSL/TLS" tenSeconds
    (by norm_num) (by norm_num) (by decide) hfit
  ⟨by norm_num, by norm_num, by decide, hfit, h.2.2.2.2.1 rfl, h.1⟩

/-! ### The task total of a scan -/

theorem totalTasks_of_config (config : ConfigMap) :
    calculateTotalTasks (parseScanConfig config)
      = if config.lookup "vulnerabilityScan" = some (Value.bool false) then 5 else 8 := by
  simp only [calculateTotalTasks, parseScanConfig_VulnerabilityScan,
    parseScanConfig_ComplianceScan, parseScanConfig_PerformanceScan]
  cases h : config.lookup "vulnerabilityScan" with
  | none => simp
  | some v =>
    cases v with
    | bool b => cases b <;> simp
    | str _ => simp
    | float _ => simp
    | int _ => simp
    | null => simp

/-- C28. For every configuration input, the instance that `StartScan` registers counts 8
tasks when the key "vulnerabilityScan" is absent, holds a value that is not a Go bool, or
holds true, and 5 tasks when it holds false; the total is never anything else, and the
compliance and performance toggles of the instance are false. -/
theorem StartScan_total_tasks (parse : UrlParse) (s : Service) (uuid : String)
    (started startTime : Time) (targetURL : String) (config : ConfigMap) (u : URL)
    (hu : parse targetURL = some u) :
    ∃ c : Cell,
      (StartScan parse s uuid started startTime targetURL config).2.heap[s.heap.length]? = some c
        ∧ (StartScan parse s uuid started startTime targetURL config).2.activeScans uuid
            = some s.heap.length
        ∧ (config.lookup "vulnerabilityScan" = none → c.scan.Progress.TotalTasks = 8)
        ∧ (∀ v : Value, config.lookup "vulnerabilityScan" = some v →
            (∀ b : Bool, v ≠ Value.bool b) → c.scan.Progress.TotalTasks = 8)
        ∧ (config.lookup "vulnerabilityScan" = some (Value.bool true) →
            c.scan.Progress.TotalTasks = 8)
        ∧ (config.lookup "vulnerabilityScan" = some (Value.bool false) →
            c.scan.Progress.TotalTasks = 5)
        ∧ (c.scan.Progress.TotalTasks = 5 ∨ c.scan.Progress.TotalTasks = 8)
        ∧ c.scan.Progress.TotalTasks ≠ 7 ∧ c.scan.Progress.TotalTasks ≠ 9
        ∧ c.scan.Progress.TotalTasks ≠ 10 ∧ c.scan.Progress.TotalTasks ≠ 12
        ∧ c.scan.Config.ComplianceScan = false
        ∧ c.scan.Config.PerformanceScan = false := by
  have hheap : (StartScan parse s uuid started startTime targetURL config).2.heap[s.heap.length]?
      = some
        { scan :=
            { ID := uuid, URL := u.Rendered, Config := parseScanConfig config,
              Status := "running", Result := none, Started := started,
              Progress :=
                { Percentage := 0, CurrentStage := "Initializing", ETA := 0,
                  TasksCompleted := 0,
                  TotalTasks := calculateTotalTasks (parseScanConfig config),
                  StartTime := startTime, Errors := [], Warnings := [] } },
          cancelled := false, pc := PC.start, result := ScanResult.zero } := by
    simp [StartScan, hu]
  refine ⟨_, hheap, by simp [StartScan, hu, registryInsert], ?_⟩
  simp only [totalTasks_of_config, parseScanConfig_ComplianceScan,
    parseScanConfig_PerformanceScan]
  refine ⟨?_, ?_, ?_, ?_, ?_, ?_, ?_, ?_, ?_, trivial, trivial⟩
  · intro h; simp [h]
  · intro v h hv
    have : v ≠ Value.bool false := hv false
    simp [h, this]
  · intro h; simp [h]
  · intro h; simp [h]
  · split <;> simp
  · split <;> decide
  · split <;> decide
  · split <;> decide
  · split <;> decide

theorem StartScan_total_tasks_witness :
    exampleParse "https://example.org"
        = some { Scheme := "https", Host := "example.org", Rendered := "https://example.org" }
      ∧ ∃ c : Cell,
          (StartScan exampleParse (NewService true) "scan-1" 1000 1001 "https://example.org"
              [("vulnerabilityScan", Value.bool false), ("complianceScan", Value.bool true)]).2.heap[0]?
            = some c
          ∧ c.scan.Progress.TotalTasks = 5
          ∧ c.scan.Config.ComplianceScan = false :=
  have h := StartScan_total_tasks exampleParse (NewService true) "scan-1" 1000 1001
    "https://example.org"
    [("vulnerabilityScan", Value.bool false), ("complianceScan", Value.bool true)]
    { Scheme := "https", Host := "example.org", Rendered := "https://example.org" } (by decide)
  ⟨by decide, h.elim fun c hc =>
    ⟨c, hc.1, hc.2.2.2.2.2.1 (by decide), hc.2.2.2.2.2.2.2.2.2.2.2.1⟩⟩

theorem progressed_TasksCompleted (scan : ScanInstance) (p : ℚ) (st : String) (now : Time) :
    (progressed scan p st now).Progress.TasksCompleted
      = truncate (p / 100 * (scan.Progress.TotalTasks : ℚ)) := by
  simp only [progressed, updateProgress]; split_ifs <;> rfl

theorem progressed_CurrentStage (scan : ScanInstance) (p : ℚ) (st : String) (now : Time) :
    (progressed scan p st now).Progress.CurrentStage = st := by
  simp only [progressed, updateProgress]; split_ifs <;> rfl

theorem cellAfter_TotalTasks (parse : UrlParse) (s : Service) (cell : Cell) (env : Env) :
    (cellAfter parse s cell env).scan.Progress.TotalTasks = cell.scan.Progress.TotalTasks := by
  cases hpc : cell.pc <;>
    simp only [cellAfter, executeScan, hpc, stage, checkpoint, checkCancelled, retire,
      Service.setCell] <;>
    (try split) <;> simp

theorem calculateTotalTasks_pos (config : ScanConfig) : 5 ≤ calculateTotalTasks config := by
  simp only [calculateTotalTasks]
  split_ifs <;> omega

theorem cellAfter_tasksOK (parse : UrlParse) (s : Service) (cell : Cell) (env : Env)
    (h : cell.TasksOK) : (cellAfter parse s cell env).TasksOK := by
  obtain ⟨h1, h2, h3⟩ := h
  cases hpc : cell.pc <;>
    simp only [cellAfter, executeScan, hpc, stage, checkpoint, checkCancelled, retire,
      Service.setCell] <;>
    (try split) <;>
    simp [Cell.TasksOK, progressed_TasksCompleted, progressed_CurrentStage] <;>
    first
      | exact ⟨h1, h2, h3⟩
      | exact h1

theorem fresh_tasksOK (c : Cell) (h : c.Fresh) : c.TasksOK := by
  obtain ⟨-, -, -, -, h5, h6, h7, -⟩ := h
  refine ⟨h6, ?_, ?_⟩
  · rw [h7, h5]; simp [truncate]
  · intro h100; rw [h5] at h100; norm_num at h100

theorem reachable_tasksOK (parse : UrlParse) (s : Service) (hr : Reachable parse s) :
    ∀ (a : Nat) (c : Cell), s.heap[a]? = some c → c.TasksOK :=
  reachable_cells parse Cell.TasksOK fresh_tasksOK (fun _ h => h)
    (fun s c env h => cellAfter_tasksOK parse s c env h) s hr

theorem exec_cell_TotalTasks (parse : UrlParse) (a : Nat) (schedule : List Action) (s : Service)
    (c c1 : Cell) (hc : s.heap[a]? = some c) (h1 : (exec parse s schedule).heap[a]? = some c1) :
    c1.scan.Progress.TotalTasks = c.scan.Progress.TotalTasks := by
  obtain ⟨c3, h3, hq3⟩ := exec_cell parse a
    (fun x => x.scan.Progress.TotalTasks = c.scan.Progress.TotalTasks)
    (fun _ => True) (fun _ h => h)
    (fun s x env _ h => (cellAfter_TotalTasks parse s x env).trans h) schedule
    (fun _ _ => trivial) s c hc rfl
  rw [h1] at h3
  cases h3
  exact hq3

/-- C26. The task total of an instance is fixed when `StartScan` registers it, as
`calculateTotalTasks` of the parsed configuration, and stays what it is: in every reachable
state the total of every instance is `calculateTotalTasks` of its configuration snapshot;
after any schedule (statements of any goroutine with their checkpoints, calls of
`StartScan`, `GetStatus` and `CancelScan`) the instance has the same total and the same
configuration snapshot; and `updateProgress` itself, at any percentage, returns the instance
with both unchanged. -/
theorem total_tasks_fixed (parse : UrlParse) (s : Service) (a : Nat) (c : Cell)
    (schedule : List Action) (hr : Reachable parse s) (hc : s.heap[a]? = some c) :
    c.scan.Progress.TotalTasks = calculateTotalTasks c.scan.Config
      ∧ (∃ c1 : Cell, (exec parse s schedule).heap[a]? = some c1
          ∧ c1.scan.Progress.TotalTasks = c.scan.Progress.TotalTasks
          ∧ c1.scan.Config = c.scan.Config)
      ∧ (∀ (p : ℚ) (st : String) (env : Env),
          (updateProgress s c.scan p st env).1.Progress.TotalTasks = c.scan.Progress.TotalTasks
            ∧ (updateProgress s c.scan p st env).1.Config = c.scan.Config)
      ∧ (∀ (uuid : String) (started startTime : Time) (targetURL : String) (config : ConfigMap),
          (parse targetURL).isSome = true →
          ((StartScan parse s uuid started startTime targetURL config).2.heap[s.heap.length]?).map
              (fun c0 => (c0.scan.Config, c0.scan.Progress.TotalTasks))
            = some (parseScanConfig config, calculateTotalTasks (parseScanConfig config)))
      ∧ (∀ scanID : String, (GetStatus s scanID).2.heap[a]? = some c)
      ∧ (∀ scanID : String,
          ((CancelScan s scanID).2.heap[a]?).map
              (fun c0 => (c0.scan.Config, c0.scan.Progress.TotalTasks))
            = some (c.scan.Config, c.scan.Progress.TotalTasks)) := by
  refine ⟨(reachable_tasksOK parse s hr a c hc).1, ?_, ?_, ?_, ?_, ?_⟩
  · obtain ⟨c1, h1, -⟩ := exec_cell parse a (fun _ => True) (fun _ => True)
      (fun _ _ => trivial) (fun _ _ _ _ _ => trivial) schedule (fun _ _ => trivial) s c hc trivial
    exact ⟨c1, h1, exec_cell_TotalTasks parse a schedule s c c1 hc h1,
      exec_cell_Config parse a schedule s c c1 hc h1⟩
  · intro p st env
    simp
  · intro uuid started startTime targetURL config hp
    obtain ⟨u, hu⟩ := Option.isSome_iff_exists.mp hp
    simp [StartScan, hu]
  · intro scanID
    rw [GetStatus_snd]
    exact hc
  · intro scanID
    obtain ⟨c1, h1, hrel⟩ := step_cell parse s (Action.cancelScan scanID) a c hc
    cases hcr : s.crashed with
    | false =>
      rw [step_cancelScan parse s scanID hcr] at h1
      rw [h1]
      rcases hrel with h | h | ⟨env, he, -, -⟩
      · rw [h]; rfl
      · rw [h]; rfl
      · cases he
    | true =>
      have hlt : a < s.heap.length := (List.getElem?_eq_some.mp hc).1
      cases hreg : s.activeScans scanID with
      | none => simp only [CancelScan, hreg, hc]; rfl
      | some addr =>
        cases hcell : s.heap[addr]? with
        | none => simp only [CancelScan, hreg, hcell, hc]; rfl
        | some cell =>
          simp only [CancelScan, hreg, hcell, Service.setCell]
          by_cases hEq : addr = a
          · subst hEq
            rw [hc] at hcell
            cases hcell
            rw [List.getElem?_set_self hlt]
            rfl
          · rw [List.getElem?_set_ne hEq, hc]
            rfl

theorem total_tasks_fixed_witness :
    (twoScans.heap[1]?).map (fun c => c.scan.Progress.TotalTasks) = some 5
      ∧ ∃ c1 : Cell,
          (exec exampleParse twoScans
            [Action.run 1 quietEnv, Action.cancelScan "scan-2", Action.run 1 quietEnv,
              Action.getStatus "scan-2", Action.run 0 quietEnv]).heap[1]? = some c1
          ∧ c1.scan.Progress.TotalTasks = 5 :=
  have h := total_tasks_fixed exampleParse twoScans 1 _
    [Action.run 1 quietEnv, Action.cancelScan "scan-2", Action.run 1 quietEnv,
      Action.getStatus "scan-2", Action.run 0 quietEnv] twoScans_reachable rfl
  ⟨by rfl, h.2.1.elim fun c1 hc1 => ⟨c1, hc1.1, hc1.2.1.trans (by rfl)⟩⟩

/-- C30, as the code behaves for a total of 0 tasks: the count is 0, which is the total, at
50% as at every other percentage, so the count can equal the total away from 100%. -/
theorem tasksCompleted_total_of_zero :
    (updateProgress (NewService true) (exampleScan 0) 50 "Analyzing SSL/TLS"
        tenSeconds).1.Progress.TasksCompleted = (exampleScan 0).Progress.TotalTasks
      ∧ (0 : Int) ≤ (exampleScan 0).Progress.TotalTasks
      ∧ (50 : ℚ) ≠ 100 := by
  refine ⟨?_, by decide, by norm_num⟩
  rw [updateProgress_TasksCompleted]
  simp [exampleScan, truncate]

/-- C30, amended. For every percentage p in [0,100] and every total n ≥ 0 the completed-task
count that `updateProgress` sets lies between 0 and n, does not decrease when p grows, and
is n at p = 100; for n > 0 it is n only at p = 100. Along the pipeline (every reachable
instance has a total of at least 5): after any schedule the count of an instance is at least
what it was, it lies between 0 and the total, and it equals the total exactly when the
percentage is 100, which carries the label of the last checkpoint, "Finalizing scan". -/
theorem tasksCompleted_bounds (parse : UrlParse) (s : Service) (a : Nat) (c : Cell)
    (schedule : List Action) (hr : Reachable parse s) (hc : s.heap[a]? = some c) :
    (∀ (s0 : Service) (scan : ScanInstance) (p : ℚ) (st : String) (env : Env),
        0 ≤ p → p ≤ 100 → 0 ≤ scan.Progress.TotalTasks →
        0 ≤ (updateProgress s0 scan p st env).1.Progress.TasksCompleted
          ∧ (updateProgress s0 scan p st env).1.Progress.TasksCompleted
              ≤ scan.Progress.TotalTasks)
      ∧ (∀ (s0 : Service) (scan : ScanInstance) (p q : ℚ) (st1 st2 : String) (env1 env2 : Env),
          p ≤ q → 0 ≤ scan.Progress.TotalTasks →
          (updateProgress s0 scan p st1 env1).1.Progress.TasksCompleted
            ≤ (updateProgress s0 scan q st2 env2).1.Progress.TasksCompleted)
      ∧ (∀ (s0 : Service) (scan : ScanInstance) (st : String) (env : Env),
          (updateProgress s0 scan 100 st env).1.Progress.TasksCompleted
            = scan.Progress.TotalTasks)
      ∧ (∀ (s0 : Service) (scan : ScanInstance) (p : ℚ) (st : String) (env : Env),
          p ≤ 100 → 0 < scan.Progress.TotalTasks →
          ((updateProgress s0 scan p st env).1.Progress.TasksCompleted
              = scan.Progress.TotalTasks ↔ p = 100))
      ∧ 5 ≤ c.scan.Progress.TotalTasks
      ∧ ∃ c1 : Cell, (exec parse s schedule).heap[a]? = some c1
          ∧ c.scan.Progress.TasksCompleted ≤ c1.scan.Progress.TasksCompleted
          ∧ 0 ≤ c1.scan.Progress.TasksCompleted
          ∧ c1.scan.Progress.TasksCompleted ≤ c1.scan.Progress.TotalTasks
          ∧ (c1.scan.Progress.TasksCompleted = c1.scan.Progress.TotalTasks
              ↔ c1.scan.Progress.Percentage = 100)
          ∧ (c1.scan.Progress.TasksCompleted = c1.scan.Progress.TotalTasks →
              c1.scan.Progress.CurrentStage = "Finalizing scan") := by
  refine ⟨?_, ?_, ?_, ?_, ?_, ?_⟩
  · intro s0 scan p st env hp0 hp1 hn
    rw [updateProgress_TasksCompleted]
    exact tasks_bounds p _ hp0 hp1 hn
  · intro s0 scan p q st1 st2 env1 env2 hpq hn
    rw [updateProgress_TasksCompleted, updateProgress_TasksCompleted]
    apply truncate_mono
    have hn' : (0 : ℚ) ≤ (scan.Progress.TotalTasks : ℚ) := by exact_mod_cast hn
    exact mul_le_mul_of_nonneg_right (div_le_div_of_nonneg_right hpq (by norm_num)) hn'
  · intro s0 scan st env
    rw [updateProgress_TasksCompleted]
    have : (100 : ℚ) / 100 * (scan.Progress.TotalTasks : ℚ)
        = ((scan.Progress.TotalTasks : Int) : ℚ) := by norm_num
    rw [this, truncate_intCast]
  · intro s0 scan p st env hp1 hn
    rw [updateProgress_TasksCompleted]
    exact tasks_eq_total_iff p _ hp1 hn
  · rw [(reachable_tasksOK parse s hr a c hc).1]
    exact calculateTotalTasks_pos _
  · obtain ⟨c1, h1, hmono⟩ := exec_mono parse a schedule s c (reachable_inv parse s hr) hc
    have hrf := reachable_exec parse s schedule hr
    obtain ⟨t1, t2, t3⟩ := reachable_tasksOK parse _ hrf a c1 h1
    obtain ⟨u1, u2, -⟩ := reachable_tasksOK parse s hr a c hc
    have hlev := (reachable_inv parse _ hrf).1 a c1 h1
    have hrange : 0 ≤ c1.scan.Progress.Percentage ∧ c1.scan.Progress.Percentage ≤ 100 := by
      cases hpc : c1.pc <;> simp only [Cell.LevelOK, hpc] at hlev <;>
        first
          | (exact ⟨hlev.1, hlev.2.1⟩)
          | (rcases hlev with h | h <;> norm_num [h])
          | (norm_num [hlev])
    have hN : c1.scan.Progress.TotalTasks = c.scan.Progress.TotalTasks :=
      exec_cell_TotalTasks parse a schedule s c c1 hc h1
    have hpos : 0 < c1.scan.Progress.TotalTasks := by
      rw [t1]
      have := calculateTotalTasks_pos c1.scan.Config
      omega
    have hb := tasks_bounds c1.scan.Progress.Percentage c1.scan.Progress.TotalTasks
      hrange.1 hrange.2 (le_of_lt hpos)
    have hiff := tasks_eq_total_iff c1.scan.Progress.Percentage c1.scan.Progress.TotalTasks
      hrange.2 hpos
    rw [← t2] at hb hiff
    refine ⟨c1, h1, ?_, hb.1, hb.2, hiff, fun h => t3 (hiff.mp h)⟩
    rw [t2, u2, hN]
    apply truncate_mono
    have hn' : (0 : ℚ) ≤ (c.scan.Progress.TotalTasks : ℚ) := by
      rw [← hN]; exact_mod_cast le_of_lt hpos
    exact mul_le_mul_of_nonneg_right (div_le_div_of_nonneg_right hmono (by norm_num)) hn'

theorem tasksCompleted_bounds_witness :
    (twoScans.heap[1]?).map (fun c => c.pc) = some PC.recon
      ∧ ∃ c1 : Cell,
          (exec exampleParse twoScans
            [Action.run 1 quietEnv, Action.run 1 quietEnv, Action.run 1 quietEnv]).heap[1]?
            = some c1
          ∧ 0 ≤ c1.scan.Progress.TasksCompleted
          ∧ c1.scan.Progress.TasksCompleted ≤ c1.scan.Progress.TotalTasks :=
  have h := tasksCompleted_bounds exampleParse twoScans 1 _
    [Action.run 1 quietEnv, Action.run 1 quietEnv, Action.run 1 quietEnv]
    twoScans_reachable rfl
  ⟨by rfl, h.2.2.2.2.2.elim fun c1 hc1 => ⟨c1, hc1.1, hc1.2.2.1, hc1.2.2.2.1⟩⟩


/-! ### What a cancelled run leaves behind -/

/-- C22. When a cancellation check observes the signal (the goroutine stands at one of the
four checks with its context cancelled), no statement placed after that check runs, in any
schedule: the goroutine only goes from the check to the deferred function and returns. The
accumulator and the progress snapshot of the instance are therefore, at every later moment
and when the run ends, what they were at the check: the technology list, the SSL summary,
the vulnerability list, the security score and the percentage in particular. The check
itself writes the status and nothing else. -/
theorem observed_cancel_freezes (parse : UrlParse) (s : Service) (a : Nat) (c : Cell)
    (schedule : List Action) (hr : Reachable parse s) (hc : s.heap[a]? = some c)
    (hpc : c.pc.isCheck = true) (hcan : c.cancelled = true) :
    (∃ c1 : Cell, (exec parse s schedule).heap[a]? = some c1
        ∧ (c1.pc = c.pc ∨ c1.pc = PC.retire ∨ c1.pc = PC.done)
        ∧ c1.result = c.result
        ∧ c1.result.TechStack = c.result.TechStack
        ∧ c1.result.SSLInfo = c.result.SSLInfo
        ∧ c1.result.Vulnerabilities = c.result.Vulnerabilities
        ∧ c1.result.SecurityScore = c.result.SecurityScore
        ∧ c1.scan.Progress = c.scan.Progress
        ∧ c1.scan.Progress.Percentage = c.scan.Progress.Percentage
        ∧ ((exec parse s schedule).crashed = false → c.pc.stepsLeft ≤ countRuns a schedule →
            c1.pc = PC.done))
      ∧ (∀ env : Env, s.crashed = false →
          (step parse s (Action.run a env)).heap[a]?
            = some { c with scan := { c.scan with Status := "cancelled" }, pc := PC.retire }) := by
  have hpath := reachable_pathOK parse s hr a c hc
  have hstart : c.StoppedAt c := by
    cases hp : c.pc <;> simp [hp, PC.isCheck] at hpc <;>
      simp only [Cell.PathOK, hp] at hpath <;>
      simp_all [Cell.EarlyStatus, Cell.StoppedAt]
  obtain ⟨c1, h1, hq1⟩ := exec_cell parse a (fun x => c.StoppedAt x) (fun _ => True)
    (cancel_stoppedAt c) (fun s x env _ h => cellAfter_stoppedAt parse s c x env hpc h)
    schedule (fun _ _ => trivial) s c hc hstart
  obtain ⟨-, -, g3, g4, -, -, -, g8⟩ := hq1
  refine ⟨⟨c1, h1, g8, g3, by rw [g3], by rw [g3], by rw [g3], by rw [g3], g4, by rw [g4], ?_⟩,
    ?_⟩
  · intro hcr hruns
    have hnp : c.pc ≠ PC.panicked := by
      intro h; rw [h] at hpc; simp [PC.isCheck] at hpc
    obtain ⟨c2, h2, hp2, hle⟩ := exec_stepsLeft parse a schedule s c hc hnp hcr
    rw [h1] at h2
    cases h2
    have h0 : c1.pc.stepsLeft = 0 := by omega
    rcases stepsLeft_eq_zero _ h0 with h | h
    · exact h
    · exact absurd h hp2
  · intro env hcr
    rw [step_run_cell parse s a env c hcr hc]
    cases hp : c.pc <;> simp [hp, PC.isCheck] at hpc <;>
      simp [cellAfter, executeScan, hp, checkCancelled, hcan, Service.setCell]

theorem observed_cancel_freezes_witness :
    (cancelledAtCheck.heap[0]?).map (fun c => (c.pc, c.cancelled)) = some (PC.check1, true)
      ∧ ∃ c1 : Cell,
          (exec exampleParse cancelledAtCheck
              (List.replicate 19 (Action.run 0 quietEnv))).heap[0]? = some c1
          ∧ c1.result.TechStack = []
          ∧ c1.result.SecurityScore = 0
          ∧ c1.scan.Progress.Percentage = 10
          ∧ c1.pc = PC.done :=
  have h := observed_cancel_freezes exampleParse cancelledAtCheck 0 _
    (List.replicate 19 (Action.run 0 quietEnv)) cancelledAtCheck_reachable rfl rfl rfl
  ⟨by rfl, h.1.elim fun c1 hc1 =>
    ⟨c1, hc1.1, hc1.2.2.2.1.trans (by rfl), hc1.2.2.2.2.2.2.1.trans (by rfl),
      hc1.2.2.2.2.2.2.2.2.1.trans (by rfl), hc1.2.2.2.2.2.2.2.2.2 (by rfl) (by decide)⟩⟩


/-- No statement of the pipeline leads back to the first one. -/
theorem cellAfter_pc_ne_start (parse : UrlParse) (s : Service) (cell : Cell) (env : Env) :
    (cellAfter parse s cell env).pc = PC.start → False := by
  cases hpc : cell.pc <;>
    simp only [cellAfter, executeScan, hpc, stage, checkpoint, checkCancelled, retire,
      Service.setCell] <;>
    (try split) <;> simp [hpc]

/-- Until the goroutine has executed its first statement the accumulator is the zero value of
its type: in every reachable state, a cell at the first statement has it. -/
theorem reachable_start_zero (parse : UrlParse) (s : Service) (hr : Reachable parse s) :
    ∀ (a : Nat) (c : Cell), s.heap[a]? = some c → c.pc = PC.start → c.result = ScanResult.zero :=
  reachable_cells parse (fun c => c.pc = PC.start → c.result = ScanResult.zero)
    (fun _ h _ => h.2.2.2.2.2.2.2)
    (fun _ h hp => h hp)
    (fun s c env _ hp => absurd hp (cellAfter_pc_ne_start parse s c env)) s hr

theorem cancel_haltsIn (k : Nat) (r0 : ScanResult) (c : Cell) (h : c.HaltsIn k r0) :
    c.cancel.HaltsIn k r0 := by
  obtain ⟨h1, h2, h3, h4, h5, h6, h7, h8, h9, h10, h11, h12⟩ := h
  exact ⟨rfl, rfl, h3, h4, h5, h6, h7, h8, h9, h10, h11, h12⟩

theorem cellAfter_haltsIn (parse : UrlParse) (s : Service) (k : Nat) (r0 : ScanResult)
    (cell : Cell) (env : Env) (hk : k ≤ 4) (h : cell.HaltsIn k r0) :
    (cellAfter parse s cell env).HaltsIn k r0 := by
  obtain ⟨h1, h2, h3, h4, h5, h6, h7, h8, h9, h10, h11, h12⟩ := h
  by_cases hssl : cell.pc = PC.ssl
  · have hk3 : k = 3 := by
      rcases h5 with h | h | h
      · rw [hssl] at h; exact h.symm
      · rw [hssl] at h; cases h
      · rw [hssl] at h; cases h
    subst hk3
    cases hres : analyzeSSL parse cell.result env.now with
    | none =>
      simp only [cellAfter, executeScan, hssl, hres, retire, Service.setCell]
      simp_all [Cell.HaltsIn, PC.stageOf]
    | some r1 =>
      obtain ⟨ssl, rfl⟩ := analyzeSSL_frame parse _ _ _ hres
      simp only [cellAfter, executeScan, hssl, hres, stage, Service.setCell]
      simp_all [Cell.HaltsIn, PC.stageOf]
  · by_cases hstart : cell.pc = PC.start
    · simp only [hstart, PC.stageOf] at h5 h7
      obtain ⟨-, h7b⟩ := h7 trivial
      have hk1 : k = 1 := by
        rcases h5 with h | h | h
        · exact h.symm
        · cases h
        · cases h
      subst hk1
      subst h7b
      simp only [cellAfter, executeScan, hstart, stage, Service.setCell]
      simp [Cell.HaltsIn, PC.stageOf, h1, h2, h3, ScanResult.zero]
      simpa [stagePercentage] using h6
    · clear h7
      by_cases hrecon : cell.pc = PC.recon
      · simp only [hrecon, PC.stageOf, reduceCtorEq, or_false] at h5
        subst h5
        simp only [cellAfter, executeScan, hrecon, stage, Service.setCell]
        cases env.response <;>
          simp_all [Cell.HaltsIn, PC.stageOf, stagePercentage, performReconnaissance]
      · cases hpc : cell.pc <;>
          simp only [hpc, PC.stageOf, reduceCtorEq, or_false, or_true] at h5 <;>
          (try subst h5) <;>
          simp only [cellAfter, executeScan, hpc, stage, checkpoint, checkCancelled, retire,
            Service.setCell] <;>
          (try split) <;>
          first
            | (exfalso; omega)
            | simp_all [Cell.HaltsIn, PC.stageOf, stagePercentage, detectTechnologies,
                scanVulnerabilities]

/-- Only the four cancellation checks read the signal: any other statement of the pipeline
does to a cell whose context is cancelled what it does to the same cell with a live
context. -/
theorem cellAfter_ignores_signal (parse : UrlParse) (s : Service) (cell : Cell) (env : Env)
    (h : cell.pc.isCheck = false) :
    cellAfter parse s { cell with cancelled := true } env
      = { cellAfter parse s cell env with cancelled := true } := by
  cases hpc : cell.pc <;> simp [hpc, PC.isCheck] at h <;>
    simp only [cellAfter, executeScan, hpc, stage, checkpoint, retire, Service.setCell] <;>
    (try split) <;> simp [hpc]

/-- C21, as the code behaves. A scan is cancelled right after `StartScan`, before its
goroutine has executed a statement; the goroutine then writes the 10% checkpoint to the
storage port, issues the reconnaissance request and stores the answer (status code 200, the
latency, the headers) in the accumulator, and only the check after the stage stops it. And a
scan cancelled when score computation is about to begin (after the fourth check) computes the
score and is finalized as "completed". -/
theorem cancelled_before_start_still_requests :
    (cancelledAtStart.heap[0]?).map (fun c => (c.pc, c.cancelled, c.scan.Status))
        = some (PC.start, true, "cancelled")
      ∧ (cancelledAtStartRun.heap[0]?).map
            (fun c => (c.pc, c.result.StatusCode, c.result.ResponseTime, c.result.Headers))
          = some (PC.check1, 200, 120, [("Server", "nginx")])
      ∧ cancelledAtStartRun.storageLog.map
            (fun call => match call with
              | StorageCall.UpdateScanProgress scanID percentage currentStage _ _ =>
                (scanID, percentage, currentStage)
              | _ => ("", 0, ""))
          = [("scan-1", 10, "Initial reconnaissance")]
      ∧ ((CancelScan pastLastCheck "scan-1").2.heap[0]?).map
            (fun c => (c.pc, c.cancelled, c.result.SecurityScore))
          = some (PC.progress80, true, 0)
      ∧ (lateCancel.heap[0]?).map
            (fun c => (c.pc, c.scan.Status, c.result.Status, c.result.SecurityScore))
          = some (PC.done, "completed", "completed", 55) := by
  refine ⟨by rfl, by rfl, by rfl, by rfl, by rfl⟩

/-- C21, amended. A cancellation check stands behind each of the first four stages
(reconnaissance, technology identification, SSL/TLS summarization, vulnerability assessment;
lines 240, 249, 258 and 269). If the signal is set when one of these stages is about to begin
or while the run is in it, then in every schedule no statement of a later stage runs: the
status of the instance is "cancelled", nothing is attached, the accumulator is never
"completed", the goroutine stays in that stage until the check behind it and then leaves
through the deferred function, no later checkpoint is written (the percentage stays at most
that of the stage), the parts of the accumulator that later stages write are untouched, and
with its remaining statements the run ends. -/
theorem cancelled_stage_stops_at_its_check (parse : UrlParse) (s : Service) (a : Nat)
    (c : Cell) (schedule : List Action) (hr : Reachable parse s) (hc : s.heap[a]? = some c)
    (hcan : c.cancelled = true) (hpc : c.pc.beforeLastCheck = true) :
    ∃ c1 : Cell, (exec parse s schedule).heap[a]? = some c1
      ∧ c1.scan.Status = "cancelled"
      ∧ c1.scan.Result = none
      ∧ c1.result.Status ≠ "completed"
      ∧ (c1.pc.stageOf = c.pc.stageOf ∨ c1.pc = PC.retire ∨ c1.pc = PC.done)
      ∧ c1.scan.Progress.Percentage ≤ stagePercentage c.pc.stageOf
      ∧ (c.pc.stageOf < 2 → c1.result.TechStack = c.result.TechStack)
      ∧ (c.pc.stageOf < 3 → c1.result.SSLInfo = c.result.SSLInfo)
      ∧ (c.pc.stageOf < 4 → c1.result.Vulnerabilities = c.result.Vulnerabilities)
      ∧ c1.result.SecurityScore = c.result.SecurityScore
      ∧ ((exec parse s schedule).crashed = false → c.pc.stepsLeft ≤ countRuns a schedule →
          c1.pc = PC.done) := by
  have hpath := reachable_pathOK parse s hr a c hc
  have hlev := (reachable_inv parse s hr).1 a c hc
  have hzero := reachable_start_zero parse s hr a c hc
  have hk : c.pc.stageOf ≤ 4 := by
    cases hp : c.pc <;> simp [hp, PC.beforeLastCheck] at hpc <;> simp [PC.stageOf]
  have hstart : c.HaltsIn c.pc.stageOf c.result := by
    by_cases hst : c.pc = PC.start
    · have hz := hzero hst
      simp only [Cell.PathOK, hst] at hpath
      simp only [Cell.LevelOK, hst] at hlev
      simp_all [Cell.HaltsIn, Cell.EarlyStatus, PC.stageOf, stagePercentage, ScanResult.zero]
    · cases hp : c.pc <;> simp [hp, PC.beforeLastCheck] at hpc <;>
        simp only [hp, reduceCtorEq, not_true_eq_false, not_false_eq_true] at hst <;>
        simp only [Cell.PathOK, hp] at hpath <;>
        simp only [Cell.LevelOK, hp] at hlev <;>
        simp_all [Cell.HaltsIn, Cell.EarlyStatus, PC.stageOf, stagePercentage] <;>
        first
          | (rcases hlev with h | h <;> norm_num [h])
          | norm_num
  obtain ⟨c1, h1, hq1⟩ := exec_cell parse a (fun x => x.HaltsIn c.pc.stageOf c.result)
    (fun _ => True) (cancel_haltsIn _ _)
    (fun s x env _ h => cellAfter_haltsIn parse s _ _ x env hk h)
    schedule (fun _ _ => trivial) s c hc hstart
  obtain ⟨-, g2, g3, g4, g5, g6, -, g8, g9, g10, g11, -⟩ := hq1
  refine ⟨c1, h1, g2, g3, g4, g5, g6, g8, g9, g10, g11, ?_⟩
  intro hcr hruns
  have hnp : c.pc ≠ PC.panicked := by
    intro h; rw [h] at hpc; simp [PC.beforeLastCheck] at hpc
  obtain ⟨c2, h2, hp2, hle⟩ := exec_stepsLeft parse a schedule s c hc hnp hcr
  rw [h1] at h2
  cases h2
  have h0 : c1.pc.stepsLeft = 0 := by omega
  rcases stepsLeft_eq_zero _ h0 with h | h
  · exact h
  · exact absurd h hp2

theorem cancelled_stage_stops_at_its_check_witness :
    (cancelledAtStart.heap[0]?).map (fun c => (c.pc, c.cancelled)) = some (PC.start, true)
      ∧ ∃ c1 : Cell,
          (exec exampleParse cancelledAtStart
              (List.replicate 22 (Action.run 0 answeringEnv))).heap[0]? = some c1
          ∧ c1.scan.Status = "cancelled"
          ∧ c1.scan.Progress.Percentage ≤ 10
          ∧ c1.result.TechStack = []
          ∧ c1.result.SecurityScore = 0
          ∧ c1.pc = PC.done :=
  have h := cancelled_stage_stops_at_its_check exampleParse cancelledAtStart 0 _
    (List.replicate 22 (Action.run 0 answeringEnv)) ⟨true, false, _, rfl⟩ rfl rfl (by rfl)
  ⟨by rfl, h.elim fun c1 hc1 =>
    ⟨c1, hc1.1, hc1.2.1, hc1.2.2.2.2.2.1, (hc1.2.2.2.2.2.2.1 (by decide)).trans (by rfl),
      hc1.2.2.2.2.2.2.2.2.2.1.trans (by rfl), hc1.2.2.2.2.2.2.2.2.2.2 (by rfl) (by decide)⟩⟩

/-! ### The checkpoints of a run, in order -/

theorem checkpointsFor_append (scanID : String) (log : List StorageCall) (call : StorageCall) :
    checkpointsFor scanID (log ++ [call])
      = checkpointsFor scanID log ++ (StorageCall.checkpointFor scanID call).toList := by
  unfold checkpointsFor
  rw [List.filterMap_append]
  cases h : StorageCall.checkpointFor scanID call <;> simp [List.filterMap_cons, h]

theorem updateProgress_checkpointsFor (s : Service) (scan : ScanInstance) (p : ℚ) (st : String)
    (env : Env) (scanID : String) (hst : s.hasStorage = true) :
    checkpointsFor scanID (updateProgress s scan p st env).2.storageLog
      = checkpointsFor scanID s.storageLog ++ (if scan.ID = scanID then [p] else []) := by
  simp only [updateProgress, hst, if_true]
  split_ifs <;>
    simp_all [checkpointsFor_append, StorageCall.checkpointFor]

theorem executeScan_checkpointsFor (parse : UrlParse) (s : Service) (addr : Nat) (cell : Cell)
    (env : Env) (scanID : String) (hst : s.hasStorage = true) :
    checkpointsFor scanID (executeScan parse s addr cell env).storageLog
      = checkpointsFor scanID s.storageLog
          ++ (if cell.scan.ID = scanID then cell.writes else []) := by
  cases hpc : cell.pc <;>
    simp only [executeScan, hpc, stage, checkpoint, checkCancelled, retire,
      Service.setCell, Cell.writes] <;>
    (try split) <;>
    (try split) <;>
    simp_all [updateProgress_checkpointsFor, checkpointsFor_append, StorageCall.checkpointFor]

theorem written_cellAfter (parse : UrlParse) (s : Service) (cell : Cell) (env : Env)
    (h : cell.cancelled = false) :
    PC.written cell.scan.Config.VulnerabilityScan (cellAfter parse s cell env).pc
      = PC.written cell.scan.Config.VulnerabilityScan cell.pc ++ cell.writes := by
  cases hpc : cell.pc <;>
    simp only [cellAfter, executeScan, hpc, stage, checkpoint, checkCancelled, retire,
      Service.setCell, Cell.writes] <;>
    (try split) <;>
    simp_all [PC.written] <;>
    (try split) <;> simp

/-- An action that is not a statement of a goroutine makes no call on the storage port. -/
theorem step_storageLog_of_not_run (parse : UrlParse) (s : Service) (act : Action)
    (h : ∀ (addr : Nat) (env : Env), act ≠ Action.run addr env) :
    (step parse s act).storageLog = s.storageLog := by
  cases hcr : s.crashed with
  | true => rw [step_of_crashed parse s act hcr]
  | false =>
    cases act with
    | startScan uuid started startTime targetURL config =>
      rw [step_startScan parse s uuid started startTime targetURL config hcr]
      exact (StartScan_flags parse s uuid started startTime targetURL config).2.2.1
    | getStatus scanID => rw [step_getStatus]
    | cancelScan scanID =>
      rw [step_cancelScan parse s scanID hcr]
      exact (CancelScan_flags s scanID).2.2.1
    | run addr env => exact absurd rfl (h addr env)

/-- A cancelled context stays cancelled. -/
theorem exec_cancelled (parse : UrlParse) (a : Nat) (schedule : List Action) (s : Service)
    (c : Cell) (hc : s.heap[a]? = some c) (h : c.cancelled = true) :
    ∃ c1 : Cell, (exec parse s schedule).heap[a]? = some c1 ∧ c1.cancelled = true :=
  exec_cell parse a (fun x => x.cancelled = true) (fun _ => True) (fun _ _ => rfl)
    (fun s x env _ hx => (cellAfter_cancelled parse s x env).trans hx) schedule
    (fun _ _ => trivial) s c hc h

/-- The checkpoints that the storage port receives for an identifier carried by one instance
only are those of the goroutine of that instance: as long as the instance is not cancelled,
the port has received, after what it held before, the checkpoints behind the program
counter. -/
theorem exec_checkpoints (parse : UrlParse) (a : Nat) (scanID : String)
    (schedule : List Action) :
    ∀ (s : Service) (c : Cell) (L : List ℚ), s.hasStorage = true → s.heap[a]? = some c →
      c.scan.ID = scanID →
      (∀ (b : Nat) (cb : Cell), (exec parse s schedule).heap[b]? = some cb →
        cb.scan.ID = scanID → b = a) →
      (c.cancelled = true
        ∨ checkpointsFor scanID s.storageLog
            = L ++ PC.written c.scan.Config.VulnerabilityScan c.pc) →
      ∃ c1 : Cell, (exec parse s schedule).heap[a]? = some c1
        ∧ (c1.cancelled = true
            ∨ checkpointsFor scanID (exec parse s schedule).storageLog
                = L ++ PC.written c1.scan.Config.VulnerabilityScan c1.pc) := by
  induction schedule with
  | nil => intro s c L _ hc _ _ h; exact ⟨c, hc, h⟩
  | cons act rest ih =>
    intro s c L hst hc hid huniq hinv
    have hst1 : (step parse s act).hasStorage = true := by rw [step_hasStorage]; exact hst
    rcases hinv with hcan | hlog
    · obtain ⟨c1, h1, hc1⟩ := exec_cancelled parse a (act :: rest) s c hc hcan
      exact ⟨c1, h1, Or.inl hc1⟩
    · cases hcr : s.crashed with
      | true =>
        rw [exec_cons, step_of_crashed parse s act hcr] at huniq ⊢
        exact ih s c L hst hc hid huniq (Or.inr hlog)
      | false =>
        by_cases hrun : ∃ (addr : Nat) (env : Env), act = Action.run addr env
        · obtain ⟨b, env, rfl⟩ := hrun
          cases hcell : s.heap[b]? with
          | none =>
            rw [exec_cons, step_run_none parse s b env hcell] at huniq ⊢
            exact ih s c L hst hc hid huniq (Or.inr hlog)
          | some cb =>
            have hstep := step_run_some parse s b env cb hcr hcell
            have hlog1 := executeScan_checkpointsFor parse s b cb env scanID hst
            rw [← hstep] at hlog1
            by_cases hEq : b = a
            · subst hEq
              rw [hc] at hcell
              cases hcell
              have h1 := step_run_cell parse s b env c hcr hc
              rw [exec_cons] at huniq ⊢
              refine ih _ _ L hst1 h1 ((cellAfter_ID parse s c env).trans hid) huniq ?_
              cases hcan : c.cancelled with
              | true => left; rw [cellAfter_cancelled]; exact hcan
              | false =>
                right
                rw [hlog1, hlog, if_pos hid, cellAfter_Config,
                  written_cellAfter parse s c env hcan, List.append_assoc]
            · have hne : cb.scan.ID ≠ scanID := by
                intro hcb
                obtain ⟨c3, h3, hq3⟩ := exec_cell parse b (fun x => x.scan.ID = cb.scan.ID)
                  (fun _ => True) (fun _ h => h)
                  (fun s x env _ h => (cellAfter_ID parse s x env).trans h)
                  (Action.run b env :: rest) (fun _ _ => trivial) s cb hcell rfl
                exact hEq (huniq b c3 h3 (hq3.trans hcb))
              have h1 : (step parse s (Action.run b env)).heap[a]? = some c := by
                rw [hstep, executeScan_heap parse s b cb env hcell,
                  List.getElem?_set_ne hEq]
                exact hc
              rw [exec_cons] at huniq ⊢
              refine ih _ c L hst1 h1 hid huniq (Or.inr ?_)
              rw [hlog1, if_neg hne, List.append_nil]
              exact hlog
        · have hnr : ∀ (addr : Nat) (env : Env), act ≠ Action.run addr env := by
            intro addr env h
            exact hrun ⟨addr, env, h⟩
          have hlog1 := step_storageLog_of_not_run parse s act hnr
          obtain ⟨c1, h1, hrel⟩ := step_cell parse s act a c hc
          rw [exec_cons] at huniq ⊢
          rcases hrel with h | h | ⟨env, he, -, -⟩
          · subst h
            exact ih _ c1 L hst1 h1 hid huniq (Or.inr (by rw [hlog1]; exact hlog))
          · subst h
            exact ih _ _ L hst1 h1 hid huniq (Or.inl rfl)
          · exact absurd he (hnr a env)

/-- Line 264 goes on to the vulnerability stage exactly when the flag is set. -/
theorem cellAfter_at_stage4 (parse : UrlParse) (s : Service) (cell : Cell) (env : Env)
    (h : cell.pc = PC.stage4) :
    (cellAfter parse s cell env).pc
      = if cell.scan.Config.VulnerabilityScan then PC.vuln else PC.check4 := by
  simp only [cellAfter, executeScan, h, checkpoint, Service.setCell]
  split <;> simp

/-- The vulnerability stage is entered from line 264 only, with the flag set. -/
theorem cellAfter_pc_vuln (parse : UrlParse) (s : Service) (cell : Cell) (env : Env)
    (h : (cellAfter parse s cell env).pc = PC.vuln) :
    cell.pc = PC.stage4 ∧ cell.scan.Config.VulnerabilityScan = true := by
  revert h
  cases hpc : cell.pc <;>
    simp only [cellAfter, executeScan, hpc, stage, checkpoint, checkCancelled, retire,
      Service.setCell] <;>
    (try split) <;> simp_all

/-- A statement that is not one of the seven that write the accumulator leaves it alone. -/
theorem cellAfter_result_frame (parse : UrlParse) (s : Service) (cell : Cell) (env : Env)
    (h0 : cell.pc ≠ PC.start) (h1 : cell.pc ≠ PC.recon) (h2 : cell.pc ≠ PC.tech)
    (h3 : cell.pc ≠ PC.ssl) (h4 : cell.pc ≠ PC.vuln) (h5 : cell.pc ≠ PC.score)
    (h6 : cell.pc ≠ PC.finalize) :
    (cellAfter parse s cell env).result = cell.result := by
  cases hpc : cell.pc <;>
    simp only [hpc, ne_eq, not_true_eq_false] at h0 h1 h2 h3 h4 h5 h6 <;>
    simp only [cellAfter, executeScan, hpc, stage, checkpoint, checkCancelled, retire,
      Service.setCell] <;>
    (try split) <;> simp

/-- What a statement does to the percentage of the instance: a checkpoint writes its
percentage, every other statement leaves the percentage alone. -/
theorem cellAfter_Percentage (parse : UrlParse) (s : Service) (cell : Cell) (env : Env) :
    (cellAfter parse s cell env).scan.Progress.Percentage
      = (cell.writes.head?).getD cell.scan.Progress.Percentage := by
  cases hpc : cell.pc <;>
    simp only [cellAfter, executeScan, hpc, stage, checkpoint, checkCancelled, retire,
      Service.setCell, Cell.writes] <;>
    (try split) <;> simp

/-- C23. A run that is never cancelled and gets its 22 statements without a crash of the
process pushes its checkpoints to the storage port in pipeline order: for an identifier that
no other instance carries, the port receives for it, after what it held when the run began,
exactly the percentages 10, 25, 40, 60, 80, 100 when the configuration enables vulnerability
scanning and 10, 25, 40, 80, 100 when it does not. Each of the six checkpoint statements
writes its percentage to the instance and no other statement writes the percentage. The
statement of line 264 goes on to the vulnerability stage exactly when the flag is set, and
that stage is entered from nowhere else. Each stage statement computes the new accumulator from the accumulator it finds, and
nothing but the stage statements of the goroutine itself changes the accumulator: checkpoints,
checks, `CancelScan`, `GetStatus`, `StartScan` and the statements of other goroutines leave
it as it is. -/
theorem checkpoints_in_order (parse : UrlParse) (s : Service) (a : Nat) (c : Cell)
    (schedule : List Action) (hc : s.heap[a]? = some c) (hpc : c.pc = PC.start)
    (hst : s.hasStorage = true) (hcr : (exec parse s schedule).crashed = false)
    (hruns : 22 ≤ countRuns a schedule)
    (hunc : ((exec parse s schedule).heap[a]?).map (fun x => x.cancelled) = some false)
    (huniq : ∀ (b : Nat) (cb : Cell), (exec parse s schedule).heap[b]? = some cb →
      cb.scan.ID = c.scan.ID → b = a) :
    (∃ c1 : Cell, (exec parse s schedule).heap[a]? = some c1
        ∧ c1.pc = PC.done
        ∧ checkpointsFor c.scan.ID (exec parse s schedule).storageLog
            = checkpointsFor c.scan.ID s.storageLog
                ++ (if c.scan.Config.VulnerabilityScan then [10, 25, 40, 60, 80, 100]
                    else [10, 25, 40, 80, 100]))
      ∧ (∀ (s0 : Service) (cell : Cell) (env : Env), s0.crashed = false →
          s0.heap[a]? = some cell →
          ∃ c2 : Cell, (step parse s0 (Action.run a env)).heap[a]? = some c2
            ∧ c2.scan.Progress.Percentage
                = (cell.writes.head?).getD cell.scan.Progress.Percentage
            ∧ (cell.pc = PC.stage4 →
                c2.pc = if cell.scan.Config.VulnerabilityScan then PC.vuln else PC.check4)
            ∧ (c2.pc = PC.vuln →
                cell.pc = PC.stage4 ∧ cell.scan.Config.VulnerabilityScan = true)
            ∧ (cell.pc = PC.recon →
                c2.result = performReconnaissance cell.result env.response)
            ∧ (cell.pc = PC.tech → c2.result = detectTechnologies cell.result)
            ∧ (cell.pc = PC.ssl →
                ∀ r : ScanResult, analyzeSSL parse cell.result env.now = some r → c2.result = r)
            ∧ (cell.pc = PC.vuln → c2.result = scanVulnerabilities cell.result env.now)
            ∧ (cell.pc = PC.score → c2.result = calculateSecurityScore cell.result)
            ∧ (cell.pc = PC.finalize →
                c2.result = { cell.result with
                  Status := "completed"
                  Duration := truncate (seconds (env.now - cell.scan.Started)) })
            ∧ (cell.pc ≠ PC.start → cell.pc ≠ PC.recon → cell.pc ≠ PC.tech →
                cell.pc ≠ PC.ssl → cell.pc ≠ PC.vuln → cell.pc ≠ PC.score →
                cell.pc ≠ PC.finalize → c2.result = cell.result))
      ∧ (∀ (s0 : Service) (act : Action) (cell : Cell), s0.heap[a]? = some cell →
          Action.isRun a act = false →
          ∃ c2 : Cell, (step parse s0 act).heap[a]? = some c2 ∧ c2.result = cell.result) := by
  refine ⟨?_, ?_, ?_⟩
  · obtain ⟨c1, h1, hlog⟩ := exec_checkpoints parse a c.scan.ID schedule s c
      (checkpointsFor c.scan.ID s.storageLog) hst hc rfl huniq
      (Or.inr (by rw [hpc]; simp [PC.written]))
    obtain ⟨c2, h2, hnp, hle⟩ := exec_stepsLeft parse a schedule s c hc
      (by rw [hpc]; decide) hcr
    rw [h1] at h2
    cases h2
    have hdone : c1.pc = PC.done := by
      have h22 : c.pc.stepsLeft = 22 := by rw [hpc]; rfl
      have h0 : c1.pc.stepsLeft = 0 := by omega
      rcases stepsLeft_eq_zero _ h0 with h | h
      · exact h
      · exact absurd h hnp
    have hlive : c1.cancelled = false := by
      rw [h1] at hunc
      simpa using hunc
    have hcfg := exec_cell_Config parse a schedule s c c1 hc h1
    refine ⟨c1, h1, hdone, ?_⟩
    rcases hlog with h | h
    · rw [h] at hlive
      exact absurd hlive (by decide)
    · rw [h, hdone, hcfg]
      rfl
  · intro s0 cell env hcr0 hcell
    refine ⟨_, step_run_cell parse s0 a env cell hcr0 hcell, ?_⟩
    refine ⟨cellAfter_Percentage parse s0 cell env, cellAfter_at_stage4 parse s0 cell env,
      cellAfter_pc_vuln parse s0 cell env,
      ?_, ?_, ?_, ?_, ?_, ?_, cellAfter_result_frame parse s0 cell env⟩
    · intro h; simp [cellAfter, executeScan, h, stage, Service.setCell]
    · intro h; simp [cellAfter, executeScan, h, stage, Service.setCell]
    · intro h r hr; simp [cellAfter, executeScan, h, hr, stage, Service.setCell]
    · intro h; simp [cellAfter, executeScan, h, stage, Service.setCell]
    · intro h; simp [cellAfter, executeScan, h, stage, Service.setCell]
    · intro h; simp [cellAfter, executeScan, h, stage, Service.setCell]
  · intro s0 act cell hcell hact
    obtain ⟨c2, h2, h | h | ⟨env, he, -, -⟩⟩ := step_cell parse s0 act a cell hcell
    · exact ⟨c2, h2, by rw [h]⟩
    · exact ⟨c2, h2, by rw [h]⟩
    · rw [he] at hact
      simp [Action.isRun] at hact

theorem checkpoints_in_order_witness :
    (oneScan.heap[0]?).map (fun c => (c.pc, c.scan.ID, c.scan.Config.VulnerabilityScan))
        = some (PC.start, "scan-1", true)
      ∧ ∃ c1 : Cell,
          (exec exampleParse oneScan (List.replicate 22 (Action.run 0 quietEnv))).heap[0]?
            = some c1
          ∧ c1.pc = PC.done
          ∧ checkpointsFor "scan-1"
              (exec exampleParse oneScan (List.replicate 22 (Action.run 0 quietEnv))).storageLog
            = [10, 25, 40, 60, 80, 100] :=
  have h := checkpoints_in_order exampleParse oneScan 0 _
    (List.replicate 22 (Action.run 0 quietEnv)) rfl rfl rfl (by rfl) (by decide) (by rfl)
    (fun b cb hb _ => index_of_singleton
      (exec exampleParse oneScan (List.replicate 22 (Action.run 0 quietEnv))).heap
      (by rfl) b cb hb)
  ⟨by rfl, h.1.elim fun c1 hc1 => ⟨c1, hc1.1, hc1.2.1, hc1.2.2.trans (by rfl)⟩⟩


/-! ### The storage manager as the storage port -/

/-- C27, at the failing input. A scan is started on a service whose storage port is the
storage manager, reaches its 10% checkpoint, is cancelled and runs to its end: the port has
received one `UpdateScanProgress` call, for 10%. The manager answers that call with the
not-found error of `db.Get`, because it updates an existing record and no record exists
before `SaveScanResult`, which the service calls at finalization only; the store is left as
it was, so after the cancelled run `GetScanResult` returns nil for the identifier, on an
empty store as on one that holds another scan. After a completed run the record exists, but
its progress is the zero value that the accumulator carries, not a pushed snapshot. On a
record that exists the same call does store the snapshot. -/
theorem progress_push_finds_no_record :
    (cancelledRun.heap[0]?).map (fun c => (c.pc, c.scan.Status, c.scan.Progress.Percentage))
        = some (PC.done, "cancelled", 10)
      ∧ cancelledRun.storageLog.map
            (fun call => match call with
              | StorageCall.UpdateScanProgress scanID percentage currentStage _ _ =>
                (scanID, percentage, currentStage)
              | StorageCall.SaveScanResult scanID _ => (scanID, 0, "SaveScanResult"))
          = [("scan-1", 10, "Initial reconnaissance")]
      ∧ (Manager.replay exampleResultMarshal exampleMarshal { db := [] }
            cancelledRun.storageLog).map (fun m => (m.db.length, m.GetScanResult "scan-1"))
          = some (0, none)
      ∧ (Manager.replay exampleResultMarshal exampleMarshal oneStored
            cancelledRun.storageLog).map (fun m => (m.db.length, m.GetScanResult "scan-1"))
          = some (1, none)
      ∧ (Manager.replay exampleResultMarshal exampleMarshal { db := [] }
            completedRun.storageLog).map
            (fun m => ((m.GetScanResult "scan-1").get "status",
              (m.GetScanResult "scan-1").get "progress"))
          = some (some (Json.str "completed"), some (progressMap 0 "" 0 0))
      ∧ (Manager.UpdateScanProgress exampleMarshal oneStored none "test-scan-123"
            (progressMap 10 "Initial reconnaissance" 9 0)).map
            (fun r => (r.1, (r.2.GetScanResult "test-scan-123").get "progress"))
          = some (none, some (progressMap 10 "Initial reconnaissance" 9 0))
      ∧ (∀ (marshal : List (String × Json) → Option Json) (m : Manager)
          (putError : Option String) (scanID : String) (progress : Json),
          m.db.lookup ("scan_" ++ scanID) = none →
          Manager.UpdateScanProgress marshal m putError scanID progress
            = some (some "leveldb: not found", m)) := by
  refine ⟨by rfl, by rfl, by rfl, by rfl, by rfl, by rfl, ?_⟩
  intro marshal m putError scanID progress h
  simp only [Manager.UpdateScanProgress, h]

end Watchdog
